import Mathlib

/-!
# Batch scheduler and data aggregator of the lead simulation tool

A shallow embedding of `startSimulation` (src/src/simulation.js) and of
`DataAggregator` and `DataConsumptionMonitor` (src/src/data-monitor.js).

Conventions of the embedding

* JavaScript numbers that hold counts and indices are `Int` (the configuration,
  the loop variable `i`, attempt indices) or `Nat` (counters that only ever
  start at 0 and are incremented).  The byte counters and the figures of a
  report are `JSNumber`: `NaN` or an exact rational (sums of whole numbers of
  bytes are exact in binary64 below `2 ^ 53`).
* The aggregator is embedded twice.  The first embedding keeps megabyte figures
  exact; it serves the statements about the count, the absent result and which
  figures enter the sums.  The second one (namespace `Binary64`) computes in
  IEEE-754 doubles as the original does; it serves the statements about the
  values of totals, means, projections and costs.
* The session executor `runSimulation` is an external collaborator.  What the
  scheduler can observe of it is how the promise of attempt `index` settles
  (`ExecResult`) and in which order the promises of one wave settle.  Both are
  parameters (`Env`), so a theorem quantified over `Env` speaks about every
  behaviour of the executor.
* Effects (calls of `runSimulation`, of the progress bar, of `Promise.all`, of
  `setTimeout`, of the final report) are recorded in chronological order in
  `RunState.trace`.
* The `for` loop over waves need not terminate (for `concurrency <= 0`), so it
  is run with fuel: one unit per iteration.
* The listeners installed by `setupMonitoring` are functions of the session
  data and of what they read of the request or response (`PageEvent`); the
  results of the browser and of `parseInt` are part of the event.  A method
  whose body never mentions `this` (`calculateCost`, `estimateSize`) is a plain
  function; a second definition with an explicit receiver states that the
  receiver plays no part.
-/

namespace LeadSim

/-! ## JavaScript numbers -/

/-- A JavaScript number as far as this program is concerned: `NaN` (what
`parseInt` gives for a header that holds no number, and every result computed
from it) or a finite value, kept exact. -/
inductive JSNumber where
  | nan
  | val (q : ℚ)
  deriving DecidableEq

namespace JSNumber

/-- The sum `a + b`: `NaN` as soon as one operand is `NaN`. -/
def add : JSNumber → JSNumber → JSNumber
  | val a, val b => val (a + b)
  | _, _ => nan

/-- The product `a * b`. -/
def mul : JSNumber → JSNumber → JSNumber
  | val a, val b => val (a * b)
  | _, _ => nan

/-- The quotient `a / b`.  A division by zero has no finite value; it is
given as `NaN` here (the program never divides by zero). -/
def div : JSNumber → JSNumber → JSNumber
  | val a, val b => if b = 0 then nan else val (a / b)
  | _, _ => nan

/-- The value of `Math.max(a, b)`: `NaN` as soon as one argument is `NaN`. -/
def max : JSNumber → JSNumber → JSNumber
  | val a, val b => val (Max.max a b)
  | _, _ => nan

/-- The value of `Math.min(a, b)`: `NaN` as soon as one argument is `NaN`. -/
def min : JSNumber → JSNumber → JSNumber
  | val a, val b => val (Min.min a b)
  | _, _ => nan

instance : Add JSNumber := ⟨add⟩
instance : Mul JSNumber := ⟨mul⟩
instance : Div JSNumber := ⟨div⟩
instance (n : Nat) : OfNat JSNumber n := ⟨val (n : ℚ)⟩

instance : Std.Commutative (α := JSNumber) (· + ·) :=
  ⟨fun x y => by
    cases x <;> cases y <;> first | rfl | exact congrArg val (Rat.add_comm _ _)⟩

instance : Std.Associative (α := JSNumber) (· + ·) :=
  ⟨fun x y z => by
    cases x <;> cases y <;> cases z <;>
      first | rfl | exact congrArg val (Rat.add_assoc _ _ _)⟩

end JSNumber

/-! ## Data aggregator (src/src/data-monitor.js) -/

/-- Per category megabyte figures of a report (`report.breakdown`). -/
structure Breakdown where
  documents : JSNumber
  scripts : JSNumber
  stylesheets : JSNumber
  images : JSNumber
  other : JSNumber
  deriving DecidableEq

/-- The object returned by `DataConsumptionMonitor.generateReport`. -/
structure Report where
  simulationIndex : Int
  duration : Int
  totalBytes : JSNumber
  totalMB : JSNumber
  requestCount : Int
  responseCount : Int
  breakdown : Breakdown
  deriving DecidableEq

/-- The value of `parseFloat(x.toFixed(2))` for a finite `x`: `x` rounded to
two decimals, ties away from zero. -/
def toFixed2 (x : ℚ) : ℚ :=
  if x < 0 then -((⌊(-x) * 100 + 1 / 2⌋ : Int) : ℚ) / 100
  else ((⌊x * 100 + 1 / 2⌋ : Int) : ℚ) / 100

/-- The value of `parseFloat(x.toFixed(2))` for a JavaScript number:
`NaN.toFixed(2)` is the string "NaN", which parses to `NaN`. -/
def JSNumber.toFixed2 : JSNumber → JSNumber
  | .val q => .val (LeadSim.toFixed2 q)
  | .nan => .nan

/-- The value of `Math.round(x)`: nearest integer, ties towards plus infinity. -/
def mathRound (x : ℚ) : Int := ⌊x + 1 / 2⌋

/-- The object returned by `calculateCost`. -/
structure Cost where
  proxyCheap : JSNumber
  iproyal : JSNumber
  brightData : JSNumber
  deriving DecidableEq

/-- The `projections` field of the aggregated statistics. -/
structure Projections where
  per100 : JSNumber
  per1000 : JSNumber
  per10000 : JSNumber
  deriving DecidableEq

/-- The object returned by `getAggregatedStats` when there is at least one report. -/
structure AggregatedStats where
  totalSimulations : Nat
  totalDataMB : JSNumber
  averagePerSimulationMB : JSNumber
  maxPerSimulationMB : JSNumber
  minPerSimulationMB : JSNumber
  totalRequests : Int
  averageRequests : Int
  averageDuration : Int
  estimatedCostPer1000 : Cost
  projections : Projections
  deriving DecidableEq

/-- `DataAggregator.calculateCost`: prices per GB are 2.5, 7 and 12.5. -/
def calculateCost (totalMB : JSNumber) : Cost :=
  let totalGB := totalMB / 1024
  { proxyCheap := (totalGB * JSNumber.val (5 / 2)).toFixed2
    iproyal := (totalGB * 7).toFixed2
    brightData := (totalGB * JSNumber.val (25 / 2)).toFixed2 }

/-- `DataAggregator.addReport`: `this.reports.push(report)`. -/
def addReport (reports : List Report) (report : Report) : List Report :=
  reports ++ [report]

/-- `DataAggregator.getAggregatedStats`; `none` is the JavaScript `null`. -/
def getAggregatedStats (reports : List Report) : Option AggregatedStats :=
  match reports with
  | [] => none
  | r :: rs =>
    let n : ℚ := ((r :: rs).length : ℚ)
    let totalMB : JSNumber := (r :: rs).foldl (fun sum x => sum + x.totalMB) 0
    let avgMB : JSNumber := totalMB / JSNumber.val n
    let maxMB : JSNumber := rs.foldl (fun m x => JSNumber.max m x.totalMB) r.totalMB
    let minMB : JSNumber := rs.foldl (fun m x => JSNumber.min m x.totalMB) r.totalMB
    let totalRequests : Int := (r :: rs).foldl (fun sum x => sum + x.requestCount) 0
    let avgRequests : ℚ := (totalRequests : ℚ) / n
    let avgDuration : ℚ :=
      (((r :: rs).foldl (fun sum x => sum + x.duration) 0 : Int) : ℚ) / n
    some
      { totalSimulations := (r :: rs).length
        totalDataMB := totalMB.toFixed2
        averagePerSimulationMB := avgMB.toFixed2
        maxPerSimulationMB := maxMB.toFixed2
        minPerSimulationMB := minMB.toFixed2
        totalRequests := totalRequests
        averageRequests := mathRound avgRequests
        averageDuration := mathRound avgDuration
        estimatedCostPer1000 := calculateCost (avgMB * 1000)
        projections :=
          { per100 := (avgMB * 100).toFixed2
            per1000 := (avgMB * 1000).toFixed2
            per10000 := (avgMB * 10000).toFixed2 } }

/-- The class `DataAggregator`: its only field is the array `reports`. -/
structure DataAggregator where
  reports : List Report
  deriving DecidableEq

/-- The method `calculateCost` with its receiver made explicit: the result and
the aggregator after the call.  The body never mentions `this`. -/
def DataAggregator.calculateCost (self : DataAggregator) (totalMB : JSNumber) :
    Cost × DataAggregator :=
  (LeadSim.calculateCost totalMB, self)

/-! ## Data consumption monitor (src/src/data-monitor.js) -/

/-- Whether the characters `sub` occur consecutively in `s`. -/
def includesChars : List Char → List Char → Bool
  | [], sub => sub.isEmpty
  | c :: cs, sub => sub.isPrefixOf (c :: cs) || includesChars cs sub

/-- The value of `s.includes(sub)`. -/
def includes (s sub : String) : Bool :=
  includesChars s.toList sub.toList

/-- The table `estimates` of `estimateSize`, in bytes. -/
def estimates : List (String × Nat) :=
  [("document", 50000), ("script", 100000), ("stylesheet", 30000), ("image", 150000),
    ("font", 80000), ("xhr", 5000), ("fetch", 5000), ("other", 10000)]

/-- The value of `estimates.key` for a key of the table. -/
def estimateOf (key : String) : Nat :=
  (estimates.lookup key).getD 0

/-- The value of `estimates[resourceType] || estimates.other`: the entry of the
table when there is one (and it is not 0), the entry `other` otherwise.
`resourceType` is a resource type as reported by the browser; keys that a
JavaScript object inherits (such as `constructor`) are outside the model. -/
def estimateOrOther (resourceType : String) : Nat :=
  match estimates.lookup resourceType with
  | some v => if v = 0 then estimateOf "other" else v
  | none => estimateOf "other"

/-- `DataConsumptionMonitor.estimateSize(resourceType, url)`. -/
def estimateSize (resourceType url : String) : Nat :=
  if includes url "google" || includes url "facebook" then
    estimateOrOther resourceType
  else if includes url ".jpg" || includes url ".png" || includes url ".webp" then
    estimateOf "image"
  else if includes url ".js" then
    estimateOf "script"
  else if includes url ".css" then
    estimateOf "stylesheet"
  else
    estimateOrOther resourceType

/-- One entry of `sessionData.requests` (filled in debug mode only). -/
structure RequestLog where
  type : String
  url : String
  method : String
  resourceType : String
  timestamp : Int
  deriving DecidableEq

/-- The object `sessionData` of a `DataConsumptionMonitor`. -/
structure SessionData where
  totalBytes : JSNumber
  requestCount : Int
  responseCount : Int
  imageBytes : JSNumber
  scriptBytes : JSNumber
  stylesheetBytes : JSNumber
  documentBytes : JSNumber
  otherBytes : JSNumber
  startTime : Int
  requests : List RequestLog
  deriving DecidableEq

/-- The session data set by the constructor (and by `reset`), `now` being the
value of `Date.now()`. -/
def newSessionData (now : Int) : SessionData :=
  { totalBytes := 0
    requestCount := 0
    responseCount := 0
    imageBytes := 0
    scriptBytes := 0
    stylesheetBytes := 0
    documentBytes := 0
    otherBytes := 0
    startTime := now
    requests := [] }

/-- The method `estimateSize` with its receiver made explicit: the result and
the session data after the call.  The body never mentions `this`. -/
def SessionData.estimateSize (self : SessionData) (resourceType url : String) :
    Nat × SessionData :=
  (LeadSim.estimateSize resourceType url, self)

/-- What the `request` listener reads of a request; `timestamp` is the value
of `Date.now()` when the entry is logged. -/
structure RequestEvent where
  url : String
  method : String
  resourceType : String
  timestamp : Int
  deriving DecidableEq

/-- How the size of a response is obtained by the `response` listener. -/
inductive Measurement where
  /-- The header `content-length` is present (a non-empty string); `parsed` is
  the value of `parseInt` on it, `none` standing for `NaN`. -/
  | contentLength (parsed : Option Int)
  /-- No such header, and `response.body()` gives a body of `length` bytes. -/
  | bodyLength (length : Nat)
  /-- No such header, and `response.body()` fails: the size is estimated. -/
  | bodyUnreadable
  /-- The call `response.headers()` fails: the size is estimated. -/
  | headersUnreadable
  deriving DecidableEq

/-- What the `response` listener reads of a response. -/
structure ResponseEvent where
  url : String
  resourceType : String
  measurement : Measurement
  deriving DecidableEq

/-- An event delivered to the listeners installed by `setupMonitoring`. -/
inductive PageEvent where
  | request (e : RequestEvent)
  | response (e : ResponseEvent)
  /-- A response whose request, URL, resource type or status cannot be read:
  the outer `catch` of the listener swallows the error. -/
  | responseUnreadable
  deriving DecidableEq

/-- The number `parseInt` returns. -/
def parsedNumber : Option Int → JSNumber
  | some n => JSNumber.val (n : ℚ)
  | none => JSNumber.nan

/-- The value of the variable `contentLength` of the `response` listener when
it is added to the totals. -/
def contentLengthOf (e : ResponseEvent) : JSNumber :=
  match e.measurement with
  | .contentLength parsed => parsedNumber parsed
  | .bodyLength length => JSNumber.val (length : ℚ)
  | .bodyUnreadable => JSNumber.val (estimateSize e.resourceType e.url : ℚ)
  | .headersUnreadable => JSNumber.val (estimateSize e.resourceType e.url : ℚ)

/-- The `request` listener of `setupMonitoring`. -/
def onRequest (debug : Bool) (s : SessionData) (e : RequestEvent) : SessionData :=
  let s1 := { s with requestCount := s.requestCount + 1 }
  if debug then
    { s1 with
      requests := s1.requests ++
        [{ type := "request"
           url := e.url.take 100
           method := e.method
           resourceType := e.resourceType
           timestamp := e.timestamp }] }
  else s1

/-- The `response` listener of `setupMonitoring`, for a response that can be
read.  The two updates after the measurement run without interruption. -/
def onResponse (s : SessionData) (e : ResponseEvent) : SessionData :=
  let s1 := { s with responseCount := s.responseCount + 1 }
  let contentLength := contentLengthOf e
  let s2 := { s1 with totalBytes := s1.totalBytes + contentLength }
  if e.resourceType = "image" then
    { s2 with imageBytes := s2.imageBytes + contentLength }
  else if e.resourceType = "script" then
    { s2 with scriptBytes := s2.scriptBytes + contentLength }
  else if e.resourceType = "stylesheet" then
    { s2 with stylesheetBytes := s2.stylesheetBytes + contentLength }
  else if e.resourceType = "document" then
    { s2 with documentBytes := s2.documentBytes + contentLength }
  else
    { s2 with otherBytes := s2.otherBytes + contentLength }

/-- One event handled by the listeners. -/
def handleEvent (debug : Bool) (s : SessionData) : PageEvent → SessionData
  | .request e => onRequest debug s e
  | .response e => onResponse s e
  | .responseUnreadable => { s with responseCount := s.responseCount + 1 }

/-- A sequence of events handled one after the other. -/
def handleEvents (debug : Bool) (s : SessionData) (events : List PageEvent) : SessionData :=
  events.foldl (handleEvent debug) s

/-- `DataConsumptionMonitor.generateReport(simulationIndex)`, `now` being the
value of `Date.now()` at the call. -/
def generateReport (s : SessionData) (now : Int) (simulationIndex : Int) : Report :=
  let duration : Int := now - s.startTime
  let totalMB := s.totalBytes / JSNumber.val (1024 * 1024)
  { simulationIndex := simulationIndex
    duration := mathRound ((duration : ℚ) / 1000)
    totalBytes := s.totalBytes
    totalMB := totalMB.toFixed2
    requestCount := s.requestCount
    responseCount := s.responseCount
    breakdown :=
      { documents := (s.documentBytes / JSNumber.val (1024 * 1024)).toFixed2
        scripts := (s.scriptBytes / JSNumber.val (1024 * 1024)).toFixed2
        stylesheets := (s.stylesheetBytes / JSNumber.val (1024 * 1024)).toFixed2
        images := (s.imageBytes / JSNumber.val (1024 * 1024)).toFixed2
        other := (s.otherBytes / JSNumber.val (1024 * 1024)).toFixed2 } }

/-! ## Batch scheduler (src/src/simulation.js) -/

/-- The two fields of the configuration object that `startSimulation` reads. -/
structure Config where
  totalSimulations : Int
  concurrency : Int
  deriving DecidableEq

/-- What the promise returned by `runSimulation` can settle to: it resolves
with an object `{ success, dataReport }`, resolves with a bare `false` (the
early returns when a button is not found), or rejects (a fault raised outside
the executor's own `try`).  `dataReport = none` stands for an absent
(`undefined`) field. -/
inductive ExecResult where
  | outcome (success : Bool) (dataReport : Option Report)
  | bareFalse
  | fault
  deriving DecidableEq

/-- The value a per attempt handler chain (`.then(...).catch(...)`) resolves
with, i.e. one entry of the array `results` of `Promise.all`. -/
inductive Settled where
  | bool (b : Bool)
  | object (success : Bool) (dataReport : Option Report)
  deriving DecidableEq

/-- JavaScript truthiness of the value passed to the `.then` handler, as tested
by `if (success)`: an object is truthy whatever its fields, `false` is not. -/
def ExecResult.truthy : ExecResult → Bool
  | .outcome _ _ => true
  | .bareFalse => false
  | .fault => false

/-- The report that `if (success.dataReport)` finds, if any.  A property read
on `false` gives `undefined`; a rejected promise never reaches the test. -/
def ExecResult.report : ExecResult → Option Report
  | .outcome _ r => r
  | .bareFalse => none
  | .fault => none

/-- Whether the attempt ended with `success: true`. -/
def ExecResult.succeeded : ExecResult → Bool
  | .outcome s _ => s
  | .bareFalse => false
  | .fault => false

/-- The value the handler chain of one attempt resolves with:
`return success.success || success` in `.then`, `return false` in `.catch`. -/
def handlerValue : ExecResult → Settled
  | .outcome true _ => .bool true
  | .outcome false r => .object false r
  | .bareFalse => .bool false
  | .fault => .bool false

/-- Observable effects of `startSimulation`, in the order they happen. -/
inductive Event where
  /-- The call `progressBar.start(totalSimulations, 0, ...)`. -/
  | barStart (total : Int)
  /-- The call `runSimulation(config, index)`. -/
  | launch (index : Int)
  /-- The handler of attempt `index` ran and called
  `progressBar.update(completed, { successCount: successful })`. -/
  | progress (index : Int) (completed successful : Nat)
  /-- The wait `await Promise.all(batch)` is over; `batch` lists the attempts
  whose promises were pushed, `results` is the array it resolves with. -/
  | awaitAll (batch : List Int) (results : List Settled)
  /-- The pause `setTimeout(r, Math.random() * 5000 + 2000)`, in milliseconds. -/
  | pause (ms : ℚ)
  /-- The call `progressBar.stop()`. -/
  | barStop
  /-- The line "Simulation completed: successful/total successful". -/
  | summary (successful : Nat) (total : Int)
  /-- The call `dataAggregator.displayFinalReport()`, with the statistics it reads. -/
  | finalReport (stats : Option AggregatedStats)
  deriving DecidableEq

/-- The environment of one run: how the promise of `runSimulation(config, index)`
settles, when it settles relative to the other attempts of its wave (smaller
is earlier, ties keep the launch order), and the successive values of
`Math.random()`. -/
structure Env where
  runSimulation : Int → ExecResult
  finish : Int → Nat
  random : Nat → ℚ

/-- The mutable state of `startSimulation`. -/
structure RunState where
  completedSimulations : Nat
  successfulSimulations : Nat
  /-- The field `dataAggregator.reports`. -/
  reports : List Report
  /-- Number of values of `Math.random()` drawn so far. -/
  draws : Nat
  trace : List Event

/-- The handler chain of attempt `index` runs: the `.then` callback when the
promise is fulfilled, the `.catch` callback when it is rejected. -/
def settle (env : Env) (s : RunState) (index : Int) : RunState :=
  match env.runSimulation index with
  | .fault =>
    let completed := s.completedSimulations + 1
    { s with
      completedSimulations := completed
      trace := s.trace ++ [Event.progress index completed s.successfulSimulations] }
  | success =>
    let completed := s.completedSimulations + 1
    let successful :=
      if success.truthy then s.successfulSimulations + 1 else s.successfulSimulations
    let reports :=
      match success.report with
      | some r => addReport s.reports r
      | none => s.reports
    { s with
      completedSimulations := completed
      successfulSimulations := successful
      reports := reports
      trace := s.trace ++ [Event.progress index completed successful] }

/-- The attempts launched by the inner `for (j = 0; j < batchSize; j++)` loop
of the wave that starts at offset `i`: indices `i + j + 1`. -/
def batchIndices (i batchSize : Int) : List Int :=
  (List.range batchSize.toNat).map (fun (j : Nat) => i + (j : Int) + 1)

/-- The order in which the attempts of a wave settle. -/
def completionOrder (env : Env) (batch : List Int) : List Int :=
  batch.insertionSort (fun a b => env.finish a ≤ env.finish b)

/-- One iteration of the outer `for` loop, for the wave starting at offset `i`. -/
def runWave (config : Config) (env : Env) (i : Int) (s : RunState) : RunState :=
  let batchSize := min config.concurrency (config.totalSimulations - i)
  let batch := batchIndices i batchSize
  let s1 := { s with trace := s.trace ++ batch.map Event.launch }
  let s2 := (completionOrder env batch).foldl (settle env) s1
  let results := batch.map (fun index => handlerValue (env.runSimulation index))
  let s3 := { s2 with trace := s2.trace ++ [Event.awaitAll batch results] }
  if i + batchSize < config.totalSimulations then
    { s3 with
      draws := s3.draws + 1
      trace := s3.trace ++ [Event.pause (env.random s3.draws * 5000 + 2000)] }
  else s3

/-- Result of running with fuel: the run returned, or the fuel ran out with
the loop still going (the state reached so far is kept). -/
inductive Run (α : Type) where
  | done (s : α)
  | pending (s : α)

/-- The loop `for (let i = 0; i < totalSimulations; i += concurrency)`, entered
with loop variable `i`; every iteration costs one unit of fuel. -/
def waveLoop (config : Config) (env : Env) : Nat → Int → RunState → Run RunState
  | 0, i, s => if i < config.totalSimulations then .pending s else .done s
  | fuel + 1, i, s =>
    if i < config.totalSimulations then
      waveLoop config env fuel (i + config.concurrency) (runWave config env i s)
    else .done s

/-- The state before the wave loop: counters at zero, a fresh aggregator, the
progress bar started. -/
def initialState (config : Config) : RunState :=
  { completedSimulations := 0
    successfulSimulations := 0
    reports := []
    draws := 0
    trace := [Event.barStart config.totalSimulations] }

/-- The statements after the wave loop: stop the bar, print the summary line,
display the final report. -/
def displayResults (config : Config) (s : RunState) : RunState :=
  { s with
    trace := s.trace ++
      [Event.barStop,
       Event.summary s.successfulSimulations config.totalSimulations,
       Event.finalReport (getAggregatedStats s.reports)] }

/-- The function `startSimulation(config)`. -/
def startSimulation (fuel : Nat) (config : Config) (env : Env) : Run RunState :=
  match waveLoop config env fuel 0 (initialState config) with
  | .done s => .done (displayResults config s)
  | .pending s => .pending s

/-! ## Reading a trace -/

/-- The indices passed to `runSimulation`, in call order. -/
def launchedOf (tr : List Event) : List Int :=
  tr.filterMap (fun e => match e with | .launch i => some i | _ => none)

/-- The attempts that reached a terminal state, in completion order. -/
def settledOf (tr : List Event) : List Int :=
  tr.filterMap (fun e => match e with | .progress i _ _ => some i | _ => none)

/-- The successive values of the completed counter shown by the progress bar. -/
def completedLog (tr : List Event) : List Nat :=
  tr.filterMap (fun e => match e with | .progress _ c _ => some c | _ => none)

/-- The waves: the batches waited for by the successive `Promise.all`. -/
def wavesOf (tr : List Event) : List (List Int) :=
  tr.filterMap (fun e => match e with | .awaitAll b _ => some b | _ => none)

/-- The per attempt outcomes: the arrays `results`, concatenated; entry `k`
belongs to attempt `k + 1`. -/
def resultsOf (tr : List Event) : List Settled :=
  (tr.filterMap (fun e => match e with | .awaitAll _ r => some r | _ => none)).flatten

/-- The durations of the pauses between waves. -/
def pausesOf (tr : List Event) : List ℚ :=
  tr.filterMap (fun e => match e with | .pause ms => some ms | _ => none)

/-- The attempts in flight after one more event: a launch adds its attempt,
the completion of an attempt removes it. -/
def flightStep (inFlight : List Int) : Event → List Int
  | .launch i => inFlight ++ [i]
  | .progress i _ _ => inFlight.erase i
  | _ => inFlight

/-- The attempts that are in flight (launched, not yet in a terminal state)
at the end of the trace `tr`. -/
def inFlightAfter (tr : List Event) : List Int :=
  tr.foldl flightStep []

/-- The indices `1, 2, ..., n`. -/
def indicesUpTo (n : Int) : List Int :=
  (List.range n.toNat).map (fun (k : Nat) => (k : Int) + 1)

/-- Number of iterations of the wave loop: the ceiling of
`totalSimulations / concurrency`. -/
def waveCount (config : Config) : Nat :=
  ((config.totalSimulations + config.concurrency - 1) / config.concurrency).toNat

/-- The progress events produced when the attempts `order` settle one after
the other, starting from the counters `completed` and `successful`. -/
def settleEvents (env : Env) : Nat → Nat → List Int → List Event
  | _, _, [] => []
  | completed, successful, index :: rest =>
    let successful' :=
      if (env.runSimulation index).truthy then successful + 1 else successful
    Event.progress index (completed + 1) successful' ::
      settleEvents env (completed + 1) successful' rest

/-- The events of the wave starting at offset `i`, entered in state `s`. -/
def waveEvents (config : Config) (env : Env) (i : Int) (s : RunState) : List Event :=
  let batchSize := min config.concurrency (config.totalSimulations - i)
  let batch := batchIndices i batchSize
  batch.map Event.launch ++
    settleEvents env s.completedSimulations s.successfulSimulations
      (completionOrder env batch) ++
    [Event.awaitAll batch (batch.map (fun index => handlerValue (env.runSimulation index)))] ++
    (if i + batchSize < config.totalSimulations then
      [Event.pause (env.random s.draws * 5000 + 2000)] else [])

/-- What the counters and the trace hold when the loop variable is `i`: every
quantity is the one of the attempts `1 .. min i totalSimulations`. -/
def CountInv (config : Config) (env : Env) (i : Int) (s : RunState) : Prop :=
  0 ≤ i ∧
  launchedOf s.trace = indicesUpTo (min i config.totalSimulations) ∧
  (settledOf s.trace).Perm (indicesUpTo (min i config.totalSimulations)) ∧
  completedLog s.trace =
    (List.range (min i config.totalSimulations).toNat).map (fun j => j + 1) ∧
  s.completedSimulations = (min i config.totalSimulations).toNat ∧
  s.successfulSimulations =
    (indicesUpTo (min i config.totalSimulations)).countP (fun k => (env.runSimulation k).truthy) ∧
  s.reports.length =
    (indicesUpTo (min i config.totalSimulations)).countP
      (fun k => (env.runSimulation k).report.isSome) ∧
  resultsOf s.trace =
    (indicesUpTo (min i config.totalSimulations)).map
      (fun k => handlerValue (env.runSimulation k)) ∧
  (wavesOf s.trace).flatten = indicesUpTo (min i config.totalSimulations)

/-- The shape of the run when the loop variable is `i`: `i` is a multiple of
the concurrency, the waves so far are the consecutive index ranges, nothing is
in flight between waves, and at every earlier instant the attempts in flight
were at most `concurrency` attempts, all of one wave. -/
def WaveInv (config : Config) (i : Int) (s : RunState) : Prop :=
  ∃ w : Nat, i = config.concurrency * (w : Int) ∧
    i < config.totalSimulations + config.concurrency ∧
    wavesOf s.trace = (List.range w).map (fun (v : Nat) =>
      batchIndices (config.concurrency * (v : Int))
        (min config.concurrency (config.totalSimulations - config.concurrency * (v : Int)))) ∧
    inFlightAfter s.trace = [] ∧
    ∀ p, p <+: s.trace →
      ((inFlightAfter p).length : Int) ≤ config.concurrency ∧
      (inFlightAfter p = [] ∨
        ∃ wave ∈ wavesOf s.trace, ∀ a ∈ inFlightAfter p, a ∈ wave)

/-- The environment `env` in which the attempts selected by `faulty` raise a
fault instead; every other attempt behaves as in `env`. -/
def Env.withFaults (env : Env) (faulty : Int → Bool) : Env :=
  { env with runSimulation := fun k => if faulty k then ExecResult.fault else env.runSimulation k }

/-- A sample usage report. -/
def demoReport : Report :=
  { simulationIndex := 1
    duration := 42
    totalBytes := 2097152
    totalMB := 2
    requestCount := 30
    responseCount := 28
    breakdown := { documents := 1, scripts := 1, stylesheets := 0, images := 0, other := 0 } }

/-- A sample executor: every third attempt ends with `success: false` and a
report, attempts 5 and 10 return a bare `false`, the others succeed; within a
wave the later launched attempts tend to settle first. -/
def demoEnv : Env :=
  { runSimulation := fun k =>
      if k % 3 = 0 then ExecResult.outcome false (some demoReport)
      else if k % 5 = 0 then ExecResult.bareFalse
      else ExecResult.outcome true (some demoReport)
    finish := fun k => (7 - k).toNat % 3
    random := fun _ => 1 / 2 }

/-- An executor whose every attempt ends with `success: false` and a report. -/
def failingEnv : Env :=
  { runSimulation := fun _ => ExecResult.outcome false (some demoReport)
    finish := fun _ => 0
    random := fun _ => 0 }

/-- The five byte counters of a session. -/
inductive Category where
  | document
  | script
  | stylesheet
  | image
  | other
  deriving DecidableEq

/-- The counter that the `switch` of the `response` listener updates for a
resource type. -/
def categoryOf (resourceType : String) : Category :=
  if resourceType = "image" then Category.image
  else if resourceType = "script" then Category.script
  else if resourceType = "stylesheet" then Category.stylesheet
  else if resourceType = "document" then Category.document
  else Category.other

/-- The value of a byte counter of the session data. -/
def SessionData.counter (s : SessionData) : Category → JSNumber
  | .document => s.documentBytes
  | .script => s.scriptBytes
  | .stylesheet => s.stylesheetBytes
  | .image => s.imageBytes
  | .other => s.otherBytes

/-- A session at the moment its report is generated: its data, the value of
`Date.now()` and the index of the simulation. -/
structure FinishedSession where
  data : SessionData
  now : Int
  simulationIndex : Int

/-- The report generated for a finished session. -/
def FinishedSession.report (f : FinishedSession) : Report :=
  generateReport f.data f.now f.simulationIndex

/-- A sample session: one response of 4000 bytes, measured by its body. -/
def smallSession : SessionData :=
  handleEvents false (newSessionData 0)
    [PageEvent.request ⟨"https://example.com/api/items", "GET", "fetch", 5⟩,
      PageEvent.response
        ⟨"https://example.com/api/items", "fetch", Measurement.bodyLength 4000⟩]

/-- The total is the sum of the five category counters. -/
def BytesBalanced (s : SessionData) : Prop :=
  s.totalBytes =
    s.documentBytes + s.scriptBytes + s.stylesheetBytes + s.imageBytes + s.otherBytes

/-- The six byte counters are numbers (none is `NaN`), and the total is the
sum of the five others. -/
def BytesAreNumbers (s : SessionData) : Prop :=
  ∃ document script stylesheet image other : ℚ,
    s.documentBytes = JSNumber.val document ∧ s.scriptBytes = JSNumber.val script ∧
    s.stylesheetBytes = JSNumber.val stylesheet ∧ s.imageBytes = JSNumber.val image ∧
    s.otherBytes = JSNumber.val other ∧
    s.totalBytes = JSNumber.val (document + script + stylesheet + image + other)

/-- The method `generateReport` with its receiver made explicit: the report
and the session data after the call.  The body only reads `this.sessionData`. -/
def SessionData.generateReport (self : SessionData) (now simulationIndex : Int) :
    Report × SessionData :=
  (LeadSim.generateReport self now simulationIndex, self)

/-- Three responses, the second of which carries a `content-length` header
that holds no number (`parseInt` gives `NaN`); the two others are measured by
their bodies, 1000 and 2000 bytes. -/
def corruptingEvents : List PageEvent :=
  [PageEvent.response ⟨"https://example.com/hero", "image", Measurement.bodyLength 1000⟩,
    PageEvent.response ⟨"https://example.com/app", "script", Measurement.contentLength none⟩,
    PageEvent.response ⟨"https://example.com/", "document", Measurement.bodyLength 2000⟩]

/-- Two responses, the second of which carries the header `content-length: -500`. -/
def negativeEvents : List PageEvent :=
  [PageEvent.response ⟨"https://example.com/hero", "image", Measurement.bodyLength 1000⟩,
    PageEvent.response
      ⟨"https://example.com/app", "script", Measurement.contentLength (some (-500))⟩]

/-- Whether an event is a request. -/
def PageEvent.isRequest : PageEvent → Bool
  | .request _ => true
  | _ => false

/-- Whether an event is a response (readable or not). -/
def PageEvent.isResponse : PageEvent → Bool
  | .request _ => false
  | _ => true

/-- The alternation of waves and pauses in a trace: `true` for the end of a
wave (its `Promise.all` resolved), `false` for a pause. -/
def rhythm (tr : List Event) : List Bool :=
  tr.filterMap (fun e =>
    match e with
    | .awaitAll _ _ => some true
    | .pause _ => some false
    | _ => none)

/-- The pairs (completed, successful) shown by the successive updates of the
progress bar. -/
def progressLog (tr : List Event) : List (Nat × Nat) :=
  tr.filterMap (fun e => match e with | .progress _ c k => some (c, k) | _ => none)

/-- The duration, in milliseconds, of the pause that takes the `k`-th value of
`Math.random()`: `Math.random() * 5000 + 2000`. -/
def pauseDuration (env : Env) (k : Nat) : ℚ :=
  env.random k * 5000 + 2000

/-- The state held by the result of a run, returned or still going. -/
def Run.state {α : Type} : Run α → α
  | .done s => s
  | .pending s => s

/-- The pauses of the trace are those of the values of `Math.random()` drawn
so far, in order. -/
def DrawInv (env : Env) (s : RunState) : Prop :=
  pausesOf s.trace = (List.range s.draws).map (pauseDuration env)

/-- The alternation of waves and pauses when the loop variable is `i`: while
attempts remain every wave has been followed by a pause; once none remains the
last wave has not. -/
def RhythmInv (config : Config) (i : Int) (s : RunState) : Prop :=
  ∃ w : Nat, i = config.concurrency * (w : Int) ∧
    ((i < config.totalSimulations ∧
        rhythm s.trace = (List.replicate w [true, false]).flatten) ∨
      (config.totalSimulations ≤ i ∧ i < config.totalSimulations + config.concurrency ∧
        0 < w ∧
        rhythm s.trace = (List.replicate (w - 1) [true, false]).flatten ++ [true]))

/-- The counters never leave the range `successful <= completed <=
totalSimulations`, neither in the state nor in any update shown so far. -/
def ProgressInv (config : Config) (s : RunState) : Prop :=
  s.successfulSimulations ≤ s.completedSimulations ∧
  ∀ p ∈ progressLog s.trace, p.2 ≤ p.1 ∧ (p.1 : Int) ≤ config.totalSimulations

/-- A configuration object that also carries the field `interBatchDelayRange`
(minimum and maximum, in milliseconds) named by the specification.
`startSimulation` reads `totalSimulations` and `concurrency` only. -/
structure ConfigWithDelay extends Config where
  interBatchDelayRange : ℚ × ℚ

/-- A configuration asking for pauses of 100 to 200 milliseconds. -/
def shortDelayConfig : ConfigWithDelay :=
  { totalSimulations := 2, concurrency := 1, interBatchDelayRange := (100, 200) }

/-- The report of a session that received a `content-length` header holding
no number. -/
def nanReport : Report :=
  generateReport (handleEvents false (newSessionData 0) corruptingEvents) 1000 1

/-! ## Binary64 arithmetic

The aggregator computes with IEEE-754 doubles: every sum, product and quotient
is the exact result rounded to the nearest double, ties to the even
significand, and `parseFloat(x.toFixed(2))` is the double nearest to the
decimal that `toFixed` prints.  The definitions below model this; they are
used for the statements about the values of the statistics and of the costs.
-/

namespace Binary64

/-- The integer nearest to `x`; of the two nearest ones, the even one. -/
def roundHalfEven (x : ℚ) : Int :=
  if x - ⌊x⌋ < 1 / 2 then ⌊x⌋
  else if 1 / 2 < x - ⌊x⌋ then ⌊x⌋ + 1
  else if ⌊x⌋ % 2 = 0 then ⌊x⌋ else ⌊x⌋ + 1

/-- The exponent of the unit in the last place of the doubles around `x`: 52
below the exponent of the power of two at or below `|x|`, which is taken as
-1022 at least (below it the doubles are subnormal, with spacing `2 ^ -1074`). -/
def ulpExponent (x : ℚ) : Int := max (Int.log 2 |x|) (-1022) - 52

/-- The multiple of the unit in the last place nearest to `x`, ties to the
even multiple: the double nearest to `x` when `x` does not overflow. -/
def nearest (x : ℚ) : ℚ := (roundHalfEven (x / 2 ^ ulpExponent x) : ℚ) * 2 ^ ulpExponent x

/-- The largest finite double, `Number.MAX_VALUE`. -/
def maxValue : ℚ := 2 ^ (1024 : ℕ) - 2 ^ (971 : ℕ)

/-- A JavaScript number: `NaN`, plus or minus `Infinity`, or a finite double
given by its exact value.  The two zeros are not told apart (no operation of
the aggregator does). -/
inductive F64 where
  | nan
  | inf (negative : Bool)
  | fin (q : ℚ)
  deriving DecidableEq

namespace F64

/-- The double that the real number `x` rounds to: the result of an arithmetic
operation whose exact value is `x`, and the value of a numeric literal or of
`parseFloat` on the decimal `x`. -/
def ofRat (x : ℚ) : F64 :=
  if maxValue < |nearest x| then inf (decide (x < 0)) else fin (nearest x)

/-- The double held by a field of a report: the double nearest to the number
recorded in the field. -/
def ofJSNumber : JSNumber → F64
  | .nan => nan
  | .val q => ofRat q

/-- The sum `a + b`. -/
def add : F64 → F64 → F64
  | fin a, fin b => ofRat (a + b)
  | inf s, inf t => if s = t then inf s else nan
  | inf s, fin _ => inf s
  | fin _, inf t => inf t
  | _, _ => nan

/-- The product `a * b`. -/
def mul : F64 → F64 → F64
  | fin a, fin b => ofRat (a * b)
  | inf s, inf t => inf (s != t)
  | inf s, fin b => if b = 0 then nan else inf (s != decide (b < 0))
  | fin a, inf t => if a = 0 then nan else inf (decide (a < 0) != t)
  | _, _ => nan

/-- The quotient `a / b`.  A zero divisor is taken as `+0`; the aggregator
divides by 1024 and by the number of reports only. -/
def div : F64 → F64 → F64
  | fin a, fin b =>
    if b = 0 then (if a = 0 then nan else inf (decide (a < 0))) else ofRat (a / b)
  | fin _, inf _ => fin 0
  | inf s, fin b => inf (s != decide (b < 0))
  | _, _ => nan

/-- The value of `Math.max(a, b)`: `NaN` as soon as one argument is `NaN`. -/
def max : F64 → F64 → F64
  | nan, _ => nan
  | _, nan => nan
  | inf false, _ => inf false
  | _, inf false => inf false
  | inf true, y => y
  | x, inf true => x
  | fin a, fin b => fin (Max.max a b)

/-- The value of `Math.min(a, b)`: `NaN` as soon as one argument is `NaN`. -/
def min : F64 → F64 → F64
  | nan, _ => nan
  | _, nan => nan
  | inf true, _ => inf true
  | _, inf true => inf true
  | inf false, y => y
  | x, inf false => x
  | fin a, fin b => fin (Min.min a b)

instance : Add F64 := ⟨add⟩
instance : Mul F64 := ⟨mul⟩
instance : Div F64 := ⟨div⟩

/-- The comparison `a <= b` of JavaScript: false as soon as one side is `NaN`. -/
def le : F64 → F64 → Prop
  | nan, _ => False
  | _, nan => False
  | inf true, _ => True
  | _, inf false => True
  | inf false, _ => False
  | _, inf true => False
  | fin a, fin b => a ≤ b

instance decidableLe (a b : F64) : Decidable (le a b) := by
  unfold le
  split <;> infer_instance

/-- The number spelled by a numeric text. -/
inductive Numeral where
  | nan
  | infinity (negative : Bool)
  | decimal (q : ℚ)
  deriving DecidableEq

/-- The text `x.toFixed(2)`, given by the number it spells: the exact value of
the double rounded to two decimals, ties away from zero.  From `10 ^ 21` on
`toFixed` gives the text of `String(x)`, which spells a number that parses back
to `x`; it is given as `x`. -/
def toFixed2Text : F64 → Numeral
  | fin q => .decimal (if (10 : ℚ) ^ (21 : ℕ) ≤ |q| then q else LeadSim.toFixed2 q)
  | inf s => .infinity s
  | nan => .nan

/-- The value of `parseFloat(text)` for a numeric text. -/
def parseFloat : Numeral → F64
  | .decimal q => ofRat q
  | .infinity s => inf s
  | .nan => nan

/-- The value of `parseFloat(x.toFixed(2))`. -/
def toFixed2 (x : F64) : F64 := parseFloat x.toFixed2Text

/-- The value of `Math.round(x)`: the nearest integer, ties towards plus
infinity. -/
def round : F64 → F64
  | fin q => ofRat (mathRound q : ℚ)
  | x => x

end F64

/-- The object returned by `calculateCost`. -/
structure Cost where
  proxyCheap : F64
  iproyal : F64
  brightData : F64
  deriving DecidableEq

/-- The `projections` field of the aggregated statistics. -/
structure Projections where
  per100 : F64
  per1000 : F64
  per10000 : F64
  deriving DecidableEq

/-- The object returned by `getAggregatedStats` when there is at least one report. -/
structure AggregatedStats where
  totalSimulations : Nat
  totalDataMB : F64
  averagePerSimulationMB : F64
  maxPerSimulationMB : F64
  minPerSimulationMB : F64
  totalRequests : F64
  averageRequests : F64
  averageDuration : F64
  estimatedCostPer1000 : Cost
  projections : Projections
  deriving DecidableEq

/-- `DataAggregator.calculateCost`.  The literals 1024, 2.5, 7 and 12.5 are
doubles as they stand. -/
def calculateCost (totalMB : F64) : Cost :=
  let totalGB := totalMB / F64.fin 1024
  { proxyCheap := (totalGB * F64.fin (5 / 2)).toFixed2
    iproyal := (totalGB * F64.fin 7).toFixed2
    brightData := (totalGB * F64.fin (25 / 2)).toFixed2 }

/-- `DataAggregator.getAggregatedStats`; `none` is the JavaScript `null`. -/
def getAggregatedStats (reports : List Report) : Option AggregatedStats :=
  match reports with
  | [] => none
  | r :: rs =>
    let n : F64 := F64.ofRat ((r :: rs).length : ℚ)
    let totalMB : F64 :=
      (r :: rs).foldl (fun sum x => sum + F64.ofJSNumber x.totalMB) (F64.fin 0)
    let avgMB : F64 := totalMB / n
    let maxMB : F64 :=
      rs.foldl (fun m x => F64.max m (F64.ofJSNumber x.totalMB)) (F64.ofJSNumber r.totalMB)
    let minMB : F64 :=
      rs.foldl (fun m x => F64.min m (F64.ofJSNumber x.totalMB)) (F64.ofJSNumber r.totalMB)
    let totalRequests : F64 :=
      (r :: rs).foldl (fun sum x => sum + F64.ofRat (x.requestCount : ℚ)) (F64.fin 0)
    let avgRequests : F64 := totalRequests / n
    let avgDuration : F64 :=
      (r :: rs).foldl (fun sum x => sum + F64.ofRat (x.duration : ℚ)) (F64.fin 0) / n
    some
      { totalSimulations := (r :: rs).length
        totalDataMB := totalMB.toFixed2
        averagePerSimulationMB := avgMB.toFixed2
        maxPerSimulationMB := maxMB.toFixed2
        minPerSimulationMB := minMB.toFixed2
        totalRequests := totalRequests
        averageRequests := avgRequests.round
        averageDuration := avgDuration.round
        estimatedCostPer1000 := calculateCost (avgMB * F64.fin 1000)
        projections :=
          { per100 := (avgMB * F64.fin 100).toFixed2
            per1000 := (avgMB * F64.fin 1000).toFixed2
            per10000 := (avgMB * F64.fin 10000).toFixed2 } }

/-- The three amounts in reais printed next to the costs, as texts. -/
structure CostText where
  proxyCheap : F64.Numeral
  iproyal : F64.Numeral
  brightData : F64.Numeral
  deriving DecidableEq

/-- The figures printed by `displayFinalReport` when there is at least one
report, in the order of the printed lines. -/
structure DisplayedReport where
  simulations : Nat
  totalDataMB : F64
  averagePerSimulationMB : F64
  maxPerSimulationMB : F64
  minPerSimulationMB : F64
  averageRequests : F64
  averageDuration : F64
  per100 : F64
  per1000 : F64
  per1000GB : F64.Numeral
  per10000 : F64
  per10000GB : F64.Numeral
  /-- The costs in dollars: `calculateCost(stats.projections.per1000)`. -/
  costs : Cost
  /-- The costs in reais: each cost times 5.5, with two decimals. -/
  costsBRL : CostText
  deriving DecidableEq

/-- `DataAggregator.displayFinalReport`: `none` stands for the single line
printed when no data was collected. -/
def displayFinalReport (reports : List Report) : Option DisplayedReport :=
  match getAggregatedStats reports with
  | none => none
  | some stats =>
    let costs := calculateCost stats.projections.per1000
    some
      { simulations := stats.totalSimulations
        totalDataMB := stats.totalDataMB
        averagePerSimulationMB := stats.averagePerSimulationMB
        maxPerSimulationMB := stats.maxPerSimulationMB
        minPerSimulationMB := stats.minPerSimulationMB
        averageRequests := stats.averageRequests
        averageDuration := stats.averageDuration
        per100 := stats.projections.per100
        per1000 := stats.projections.per1000
        per1000GB := (stats.projections.per1000 / F64.fin 1024).toFixed2Text
        per10000 := stats.projections.per10000
        per10000GB := (stats.projections.per10000 / F64.fin 1024).toFixed2Text
        costs := costs
        costsBRL :=
          { proxyCheap := (costs.proxyCheap * F64.fin (11 / 2)).toFixed2Text
            iproyal := (costs.iproyal * F64.fin (11 / 2)).toFixed2Text
            brightData := (costs.brightData * F64.fin (11 / 2)).toFixed2Text } }

/-- The count, total, minimum and maximum of the statistics. -/
def countTotalMinMax (stats : AggregatedStats) : Nat × F64 × F64 × F64 :=
  (stats.totalSimulations, stats.totalDataMB, stats.minPerSimulationMB,
    stats.maxPerSimulationMB)

/-- A report whose `totalMB` is the number `totalMB`. -/
def reportOf (simulationIndex : Int) (totalMB : ℚ) : Report :=
  { demoReport with simulationIndex := simulationIndex, totalMB := JSNumber.val totalMB }

/-- The figure `x` of the statistics is the double of `e` rounded to two
decimals; when `e` lies exactly halfway between two hundredths it may also be
the double of the hundredth below. -/
def RoundedOrTieBelow (x : F64) (e : ℚ) : Prop :=
  x = F64.ofRat (LeadSim.toFixed2 e) ∨
    (Int.fract (e * 100) = 1 / 2 ∧ x = F64.ofRat (LeadSim.toFixed2 e - 1 / 100))

/-- The cost `c` shown for a tier whose exact cost is `x`: a whole number of
hundredths, given as a double, within half a hundredth and the rounding error
of the two double operations of `x`; it is `x` rounded to two decimals
whenever `x * 100 + 1 / 2` is not within `x / 2 ^ 43` of a whole number. -/
def CostNear (c : F64) (x : ℚ) : Prop :=
  ∃ m : Int, c = F64.ofRat ((m : ℚ) / 100) ∧
    |(m : ℚ) / 100 - x| ≤ 1 / 200 + x / 2 ^ 50 ∧
    ((∀ j : Int, x / 2 ^ 43 < |x * 100 + 1 / 2 - (j : ℚ)|) →
      (m : ℚ) / 100 = LeadSim.toFixed2 x)

/-- Two costs, each a whole number of hundredths given as a double, that are
equal or one hundredth apart. -/
def CentApart (x y : F64) : Prop :=
  ∃ m n : Int, x = F64.ofRat ((m : ℚ) / 100) ∧ y = F64.ofRat ((n : ℚ) / 100) ∧ |m - n| ≤ 1

end Binary64

/-! ## Effect of one wave -/

theorem settle_trace (env : Env) (s : RunState) (index : Int) :
    (settle env s index).trace = s.trace ++
      [Event.progress index (s.completedSimulations + 1)
        (if (env.runSimulation index).truthy then s.successfulSimulations + 1
          else s.successfulSimulations)] := by
  unfold settle
  cases h : env.runSimulation index <;> simp [ExecResult.truthy]

theorem settle_completed (env : Env) (s : RunState) (index : Int) :
    (settle env s index).completedSimulations = s.completedSimulations + 1 := by
  unfold settle
  cases h : env.runSimulation index <;> simp

theorem settle_successful (env : Env) (s : RunState) (index : Int) :
    (settle env s index).successfulSimulations =
      if (env.runSimulation index).truthy then s.successfulSimulations + 1
        else s.successfulSimulations := by
  unfold settle
  cases h : env.runSimulation index <;> simp [ExecResult.truthy]

theorem settle_reports_length (env : Env) (s : RunState) (index : Int) :
    (settle env s index).reports.length =
      s.reports.length + (if (env.runSimulation index).report.isSome then 1 else 0) := by
  unfold settle
  cases h : env.runSimulation index with
  | outcome b r => cases r <;> simp [ExecResult.report, addReport]
  | bareFalse => simp [ExecResult.report]
  | fault => simp [ExecResult.report]

theorem settle_draws (env : Env) (s : RunState) (index : Int) :
    (settle env s index).draws = s.draws := by
  unfold settle
  cases h : env.runSimulation index <;> simp

theorem foldl_settle (env : Env) (order : List Int) :
    ∀ s : RunState,
      (order.foldl (settle env) s).trace = s.trace ++
          settleEvents env s.completedSimulations s.successfulSimulations order ∧
      (order.foldl (settle env) s).completedSimulations =
          s.completedSimulations + order.length ∧
      (order.foldl (settle env) s).successfulSimulations =
          s.successfulSimulations + order.countP (fun i => (env.runSimulation i).truthy) ∧
      (order.foldl (settle env) s).reports.length =
          s.reports.length + order.countP (fun i => (env.runSimulation i).report.isSome) ∧
      (order.foldl (settle env) s).draws = s.draws := by
  induction order with
  | nil => intro s; simp [settleEvents]
  | cons a rest ih =>
    intro s
    obtain ⟨h1, h2, h3, h4, h5⟩ := ih (settle env s a)
    simp only [List.foldl_cons]
    refine ⟨?_, ?_, ?_, ?_, ?_⟩
    · rw [h1, settle_trace, settle_completed, settle_successful]
      simp [settleEvents]
    · rw [h2, settle_completed]; simp; omega
    · rw [h3, settle_successful, List.countP_cons]
      split <;> simp_all
      omega
    · rw [h4, settle_reports_length, List.countP_cons]
      split <;> simp_all
      omega
    · rw [h5, settle_draws]

theorem runWave_trace (config : Config) (env : Env) (i : Int) (s : RunState) :
    (runWave config env i s).trace = s.trace ++ waveEvents config env i s := by
  unfold runWave waveEvents
  simp only []
  split <;> simp [(foldl_settle env _ _).1, (foldl_settle env _ _).2.2.2.2]

theorem completionOrder_perm (env : Env) (batch : List Int) :
    (completionOrder env batch).Perm batch :=
  List.perm_insertionSort _ batch

theorem batchIndices_length (i b : Int) : (batchIndices i b).length = b.toNat := by
  simp [batchIndices]

theorem runWave_completed (config : Config) (env : Env) (i : Int) (s : RunState) :
    (runWave config env i s).completedSimulations = s.completedSimulations +
      (min config.concurrency (config.totalSimulations - i)).toNat := by
  unfold runWave
  simp only []
  split <;>
    simp [(foldl_settle env _ _).2.1, (completionOrder_perm env _).length_eq,
      batchIndices_length]

theorem runWave_successful (config : Config) (env : Env) (i : Int) (s : RunState) :
    (runWave config env i s).successfulSimulations = s.successfulSimulations +
      (batchIndices i (min config.concurrency (config.totalSimulations - i))).countP
        (fun k => (env.runSimulation k).truthy) := by
  unfold runWave
  simp only []
  split <;>
    simp [(foldl_settle env _ _).2.2.1, (completionOrder_perm env _).countP_eq]

theorem runWave_reports_length (config : Config) (env : Env) (i : Int) (s : RunState) :
    (runWave config env i s).reports.length = s.reports.length +
      (batchIndices i (min config.concurrency (config.totalSimulations - i))).countP
        (fun k => (env.runSimulation k).report.isSome) := by
  unfold runWave
  simp only []
  split <;>
    simp [(foldl_settle env _ _).2.2.2.1, (completionOrder_perm env _).countP_eq]

/-- Every order of completion is possible: whatever permutation `order` of
the attempts of a wave, some settlement times make them settle in that order. -/
theorem completionOrder_any (env : Env) (batch order : List Int) (hnd : order.Nodup)
    (hperm : order.Perm batch) :
    completionOrder { env with finish := fun k => order.indexOf k } batch = order := by
  unfold completionOrder
  have htotal : IsTotal Int (fun a b => order.indexOf a ≤ order.indexOf b) :=
    ⟨fun a b => Nat.le_total _ _⟩
  have htrans : IsTrans Int (fun a b => order.indexOf a ≤ order.indexOf b) :=
    ⟨fun a b c hab hbc => Nat.le_trans hab hbc⟩
  refine @List.Perm.eq_of_sorted Int (fun a b => order.indexOf a ≤ order.indexOf b) _ _
    ?_ (List.sorted_insertionSort _ batch) ?_
    ((List.perm_insertionSort _ batch).trans hperm.symm)
  · intro a b ha hb hab hba
    have ha' : a ∈ order :=
      hperm.symm.subset ((List.perm_insertionSort _ batch).subset ha)
    exact (List.indexOf_inj ha' hb).1 (Nat.le_antisymm hab hba)
  · have hmap : order.map (fun a => order.indexOf a) = List.range order.length := by
      apply List.ext_getElem
      · simp
      · intro n h1 h2
        simp [List.indexOf_getElem hnd]
    have hp : (order.map (fun a => order.indexOf a)).Pairwise (· ≤ ·) := by
      rw [hmap]; exact List.pairwise_le_range _
    exact (List.pairwise_map.1 hp)

/-! ## Projections of the events of a wave -/

theorem launchedOf_append (a b : List Event) :
    launchedOf (a ++ b) = launchedOf a ++ launchedOf b := by
  simp [launchedOf]

theorem settledOf_append (a b : List Event) :
    settledOf (a ++ b) = settledOf a ++ settledOf b := by
  simp [settledOf]

theorem completedLog_append (a b : List Event) :
    completedLog (a ++ b) = completedLog a ++ completedLog b := by
  simp [completedLog]

theorem wavesOf_append (a b : List Event) :
    wavesOf (a ++ b) = wavesOf a ++ wavesOf b := by
  simp [wavesOf]

theorem resultsOf_append (a b : List Event) :
    resultsOf (a ++ b) = resultsOf a ++ resultsOf b := by
  simp [resultsOf]

theorem pausesOf_append (a b : List Event) :
    pausesOf (a ++ b) = pausesOf a ++ pausesOf b := by
  simp [pausesOf]

theorem launchedOf_map_launch (l : List Int) : launchedOf (l.map Event.launch) = l := by
  induction l with
  | nil => rfl
  | cons a t ih => simpa [launchedOf] using ih

theorem settledOf_map_launch (l : List Int) : settledOf (l.map Event.launch) = [] := by
  simp [settledOf]

theorem completedLog_map_launch (l : List Int) :
    completedLog (l.map Event.launch) = [] := by
  simp [completedLog]

theorem wavesOf_map_launch (l : List Int) : wavesOf (l.map Event.launch) = [] := by
  simp [wavesOf]

theorem resultsOf_map_launch (l : List Int) : resultsOf (l.map Event.launch) = [] := by
  simp [resultsOf]

theorem launchedOf_settleEvents (env : Env) (order : List Int) :
    ∀ c k, launchedOf (settleEvents env c k order) = [] := by
  induction order with
  | nil => intro c k; rfl
  | cons a t ih => intro c k; simpa [launchedOf, settleEvents] using ih _ _

theorem settledOf_settleEvents (env : Env) (order : List Int) :
    ∀ c k, settledOf (settleEvents env c k order) = order := by
  induction order with
  | nil => intro c k; rfl
  | cons a t ih => intro c k; simpa [settledOf, settleEvents] using ih _ _

theorem completedLog_settleEvents (env : Env) (order : List Int) :
    ∀ c k, completedLog (settleEvents env c k order) =
      (List.range order.length).map (fun j => c + j + 1) := by
  induction order with
  | nil => intro c k; rfl
  | cons a t ih =>
    intro c k
    have h := ih (c + 1) (if (env.runSimulation a).truthy then k + 1 else k)
    simp only [completedLog] at h
    simp only [completedLog, settleEvents, List.filterMap_cons, h, List.length_cons,
      List.range_succ_eq_map, List.map_cons, List.map_map]
    simp only [List.cons.injEq, Nat.add_zero, true_and]
    apply List.map_congr_left
    intro j _
    simp only [Function.comp]
    omega

theorem wavesOf_settleEvents (env : Env) (order : List Int) :
    ∀ c k, wavesOf (settleEvents env c k order) = [] := by
  induction order with
  | nil => intro c k; rfl
  | cons a t ih => intro c k; simpa [wavesOf, settleEvents] using ih _ _

theorem resultsOf_settleEvents (env : Env) (order : List Int) :
    ∀ c k, resultsOf (settleEvents env c k order) = [] := by
  induction order with
  | nil => intro c k; rfl
  | cons a t ih => intro c k; simpa [resultsOf, settleEvents] using ih _ _

theorem launchedOf_waveEvents (config : Config) (env : Env) (i : Int) (s : RunState) :
    launchedOf (waveEvents config env i s) =
      batchIndices i (min config.concurrency (config.totalSimulations - i)) := by
  unfold waveEvents
  simp only [launchedOf_append, launchedOf_map_launch, launchedOf_settleEvents]
  split <;> simp [launchedOf]

theorem settledOf_waveEvents (config : Config) (env : Env) (i : Int) (s : RunState) :
    settledOf (waveEvents config env i s) = completionOrder env
      (batchIndices i (min config.concurrency (config.totalSimulations - i))) := by
  unfold waveEvents
  simp only [settledOf_append, settledOf_map_launch, settledOf_settleEvents]
  split <;> simp [settledOf]

theorem completedLog_waveEvents (config : Config) (env : Env) (i : Int) (s : RunState) :
    completedLog (waveEvents config env i s) =
      (List.range (min config.concurrency (config.totalSimulations - i)).toNat).map
        (fun j => s.completedSimulations + j + 1) := by
  unfold waveEvents
  simp only [completedLog_append, completedLog_map_launch, completedLog_settleEvents,
    (completionOrder_perm env _).length_eq, batchIndices_length]
  split <;> simp [completedLog]

theorem wavesOf_waveEvents (config : Config) (env : Env) (i : Int) (s : RunState) :
    wavesOf (waveEvents config env i s) =
      [batchIndices i (min config.concurrency (config.totalSimulations - i))] := by
  unfold waveEvents
  simp only [wavesOf_append, wavesOf_map_launch, wavesOf_settleEvents]
  split <;> simp [wavesOf]

theorem resultsOf_waveEvents (config : Config) (env : Env) (i : Int) (s : RunState) :
    resultsOf (waveEvents config env i s) =
      (batchIndices i (min config.concurrency (config.totalSimulations - i))).map
        (fun k => handlerValue (env.runSimulation k)) := by
  unfold waveEvents
  simp only [resultsOf_append, resultsOf_map_launch, resultsOf_settleEvents]
  split <;> simp [resultsOf]

/-! ## Arithmetic of the wave partition -/

theorem indicesUpTo_add (i b : Int) (hi : 0 ≤ i) (hb : 0 ≤ b) :
    indicesUpTo (i + b) = indicesUpTo i ++ batchIndices i b := by
  have h : (i + b).toNat = i.toNat + b.toNat := by omega
  simp only [indicesUpTo, batchIndices, h, List.range_add, List.map_append, List.map_map]
  congr 1
  apply List.map_congr_left
  intro j _
  simp only [Function.comp]
  push_cast
  omega

theorem fuel_enough (config : Config) (hN : 0 ≤ config.totalSimulations)
    (hc : 1 ≤ config.concurrency) (fuel : Nat) (h : waveCount config ≤ fuel) :
    config.totalSimulations - 0 ≤ (fuel : Int) * config.concurrency := by
  unfold waveCount at h
  have h1 : 0 ≤ (config.totalSimulations + config.concurrency - 1) / config.concurrency :=
    Int.ediv_nonneg (by omega) (by omega)
  have h2 := Int.emod_lt_of_pos (config.totalSimulations + config.concurrency - 1)
    (show 0 < config.concurrency by omega)
  have h3 := Int.ediv_add_emod (config.totalSimulations + config.concurrency - 1)
    config.concurrency
  have h4 : (config.totalSimulations + config.concurrency - 1) / config.concurrency ≤ fuel := by
    omega
  have h5 := Int.mul_le_mul_of_nonneg_right h4 (show 0 ≤ config.concurrency by omega)
  have h6 := Int.mul_comm config.concurrency
    ((config.totalSimulations + config.concurrency - 1) / config.concurrency)
  omega

/-! ## The wave loop -/

/-- Invariant rule for the wave loop: with enough fuel the loop returns, and
a property kept by every iteration holds on exit. -/
theorem waveLoop_rule (config : Config) (env : Env) (Inv : Int → RunState → Prop)
    (hstep : ∀ i s, i < config.totalSimulations → Inv i s →
      Inv (i + config.concurrency) (runWave config env i s)) :
    ∀ (fuel : Nat) (i : Int) (s : RunState),
      config.totalSimulations - i ≤ (fuel : Int) * config.concurrency → Inv i s →
      ∃ i' s', waveLoop config env fuel i s = Run.done s' ∧
        config.totalSimulations ≤ i' ∧ Inv i' s' := by
  intro fuel
  induction fuel with
  | zero =>
    intro i s hf hinv
    have hn : ¬ i < config.totalSimulations := by simp at hf; omega
    exact ⟨i, s, by simp [waveLoop, hn], by omega, hinv⟩
  | succ fuel ih =>
    intro i s hf hinv
    by_cases hlt : i < config.totalSimulations
    · have hf' : config.totalSimulations - (i + config.concurrency) ≤
          (fuel : Int) * config.concurrency := by
        push_cast at hf
        linarith
      obtain ⟨i', s', h1, h2, h3⟩ := ih (i + config.concurrency)
        (runWave config env i s) hf' (hstep i s hlt hinv)
      exact ⟨i', s', by simp [waveLoop, hlt, h1], h2, h3⟩
    · exact ⟨i, s, by simp [waveLoop, hlt], by omega, hinv⟩

theorem countInv_initial (config : Config) (env : Env) :
    CountInv config env 0 (initialState config) := by
  have h : (min (0 : Int) config.totalSimulations).toNat = 0 := by omega
  simp [CountInv, initialState, launchedOf, settledOf, completedLog, resultsOf, wavesOf,
    indicesUpTo, h]

theorem countInv_step (config : Config) (env : Env) (hc : 1 ≤ config.concurrency)
    (i : Int) (s : RunState) (hlt : i < config.totalSimulations)
    (hinv : CountInv config env i s) :
    CountInv config env (i + config.concurrency) (runWave config env i s) := by
  obtain ⟨h0, hl, hs, hlog, hcomp, hsucc, hrep, hres, hflat⟩ := hinv
  have hmin : min i config.totalSimulations = i := by omega
  have hmin' : min (i + config.concurrency) config.totalSimulations =
      i + min config.concurrency (config.totalSimulations - i) := by omega
  have hb : 0 ≤ min config.concurrency (config.totalSimulations - i) := by omega
  rw [hmin] at hl hs hlog hcomp hsucc hrep hres hflat
  refine ⟨by omega, ?_, ?_, ?_, ?_, ?_, ?_, ?_, ?_⟩
  · rw [runWave_trace, launchedOf_append, launchedOf_waveEvents, hmin',
      indicesUpTo_add i _ h0 hb, hl]
  · rw [runWave_trace, settledOf_append, settledOf_waveEvents, hmin',
      indicesUpTo_add i _ h0 hb]
    exact List.Perm.append hs (completionOrder_perm env _)
  · rw [runWave_trace, completedLog_append, completedLog_waveEvents, hmin', hlog, hcomp]
    have h : (i + min config.concurrency (config.totalSimulations - i)).toNat =
        i.toNat + (min config.concurrency (config.totalSimulations - i)).toNat := by omega
    rw [h, List.range_add, List.map_append, List.map_map]
    congr 1
  · rw [runWave_completed, hmin', hcomp]
    omega
  · rw [runWave_successful, hmin', indicesUpTo_add i _ h0 hb, List.countP_append, hsucc]
  · rw [runWave_reports_length, hmin', indicesUpTo_add i _ h0 hb, List.countP_append, hrep]
  · rw [runWave_trace, resultsOf_append, resultsOf_waveEvents, hmin',
      indicesUpTo_add i _ h0 hb, List.map_append, hres]
  · rw [runWave_trace, wavesOf_append, wavesOf_waveEvents, hmin',
      indicesUpTo_add i _ h0 hb, List.flatten_append, hflat]
    simp

/-! ## Attempts in flight -/

theorem inFlightAfter_append (tr q : List Event) :
    inFlightAfter (tr ++ q) = q.foldl flightStep (inFlightAfter tr) := by
  simp [inFlightAfter, List.foldl_append]

/-- Whatever is in flight after more events was in flight before or was
launched by these events. -/
theorem foldl_flightStep_subset (q : List Event) :
    ∀ a : List Int, ∀ x ∈ q.foldl flightStep a, x ∈ a ∨ x ∈ launchedOf q := by
  induction q with
  | nil => intro a x hx; exact Or.inl hx
  | cons e t ih =>
    intro a x hx
    rw [List.foldl_cons] at hx
    rcases ih _ x hx with h | h
    · cases e with
      | launch i =>
        simp only [flightStep, List.mem_append, List.mem_singleton] at h
        rcases h with h | h
        · exact Or.inl h
        · exact Or.inr (by simp [launchedOf, h])
      | progress i c k =>
        exact Or.inl (List.mem_of_mem_erase h)
      | barStart n => exact Or.inl h
      | awaitAll b r => exact Or.inl h
      | pause ms => exact Or.inl h
      | barStop => exact Or.inl h
      | summary k n => exact Or.inl h
      | finalReport st => exact Or.inl h
    · refine Or.inr ?_
      cases e <;> simp_all [launchedOf]

/-- The number of attempts in flight grows by at most the number of launches. -/
theorem foldl_flightStep_length (q : List Event) :
    ∀ a : List Int, (q.foldl flightStep a).length ≤ a.length + (launchedOf q).length := by
  induction q with
  | nil => intro a; simp [launchedOf]
  | cons e t ih =>
    intro a
    rw [List.foldl_cons]
    have h := ih (flightStep a e)
    cases e with
    | launch i =>
      simp only [flightStep, List.length_append, List.length_singleton] at h ⊢
      simp only [launchedOf, List.filterMap_cons, List.length_cons] at h ⊢
      omega
    | progress i c k =>
      have h2 := List.length_erase_le i a
      simp only [flightStep] at h ⊢
      simp only [launchedOf, List.filterMap_cons] at h ⊢
      omega
    | barStart n => simpa [flightStep, launchedOf] using h
    | awaitAll b r => simpa [flightStep, launchedOf] using h
    | pause ms => simpa [flightStep, launchedOf] using h
    | barStop => simpa [flightStep, launchedOf] using h
    | summary k n => simpa [flightStep, launchedOf] using h
    | finalReport st => simpa [flightStep, launchedOf] using h

theorem foldl_flightStep_launch (l : List Int) :
    ∀ a : List Int, (l.map Event.launch).foldl flightStep a = a ++ l := by
  induction l with
  | nil => intro a; simp
  | cons x t ih => intro a; simp [flightStep, ih]

theorem foldl_flightStep_settleEvents (env : Env) (order : List Int) :
    ∀ (c k : Nat) (a : List Int),
      (settleEvents env c k order).foldl flightStep a = a.diff order := by
  induction order with
  | nil => intro c k a; simp [settleEvents]
  | cons x t ih => intro c k a; simp [settleEvents, flightStep, ih]

theorem diff_self_eq_nil (l : List Int) : l.diff l = [] := by
  induction l with
  | nil => rfl
  | cons x t ih => simp [ih]

theorem diff_perm_eq_nil (batch order : List Int) (h : order.Perm batch) :
    batch.diff order = [] := by
  have h1 : (batch.diff order).Perm (order.diff order) := List.Perm.diff_right order h.symm
  rw [diff_self_eq_nil] at h1
  exact List.Perm.eq_nil h1

/-- When a wave is over (its `Promise.all` has resolved) nothing is in flight. -/
theorem foldl_flightStep_waveEvents (config : Config) (env : Env) (i : Int) (s : RunState) :
    (waveEvents config env i s).foldl flightStep [] = [] := by
  unfold waveEvents
  simp only [List.foldl_append, foldl_flightStep_launch, foldl_flightStep_settleEvents,
    List.nil_append, diff_perm_eq_nil _ _ (completionOrder_perm env _)]
  split <;> simp [flightStep]

theorem isPrefix_append_cases (p tr seg : List Event) (h : p <+: tr ++ seg) :
    p <+: tr ∨ ∃ q, q <+: seg ∧ p = tr ++ q := by
  rcases List.prefix_or_prefix_of_prefix h (List.prefix_append tr seg) with h1 | h1
  · exact Or.inl h1
  · obtain ⟨q, rfl⟩ := h1
    exact Or.inr ⟨q, (List.prefix_append_right_inj tr).1 h, rfl⟩

theorem waveInv_initial (config : Config) (hN : 0 ≤ config.totalSimulations)
    (hc : 1 ≤ config.concurrency) : WaveInv config 0 (initialState config) := by
  refine ⟨0, by simp, by omega, by simp [initialState, wavesOf],
    by simp [initialState, inFlightAfter, flightStep], ?_⟩
  intro p hp
  have hp' : p = [] ∨ p = [Event.barStart config.totalSimulations] := by
    simp only [initialState] at hp
    obtain ⟨t, ht⟩ := hp
    cases p with
    | nil => exact Or.inl rfl
    | cons e p' =>
      cases p' with
      | nil => simp_all
      | cons e' p'' => simp at ht
  rcases hp' with rfl | rfl
  · simp [inFlightAfter]; omega
  · simp [inFlightAfter, flightStep]; omega

theorem waveInv_step (config : Config) (env : Env) (hc : 1 ≤ config.concurrency)
    (i : Int) (s : RunState) (hlt : i < config.totalSimulations)
    (hinv : WaveInv config i s) :
    WaveInv config (i + config.concurrency) (runWave config env i s) := by
  obtain ⟨w, hw, _, hwaves, hnil, hpre⟩ := hinv
  refine ⟨w + 1, by push_cast; rw [hw]; ring, by omega, ?_, ?_, ?_⟩
  · rw [runWave_trace, wavesOf_append, wavesOf_waveEvents, hwaves, List.range_succ,
      List.map_append, hw]
    simp
  · rw [runWave_trace, inFlightAfter_append, hnil, foldl_flightStep_waveEvents]
  · intro p hp
    rw [runWave_trace] at hp
    rcases isPrefix_append_cases p _ _ hp with h | ⟨q, hq, rfl⟩
    · refine ⟨(hpre p h).1, ?_⟩
      rcases (hpre p h).2 with h0 | ⟨wave, hwave, hin⟩
      · exact Or.inl h0
      · refine Or.inr ⟨wave, ?_, hin⟩
        rw [runWave_trace, wavesOf_append]
        exact List.mem_append_left _ hwave
    · rw [inFlightAfter_append, hnil]
      have hsub : launchedOf q <+: batchIndices i
          (min config.concurrency (config.totalSimulations - i)) := by
        have := List.IsPrefix.filterMap
          (fun e => match e with | Event.launch i => some i | _ => none) hq
        rw [← launchedOf_waveEvents config env i s]
        exact this
      have hmem : ∀ x ∈ q.foldl flightStep [], x ∈ batchIndices i
          (min config.concurrency (config.totalSimulations - i)) := by
        intro x hx
        rcases foldl_flightStep_subset q [] x hx with h | h
        · simp at h
        · exact hsub.subset h
      refine ⟨?_, ?_⟩
      · have h1 := foldl_flightStep_length q []
        have h2 := hsub.length_le
        rw [batchIndices_length] at h2
        simp only [List.length_nil] at h1
        omega
      · refine Or.inr ⟨_, ?_, hmem⟩
        rw [runWave_trace, wavesOf_append, wavesOf_waveEvents]
        simp

/-! ## The whole run -/

/-- With a valid configuration and one unit of fuel per wave the loop
returns; on exit the counters and the trace are those of the attempts
`1 .. totalSimulations` and the number of waves is `waveCount`. -/
theorem waveLoop_exit (config : Config) (env : Env) (hN : 0 ≤ config.totalSimulations)
    (hc : 1 ≤ config.concurrency) (fuel : Nat) (hfuel : waveCount config ≤ fuel) :
    ∃ s, waveLoop config env fuel 0 (initialState config) = Run.done s ∧
      CountInv config env config.totalSimulations s ∧
      WaveInv config (config.concurrency * (waveCount config : Int)) s := by
  obtain ⟨i', s', hrun, hexit, hcount, hwave⟩ :=
    waveLoop_rule config env (fun i s => CountInv config env i s ∧ WaveInv config i s)
      (fun i s hlt h => ⟨countInv_step config env hc i s hlt h.1,
        waveInv_step config env hc i s hlt h.2⟩)
      fuel 0 (initialState config) (fuel_enough config hN hc fuel hfuel)
      ⟨countInv_initial config env, waveInv_initial config hN hc⟩
  refine ⟨s', hrun, ?_, ?_⟩
  · have h1 : min i' config.totalSimulations = config.totalSimulations := by omega
    have h2 : min config.totalSimulations config.totalSimulations =
        config.totalSimulations := by omega
    unfold CountInv at hcount ⊢
    rw [h1] at hcount
    rw [h2]
    exact ⟨hN, hcount.2⟩
  · obtain ⟨w, hw, hlt, _⟩ := id hwave
    have hpos : 0 < config.concurrency := by omega
    have hwc : waveCount config = w := by
      unfold waveCount
      have h1 : (w : Int) ≤
          (config.totalSimulations + config.concurrency - 1) / config.concurrency := by
        rw [Int.le_ediv_iff_mul_le hpos, Int.mul_comm]
        omega
      have h2 : (config.totalSimulations + config.concurrency - 1) / config.concurrency <
          (w : Int) + 1 := by
        rw [Int.ediv_lt_iff_lt_mul hpos]
        have : ((w : Int) + 1) * config.concurrency =
            config.concurrency * (w : Int) + config.concurrency := by ring
        omega
      omega
    rw [hwc, ← hw]
    exact hwave

/-- The counting invariant read at loop exit. -/
theorem countInv_exit (config : Config) (env : Env) (s : RunState)
    (h : CountInv config env config.totalSimulations s) :
    launchedOf s.trace = indicesUpTo config.totalSimulations ∧
    (settledOf s.trace).Perm (indicesUpTo config.totalSimulations) ∧
    completedLog s.trace = (List.range config.totalSimulations.toNat).map (fun j => j + 1) ∧
    s.completedSimulations = config.totalSimulations.toNat ∧
    s.successfulSimulations =
      (indicesUpTo config.totalSimulations).countP (fun k => (env.runSimulation k).truthy) ∧
    s.reports.length =
      (indicesUpTo config.totalSimulations).countP
        (fun k => (env.runSimulation k).report.isSome) ∧
    resultsOf s.trace =
      (indicesUpTo config.totalSimulations).map (fun k => handlerValue (env.runSimulation k)) ∧
    (wavesOf s.trace).flatten = indicesUpTo config.totalSimulations := by
  unfold CountInv at h
  rw [min_self] at h
  exact h.2

theorem startSimulation_of_waveLoop (config : Config) (env : Env) (fuel : Nat) (s : RunState)
    (h : waveLoop config env fuel 0 (initialState config) = Run.done s) :
    startSimulation fuel config env = Run.done (displayResults config s) := by
  simp [startSimulation, h]

theorem launchedOf_displayResults (config : Config) (s : RunState) :
    launchedOf (displayResults config s).trace = launchedOf s.trace := by
  simp [displayResults, launchedOf]

theorem settledOf_displayResults (config : Config) (s : RunState) :
    settledOf (displayResults config s).trace = settledOf s.trace := by
  simp [displayResults, settledOf]

theorem completedLog_displayResults (config : Config) (s : RunState) :
    completedLog (displayResults config s).trace = completedLog s.trace := by
  simp [displayResults, completedLog]

theorem wavesOf_displayResults (config : Config) (s : RunState) :
    wavesOf (displayResults config s).trace = wavesOf s.trace := by
  simp [displayResults, wavesOf]

theorem resultsOf_displayResults (config : Config) (s : RunState) :
    resultsOf (displayResults config s).trace = resultsOf s.trace := by
  simp [displayResults, resultsOf]

/-! ## The claims -/

/-- C1: with `totalSimulations >= 0` and `concurrency >= 1`, `startSimulation`
returns and has called `runSimulation` exactly `totalSimulations` times, with
the indices `1, 2, ..., totalSimulations`, each exactly once. -/
theorem C1_executor_called_once_per_index (config : Config) (env : Env)
    (hN : 0 ≤ config.totalSimulations) (hc : 1 ≤ config.concurrency)
    (fuel : Nat) (hfuel : waveCount config ≤ fuel) :
    ∃ s, startSimulation fuel config env = Run.done s ∧
      launchedOf s.trace = indicesUpTo config.totalSimulations ∧
      ((launchedOf s.trace).length : Int) = config.totalSimulations ∧
      (launchedOf s.trace).Nodup ∧
      ∀ k : Int, k ∈ launchedOf s.trace ↔ 1 ≤ k ∧ k ≤ config.totalSimulations := by
  obtain ⟨s, hrun, hcount, _⟩ := waveLoop_exit config env hN hc fuel hfuel
  have hl : launchedOf (displayResults config s).trace =
      indicesUpTo config.totalSimulations := by
    rw [launchedOf_displayResults]; exact (countInv_exit config env s hcount).1
  refine ⟨displayResults config s, startSimulation_of_waveLoop config env fuel s hrun,
    hl, ?_, ?_, ?_⟩
  · rw [hl]; simp [indicesUpTo]; omega
  · rw [hl]
    unfold indicesUpTo
    refine List.Nodup.map ?_ (List.nodup_range _)
    intro a b hab
    simpa using hab
  · intro k
    rw [hl]
    simp only [indicesUpTo, List.mem_map, List.mem_range]
    constructor
    · rintro ⟨j, hj, rfl⟩
      omega
    · intro hk
      exact ⟨(k - 1).toNat, by omega, by omega⟩

/-- Witness of C1: ten attempts, three at a time. -/
theorem C1_executor_called_once_per_index_witness :
    ∃ s, startSimulation 4 ⟨10, 3⟩ demoEnv = Run.done s ∧
      launchedOf s.trace = indicesUpTo (10 : Int) ∧
      ((launchedOf s.trace).length : Int) = 10 ∧
      (launchedOf s.trace).Nodup ∧
      ∀ k : Int, k ∈ launchedOf s.trace ↔ 1 ≤ k ∧ k ≤ 10 :=
  C1_executor_called_once_per_index ⟨10, 3⟩ demoEnv (by decide) (by decide) 4 (by decide)

/-- C2 (the code at the failing input): one attempt whose executor returns
`{ success: false, dataReport }`.  No attempt succeeded, yet the run reports one
successful simulation: `if (success)` tests the returned object, which is
truthy, and not its field `success`. -/
theorem C2_failed_outcome_counted_successful :
    ∃ s, startSimulation 1 ⟨1, 1⟩ failingEnv = Run.done s ∧
      (indicesUpTo 1).countP (fun k => (failingEnv.runSimulation k).succeeded) = 0 ∧
      s.successfulSimulations = 1 ∧
      Event.summary 1 1 ∈ s.trace := by
  exact ⟨_, rfl, by decide, rfl, by decide⟩

/-- What the successful counter holds at the end of a run: the number of
attempts whose promise resolved with an object, whatever its `success` field. -/
theorem startSimulation_successful (config : Config) (env : Env)
    (hN : 0 ≤ config.totalSimulations) (hc : 1 ≤ config.concurrency)
    (fuel : Nat) (hfuel : waveCount config ≤ fuel) :
    ∃ s, startSimulation fuel config env = Run.done s ∧
      s.successfulSimulations =
        (indicesUpTo config.totalSimulations).countP (fun k => (env.runSimulation k).truthy) := by
  obtain ⟨s, hrun, hcount, _⟩ := waveLoop_exit config env hN hc fuel hfuel
  exact ⟨displayResults config s, startSimulation_of_waveLoop config env fuel s hrun,
    (countInv_exit config env s hcount).2.2.2.2.1⟩

/-- C3: for every behaviour of the executor the completed counter takes the
values `0, 1, ..., totalSimulations` in this order, one step per attempt that
reaches a terminal state (each attempt does so exactly once); it is below
`totalSimulations` until the last attempt completes and equals
`totalSimulations` when `startSimulation` returns. -/
theorem C3_completed_counter (config : Config) (env : Env)
    (hN : 0 ≤ config.totalSimulations) (hc : 1 ≤ config.concurrency)
    (fuel : Nat) (hfuel : waveCount config ≤ fuel) :
    ∃ s, startSimulation fuel config env = Run.done s ∧
      0 :: completedLog s.trace = List.range (config.totalSimulations.toNat + 1) ∧
      (settledOf s.trace).Perm (indicesUpTo config.totalSimulations) ∧
      (completedLog s.trace).length = (settledOf s.trace).length ∧
      (∀ x ∈ (0 :: completedLog s.trace).dropLast, (x : Int) < config.totalSimulations) ∧
      (s.completedSimulations : Int) = config.totalSimulations := by
  obtain ⟨s, hrun, hcount, _⟩ := waveLoop_exit config env hN hc fuel hfuel
  obtain ⟨_, hperm, hlog, hcomp, _⟩ := countInv_exit config env s hcount
  have hlog' : 0 :: completedLog (displayResults config s).trace =
      List.range (config.totalSimulations.toNat + 1) := by
    rw [completedLog_displayResults, hlog, List.range_succ_eq_map]
  refine ⟨displayResults config s, startSimulation_of_waveLoop config env fuel s hrun,
    hlog', ?_, ?_, ?_, ?_⟩
  · rw [settledOf_displayResults]; exact hperm
  · rw [completedLog_displayResults, settledOf_displayResults, hlog, hperm.length_eq]
    simp [indicesUpTo]
  · intro x hx
    rw [hlog', List.range_succ, List.dropLast_concat, List.mem_range] at hx
    omega
  · show (s.completedSimulations : Int) = config.totalSimulations
    rw [hcomp]; omega

/-- Witness of C3: ten attempts, three at a time. -/
theorem C3_completed_counter_witness :
    ∃ s, startSimulation 4 ⟨10, 3⟩ demoEnv = Run.done s ∧
      0 :: completedLog s.trace = List.range ((10 : Int).toNat + 1) ∧
      (settledOf s.trace).Perm (indicesUpTo (10 : Int)) ∧
      (completedLog s.trace).length = (settledOf s.trace).length ∧
      (∀ x ∈ (0 :: completedLog s.trace).dropLast, (x : Int) < 10) ∧
      (s.completedSimulations : Int) = 10 :=
  C3_completed_counter ⟨10, 3⟩ demoEnv (by decide) (by decide) 4 (by decide)

theorem indicesUpTo_getElem? (n : Int) (k : Nat) (hk : k < n.toNat) :
    (indicesUpTo n)[k]? = some ((k : Int) + 1) := by
  simp [indicesUpTo, List.getElem?_range hk]

/-- C4: let the attempts selected by `faulty` raise a fault.  The run still
returns; every one of the `totalSimulations` attempts is launched; the outcome
of every attempt that does not fault is the one it has in the run without
these faults; the outcome of a faulting attempt is `false`; the completed
counter ends at `totalSimulations`; the faulting attempts add nothing to
the successful counter nor to the aggregator. -/
theorem C4_fault_isolation (config : Config) (env : Env) (faulty : Int → Bool)
    (hN : 0 ≤ config.totalSimulations) (hc : 1 ≤ config.concurrency)
    (fuel : Nat) (hfuel : waveCount config ≤ fuel) :
    ∃ s s', startSimulation fuel config env = Run.done s ∧
      startSimulation fuel config (env.withFaults faulty) = Run.done s' ∧
      launchedOf s'.trace = indicesUpTo config.totalSimulations ∧
      (∀ k : Nat, k < config.totalSimulations.toNat → faulty ((k : Int) + 1) = false →
        (resultsOf s'.trace)[k]? = (resultsOf s.trace)[k]? ∧
        (resultsOf s.trace)[k]? = some (handlerValue (env.runSimulation ((k : Int) + 1)))) ∧
      (∀ k : Nat, k < config.totalSimulations.toNat → faulty ((k : Int) + 1) = true →
        (resultsOf s'.trace)[k]? = some (Settled.bool false)) ∧
      (s'.completedSimulations : Int) = config.totalSimulations ∧
      completedLog s'.trace =
        (List.range config.totalSimulations.toNat).map (fun j => j + 1) ∧
      s'.successfulSimulations = (indicesUpTo config.totalSimulations).countP
        (fun k => !faulty k && (env.runSimulation k).truthy) ∧
      s'.reports.length = (indicesUpTo config.totalSimulations).countP
        (fun k => !faulty k && (env.runSimulation k).report.isSome) := by
  obtain ⟨s, hrun, hcount, _⟩ := waveLoop_exit config env hN hc fuel hfuel
  obtain ⟨s', hrun', hcount', _⟩ :=
    waveLoop_exit config (env.withFaults faulty) hN hc fuel hfuel
  obtain ⟨_, _, _, _, _, _, hres, _⟩ := countInv_exit config env s hcount
  obtain ⟨hl', _, hlog', hcomp', hsucc', hrep', hres', _⟩ :=
    countInv_exit config (env.withFaults faulty) s' hcount'
  refine ⟨displayResults config s, displayResults config s',
    startSimulation_of_waveLoop config env fuel s hrun,
    startSimulation_of_waveLoop config (env.withFaults faulty) fuel s' hrun',
    ?_, ?_, ?_, ?_, ?_, ?_, ?_⟩
  · rw [launchedOf_displayResults]; exact hl'
  · intro k hk hf
    rw [resultsOf_displayResults, resultsOf_displayResults, hres, hres']
    simp [List.getElem?_map, indicesUpTo_getElem? _ k hk, Env.withFaults, hf]
  · intro k hk hf
    rw [resultsOf_displayResults, hres']
    simp [List.getElem?_map, indicesUpTo_getElem? _ k hk, Env.withFaults, hf, handlerValue]
  · show (s'.completedSimulations : Int) = config.totalSimulations
    rw [hcomp']; omega
  · rw [completedLog_displayResults]; exact hlog'
  · show s'.successfulSimulations = _
    rw [hsucc']
    apply List.countP_congr
    intro k _
    cases hf : faulty k <;> simp [Env.withFaults, hf, ExecResult.truthy]
  · show s'.reports.length = _
    rw [hrep']
    apply List.countP_congr
    intro k _
    cases hf : faulty k <;> simp [Env.withFaults, hf, ExecResult.report]

/-- Witness of C4: ten attempts, three at a time, attempt 4 always faults;
the completed counter still reaches 10. -/
theorem C4_fault_isolation_witness :
    ∃ s s', startSimulation 4 ⟨10, 3⟩ demoEnv = Run.done s ∧
      startSimulation 4 ⟨10, 3⟩ (demoEnv.withFaults (fun k => decide (k = 4))) =
        Run.done s' ∧
      launchedOf s'.trace = indicesUpTo (10 : Int) ∧
      (∀ k : Nat, k < (10 : Int).toNat → decide (((k : Int) + 1) = 4) = false →
        (resultsOf s'.trace)[k]? = (resultsOf s.trace)[k]? ∧
        (resultsOf s.trace)[k]? = some (handlerValue (demoEnv.runSimulation ((k : Int) + 1)))) ∧
      (∀ k : Nat, k < (10 : Int).toNat → decide (((k : Int) + 1) = 4) = true →
        (resultsOf s'.trace)[k]? = some (Settled.bool false)) ∧
      (s'.completedSimulations : Int) = 10 ∧
      completedLog s'.trace = (List.range (10 : Int).toNat).map (fun j => j + 1) ∧
      s'.successfulSimulations = (indicesUpTo (10 : Int)).countP
        (fun k => !decide (k = 4) && (demoEnv.runSimulation k).truthy) ∧
      s'.reports.length = (indicesUpTo (10 : Int)).countP
        (fun k => !decide (k = 4) && (demoEnv.runSimulation k).report.isSome) :=
  C4_fault_isolation ⟨10, 3⟩ demoEnv (fun k => decide (k = 4))
    (by decide) (by decide) 4 (by decide)

theorem isPrefix_displayResults (config : Config) (s : RunState) (p : List Event)
    (hp : p <+: (displayResults config s).trace) :
    p <+: s.trace ∨ inFlightAfter p = inFlightAfter s.trace := by
  simp only [displayResults] at hp
  rcases isPrefix_append_cases p _ _ hp with h | ⟨q, hq, rfl⟩
  · exact Or.inl h
  · refine Or.inr ?_
    rw [inFlightAfter_append]
    have hq' : q = [] ∨ q = [Event.barStop] ∨
        q = [Event.barStop, Event.summary s.successfulSimulations config.totalSimulations] ∨
        q = [Event.barStop, Event.summary s.successfulSimulations config.totalSimulations,
          Event.finalReport (getAggregatedStats s.reports)] := by
      obtain ⟨t, ht⟩ := hq
      match q, ht with
      | [], _ => simp
      | [e1], ht => simp at ht; simp [ht.1]
      | [e1, e2], ht => simp at ht; simp [ht.1, ht.2.1]
      | [e1, e2, e3], ht => simp at ht; simp [ht.1, ht.2.1, ht.2.2]
      | e1 :: e2 :: e3 :: e4 :: r, ht => simp at ht
    rcases hq' with rfl | rfl | rfl | rfl <;> simp [flightStep]

/-- C5: at every instant of the run (after every initial segment `p` of the
trace) at most `concurrency` attempts are in flight; every wave has at most
`concurrency` attempts and every attempt belongs to exactly one wave; when an
attempt is launched, everything still in flight belongs to its own wave, so
all attempts of the earlier waves have reached a terminal state; nothing is
in flight when the run returns. -/
theorem C5_bounded_concurrency (config : Config) (env : Env)
    (hN : 0 ≤ config.totalSimulations) (hc : 1 ≤ config.concurrency)
    (fuel : Nat) (hfuel : waveCount config ≤ fuel) :
    ∃ s, startSimulation fuel config env = Run.done s ∧
      (∀ p, p <+: s.trace → ((inFlightAfter p).length : Int) ≤ config.concurrency) ∧
      (∀ wave ∈ wavesOf s.trace, (wave.length : Int) ≤ config.concurrency) ∧
      (wavesOf s.trace).flatten = launchedOf s.trace ∧
      (launchedOf s.trace).Nodup ∧
      (∀ p idx, p ++ [Event.launch idx] <+: s.trace →
        ∃ wave ∈ wavesOf s.trace, idx ∈ wave ∧ ∀ a ∈ inFlightAfter p, a ∈ wave) ∧
      inFlightAfter s.trace = [] := by
  obtain ⟨s, hrun, hcount, hwave⟩ := waveLoop_exit config env hN hc fuel hfuel
  obtain ⟨hl, _, _, _, _, _, _, hflat⟩ := countInv_exit config env s hcount
  obtain ⟨w, _, _, hwaves, hnil, hpre⟩ := hwave
  refine ⟨displayResults config s, startSimulation_of_waveLoop config env fuel s hrun,
    ?_, ?_, ?_, ?_, ?_, ?_⟩
  · intro p hp
    rcases isPrefix_displayResults config s p hp with h | h
    · exact (hpre p h).1
    · rw [h, hnil]; simp; omega
  · intro wave hmem
    rw [wavesOf_displayResults, hwaves] at hmem
    simp only [List.mem_map, List.mem_range] at hmem
    obtain ⟨v, _, rfl⟩ := hmem
    rw [batchIndices_length]
    omega
  · rw [wavesOf_displayResults, launchedOf_displayResults, hflat, hl]
  · rw [launchedOf_displayResults, hl]
    unfold indicesUpTo
    refine List.Nodup.map ?_ (List.nodup_range _)
    intro a b hab
    simpa using hab
  · intro p idx hp
    have hfl : inFlightAfter (p ++ [Event.launch idx]) = inFlightAfter p ++ [idx] := by
      rw [inFlightAfter_append]; simp [flightStep]
    rcases isPrefix_displayResults config s _ hp with h | h
    · rcases (hpre _ h).2 with h0 | ⟨wave, hmem, hin⟩
      · rw [hfl] at h0; simp at h0
      · rw [hfl] at hin
        refine ⟨wave, by rw [wavesOf_displayResults]; exact hmem, ?_, ?_⟩
        · exact hin idx (by simp)
        · intro a ha
          exact hin a (by simp [ha])
    · rw [hfl, hnil] at h; simp at h
  · rw [show (displayResults config s).trace = s.trace ++ _ from rfl, inFlightAfter_append,
      hnil]
    simp [flightStep]

/-- Witness of C5: ten attempts, three at a time. -/
theorem C5_bounded_concurrency_witness :
    ∃ s, startSimulation 4 ⟨10, 3⟩ demoEnv = Run.done s ∧
      (∀ p, p <+: s.trace → ((inFlightAfter p).length : Int) ≤ 3) ∧
      (∀ wave ∈ wavesOf s.trace, (wave.length : Int) ≤ 3) ∧
      (wavesOf s.trace).flatten = launchedOf s.trace ∧
      (launchedOf s.trace).Nodup ∧
      (∀ p idx, p ++ [Event.launch idx] <+: s.trace →
        ∃ wave ∈ wavesOf s.trace, idx ∈ wave ∧ ∀ a ∈ inFlightAfter p, a ∈ wave) ∧
      inFlightAfter s.trace = [] :=
  C5_bounded_concurrency ⟨10, 3⟩ demoEnv (by decide) (by decide) 4 (by decide)

/-- The number `waveCount` is the ceiling of `totalSimulations / concurrency`:
the least `w` with `totalSimulations <= concurrency * w`. -/
theorem waveCount_spec (config : Config) (hN : 0 ≤ config.totalSimulations)
    (hc : 1 ≤ config.concurrency) :
    config.totalSimulations ≤ config.concurrency * (waveCount config : Int) ∧
    config.concurrency * (waveCount config : Int) <
      config.totalSimulations + config.concurrency := by
  unfold waveCount
  have h1 : 0 ≤ (config.totalSimulations + config.concurrency - 1) / config.concurrency :=
    Int.ediv_nonneg (by omega) (by omega)
  have h2 := Int.emod_lt_of_pos (config.totalSimulations + config.concurrency - 1)
    (show 0 < config.concurrency by omega)
  have h3 := Int.ediv_add_emod (config.totalSimulations + config.concurrency - 1)
    config.concurrency
  have h4 := Int.emod_nonneg (config.totalSimulations + config.concurrency - 1)
    (show config.concurrency ≠ 0 by omega)
  rw [Int.toNat_of_nonneg h1]
  omega

theorem waveCount_eq (config : Config) (hN : 0 ≤ config.totalSimulations)
    (hc : 1 ≤ config.concurrency) :
    waveCount config = (config.totalSimulations / config.concurrency).toNat +
      (if config.totalSimulations % config.concurrency = 0 then 0 else 1) := by
  obtain ⟨h1, h2⟩ := waveCount_spec config hN hc
  have hq : 0 ≤ config.totalSimulations / config.concurrency :=
    Int.ediv_nonneg hN (by omega)
  have h3 := Int.ediv_add_emod config.totalSimulations config.concurrency
  have h4 := Int.emod_nonneg config.totalSimulations (show config.concurrency ≠ 0 by omega)
  have h5 := Int.emod_lt_of_pos config.totalSimulations (show 0 < config.concurrency by omega)
  have hc0 : (0 : Int) ≤ config.concurrency := by omega
  have key : ∀ a b : Int, config.concurrency * a < config.concurrency * b + config.concurrency →
      a ≤ b := by
    intro a b h
    have h' : config.concurrency * a < config.concurrency * (b + 1) := by
      rw [Int.mul_add, Int.mul_one]; exact h
    have := Int.lt_of_mul_lt_mul_left h' hc0
    omega
  split
  · rename_i hr
    have ha := key (waveCount config) (config.totalSimulations / config.concurrency)
      (by omega)
    have hb := key (config.totalSimulations / config.concurrency) (waveCount config)
      (by omega)
    omega
  · rename_i hr
    have ha := key (waveCount config) (config.totalSimulations / config.concurrency + 1)
      (by rw [Int.mul_add, Int.mul_one]; omega)
    have hb := key (config.totalSimulations / config.concurrency + 1) (waveCount config)
      (by rw [Int.mul_add, Int.mul_one]; omega)
    omega

theorem batchSize_full (config : Config) (hc : 1 ≤ config.concurrency) (v : Nat)
    (hv : v < (config.totalSimulations / config.concurrency).toNat) :
    min config.concurrency (config.totalSimulations - config.concurrency * (v : Int)) =
      config.concurrency := by
  have h3 := Int.ediv_add_emod config.totalSimulations config.concurrency
  have h4 := Int.emod_nonneg config.totalSimulations (show config.concurrency ≠ 0 by omega)
  have hle : config.concurrency * ((v : Int) + 1) ≤
      config.concurrency * (config.totalSimulations / config.concurrency) :=
    Int.mul_le_mul_of_nonneg_left (by omega) (by omega)
  rw [Int.mul_add, Int.mul_one] at hle
  omega

theorem batchSize_last (config : Config) (hN : 0 ≤ config.totalSimulations)
    (hc : 1 ≤ config.concurrency) :
    min config.concurrency (config.totalSimulations - config.concurrency *
        (((config.totalSimulations / config.concurrency).toNat : Nat) : Int)) =
      config.totalSimulations % config.concurrency := by
  have hq : 0 ≤ config.totalSimulations / config.concurrency :=
    Int.ediv_nonneg hN (by omega)
  have h3 := Int.ediv_add_emod config.totalSimulations config.concurrency
  have h5 := Int.emod_lt_of_pos config.totalSimulations (show 0 < config.concurrency by omega)
  rw [Int.toNat_of_nonneg hq]
  omega

/-- C6: the waves are the consecutive index ranges
`concurrency * v + 1 .. concurrency * v + min(concurrency, remaining)`, for
`v = 0, 1, ...` up to the ceiling of `totalSimulations / concurrency`; their
sizes are `floor(totalSimulations / concurrency)` times `concurrency`,
followed by `totalSimulations mod concurrency` when that is not zero; together
they are the attempts `1 .. totalSimulations`; and when `concurrency` exceeds
`totalSimulations >= 1` there is a single wave with all the attempts. -/
theorem C6_wave_partition (config : Config) (env : Env)
    (hN : 0 ≤ config.totalSimulations) (hc : 1 ≤ config.concurrency)
    (fuel : Nat) (hfuel : waveCount config ≤ fuel) :
    ∃ s, startSimulation fuel config env = Run.done s ∧
      wavesOf s.trace = (List.range (waveCount config)).map (fun (v : Nat) =>
        batchIndices (config.concurrency * (v : Int))
          (min config.concurrency
            (config.totalSimulations - config.concurrency * (v : Int)))) ∧
      (wavesOf s.trace).map List.length =
        List.replicate (config.totalSimulations / config.concurrency).toNat
            config.concurrency.toNat ++
          (if config.totalSimulations % config.concurrency = 0 then []
            else [(config.totalSimulations % config.concurrency).toNat]) ∧
      (wavesOf s.trace).flatten = indicesUpTo config.totalSimulations ∧
      (1 ≤ config.totalSimulations → config.totalSimulations < config.concurrency →
        wavesOf s.trace = [indicesUpTo config.totalSimulations]) := by
  obtain ⟨s, hrun, hcount, hwave⟩ := waveLoop_exit config env hN hc fuel hfuel
  obtain ⟨_, _, _, _, _, _, _, hflat⟩ := countInv_exit config env s hcount
  obtain ⟨w, hw, _, hwaves, _, _⟩ := hwave
  have hww : w = waveCount config := by
    have h := Int.eq_of_mul_eq_mul_left (show config.concurrency ≠ 0 by omega) hw
    omega
  subst hww
  have hwaves' : wavesOf (displayResults config s).trace = _ :=
    (wavesOf_displayResults config s).trans hwaves
  refine ⟨displayResults config s, startSimulation_of_waveLoop config env fuel s hrun,
    hwaves', ?_, ?_, ?_⟩
  · rw [hwaves', List.map_map, waveCount_eq config hN hc]
    split
    · rw [Nat.add_zero, List.append_nil]
      rw [List.map_congr_left (g := fun _ => config.concurrency.toNat)]
      · simp
      · intro v hv
        simp only [Function.comp, batchIndices_length]
        rw [batchSize_full config hc v (List.mem_range.1 hv)]
    · rw [List.range_succ, List.map_append]
      congr 1
      · rw [List.map_congr_left (g := fun _ => config.concurrency.toNat)]
        · simp
        · intro v hv
          simp only [Function.comp, batchIndices_length]
          rw [batchSize_full config hc v (List.mem_range.1 hv)]
      · simp only [List.map_cons, List.map_nil, Function.comp, batchIndices_length]
        rw [batchSize_last config hN hc]
  · rw [wavesOf_displayResults]; exact hflat
  · intro h1 h2
    have hone : waveCount config = 1 := by
      rw [waveCount_eq config hN hc, Int.ediv_eq_zero_of_lt hN h2,
        Int.emod_eq_of_lt hN h2]
      simp
      omega
    have hmin : min config.concurrency
        (config.totalSimulations - config.concurrency * ((0 : Nat) : Int)) =
        config.totalSimulations := by
      push_cast
      omega
    rw [hwaves', hone]
    rw [show List.range 1 = [0] from rfl]
    simp only [List.map_cons, List.map_nil]
    rw [hmin]
    simp [batchIndices, indicesUpTo]

/-- Witness of C6: ten attempts, three at a time (waves of 3, 3, 3 and 1). -/
theorem C6_wave_partition_witness :
    ∃ s, startSimulation 4 ⟨10, 3⟩ demoEnv = Run.done s ∧
      wavesOf s.trace = (List.range (waveCount ⟨10, 3⟩)).map (fun (v : Nat) =>
        batchIndices ((3 : Int) * (v : Int)) (min (3 : Int) ((10 : Int) - 3 * (v : Int)))) ∧
      (wavesOf s.trace).map List.length =
        List.replicate ((10 : Int) / 3).toNat (3 : Int).toNat ++
          (if (10 : Int) % 3 = 0 then [] else [((10 : Int) % 3).toNat]) ∧
      (wavesOf s.trace).flatten = indicesUpTo (10 : Int) ∧
      ((1 : Int) ≤ 10 → (10 : Int) < 3 → wavesOf s.trace = [indicesUpTo (10 : Int)]) :=
  C6_wave_partition ⟨10, 3⟩ demoEnv (by decide) (by decide) 4 (by decide)

theorem getAggregatedStats_eq_none (reports : List Report) :
    getAggregatedStats reports = none ↔ reports = [] := by
  cases reports <;> simp [getAggregatedStats]

theorem getAggregatedStats_totalSimulations (reports : List Report) (stats : AggregatedStats)
    (h : getAggregatedStats reports = some stats) :
    stats.totalSimulations = reports.length := by
  cases reports with
  | nil => simp [getAggregatedStats] at h
  | cons r rs =>
    simp only [getAggregatedStats, Option.some.injEq] at h
    rw [← h]

/-- C7: at the end of a run the aggregator holds as many reports as there are
attempts whose promise resolved with an object carrying a `dataReport`,
whether its `success` is true or false; `getAggregatedStats` shows that number
as `totalSimulations` (and is `null` exactly when the number is zero).  An
attempt that resolves without a report or that faults is not counted. -/
theorem C7_aggregator_count (config : Config) (env : Env)
    (hN : 0 ≤ config.totalSimulations) (hc : 1 ≤ config.concurrency)
    (fuel : Nat) (hfuel : waveCount config ≤ fuel) :
    ∃ s, startSimulation fuel config env = Run.done s ∧
      s.reports.length = (indicesUpTo config.totalSimulations).countP
        (fun k => (env.runSimulation k).report.isSome) ∧
      (∀ stats, getAggregatedStats s.reports = some stats →
        stats.totalSimulations = (indicesUpTo config.totalSimulations).countP
          (fun k => (env.runSimulation k).report.isSome)) ∧
      (getAggregatedStats s.reports = none ↔
        (indicesUpTo config.totalSimulations).countP
          (fun k => (env.runSimulation k).report.isSome) = 0) ∧
      Event.finalReport (getAggregatedStats s.reports) ∈ s.trace ∧
      (∀ k, (env.runSimulation k).report.isSome = true ↔
        ∃ success r, env.runSimulation k = ExecResult.outcome success (some r)) := by
  obtain ⟨s, hrun, hcount, _⟩ := waveLoop_exit config env hN hc fuel hfuel
  obtain ⟨_, _, _, _, _, hrep, _, _⟩ := countInv_exit config env s hcount
  have hrep' : (displayResults config s).reports.length = _ := hrep
  refine ⟨displayResults config s, startSimulation_of_waveLoop config env fuel s hrun,
    hrep', ?_, ?_, ?_, ?_⟩
  · intro stats hstats
    rw [getAggregatedStats_totalSimulations _ stats hstats, hrep']
  · rw [getAggregatedStats_eq_none, ← hrep', List.length_eq_zero]
  · simp [displayResults]
  · intro k
    cases h : env.runSimulation k with
    | outcome b r => cases r <;> simp [ExecResult.report]
    | bareFalse => simp [ExecResult.report]
    | fault => simp [ExecResult.report]

/-- Witness of C7: ten attempts, three at a time. -/
theorem C7_aggregator_count_witness :
    ∃ s, startSimulation 4 ⟨10, 3⟩ demoEnv = Run.done s ∧
      s.reports.length = (indicesUpTo (10 : Int)).countP
        (fun k => (demoEnv.runSimulation k).report.isSome) ∧
      (∀ stats, getAggregatedStats s.reports = some stats →
        stats.totalSimulations = (indicesUpTo (10 : Int)).countP
          (fun k => (demoEnv.runSimulation k).report.isSome)) ∧
      (getAggregatedStats s.reports = none ↔
        (indicesUpTo (10 : Int)).countP (fun k => (demoEnv.runSimulation k).report.isSome) = 0) ∧
      Event.finalReport (getAggregatedStats s.reports) ∈ s.trace ∧
      (∀ k, (demoEnv.runSimulation k).report.isSome = true ↔
        ∃ success r, demoEnv.runSimulation k = ExecResult.outcome success (some r)) :=
  C7_aggregator_count ⟨10, 3⟩ demoEnv (by decide) (by decide) 4 (by decide)

/-- With `concurrency < 1` and `totalSimulations >= 1` the wave loop never
exits: the loop variable does not grow, every wave is empty. -/
theorem waveLoop_stuck (config : Config) (env : Env) (hc : config.concurrency < 1)
    (hN : 1 ≤ config.totalSimulations) :
    ∀ (fuel : Nat) (i : Int) (s : RunState), i ≤ 0 →
      launchedOf s.trace = [] → settledOf s.trace = [] → s.completedSimulations = 0 →
      ∃ s', waveLoop config env fuel i s = Run.pending s' ∧
        launchedOf s'.trace = [] ∧ settledOf s'.trace = [] ∧
        s'.completedSimulations = 0 := by
  intro fuel
  induction fuel with
  | zero =>
    intro i s hi hl hs hcomp
    exact ⟨s, by simp [waveLoop]; omega, hl, hs, hcomp⟩
  | succ fuel ih =>
    intro i s hi hl hs hcomp
    have hlt : i < config.totalSimulations := by omega
    have hb : (min config.concurrency (config.totalSimulations - i)).toNat = 0 := by omega
    have hbatch : batchIndices i (min config.concurrency (config.totalSimulations - i)) =
        [] := by
      simp [batchIndices, hb]
    obtain ⟨s', h1, h2⟩ := ih (i + config.concurrency) (runWave config env i s) (by omega)
      (by rw [runWave_trace, launchedOf_append, launchedOf_waveEvents, hl, hbatch]; rfl)
      (by
        rw [runWave_trace, settledOf_append, settledOf_waveEvents, hs, hbatch]
        simp [completionOrder])
      (by rw [runWave_completed, hcomp, hb])
    exact ⟨s', by simp [waveLoop, hlt, h1], h2⟩

/-- With too little fuel the loop of a valid configuration is still going. -/
theorem waveLoop_pending (config : Config) (env : Env) (hc : 1 ≤ config.concurrency) :
    ∀ (fuel : Nat) (i : Int) (s : RunState),
      (fuel : Int) * config.concurrency < config.totalSimulations - i →
      ∃ s', waveLoop config env fuel i s = Run.pending s' := by
  intro fuel
  induction fuel with
  | zero =>
    intro i s h
    exact ⟨s, by simp [waveLoop]; simp at h; omega⟩
  | succ fuel ih =>
    intro i s h
    have h0 : (0 : Int) ≤ (fuel : Int) * config.concurrency :=
      Int.mul_nonneg (by omega) (by omega)
    have h1 : ((fuel + 1 : Nat) : Int) * config.concurrency =
        (fuel : Int) * config.concurrency + config.concurrency := by
      push_cast; ring
    have hlt : i < config.totalSimulations := by omega
    obtain ⟨s', hs'⟩ := ih (i + config.concurrency) (runWave config env i s) (by omega)
    exact ⟨s', by simp [waveLoop, hlt, hs']⟩

/-- C8 (counterexample): with `totalSimulations = -1` and `concurrency = 1`
the run does not fail: it returns normally and displays the (empty) report. -/
theorem C8_negative_total_returns_report :
    ∃ s, startSimulation 0 ⟨-1, 1⟩ demoEnv = Run.done s ∧
      s.trace = [Event.barStart (-1), Event.barStop, Event.summary 0 (-1),
        Event.finalReport none] :=
  ⟨_, rfl, rfl⟩

/-- C8 (amended): a configuration with `concurrency < 1` or
`totalSimulations < 0` is not rejected.  No attempt is ever launched.  When
`totalSimulations <= 0` the run returns at once with zero counts and no
aggregated statistics; when `totalSimulations >= 1` (so `concurrency < 1`) the
wave loop is still running after any number of iterations, with nothing
launched and nothing completed, and the report is never reached. -/
theorem C8_invalid_config_not_rejected (config : Config) (env : Env)
    (h : config.concurrency < 1 ∨ config.totalSimulations < 0) :
    (config.totalSimulations ≤ 0 → ∀ fuel : Nat,
      ∃ s, startSimulation fuel config env = Run.done s ∧
        s.trace = [Event.barStart config.totalSimulations, Event.barStop,
          Event.summary 0 config.totalSimulations, Event.finalReport none] ∧
        launchedOf s.trace = [] ∧
        s.completedSimulations = 0 ∧ s.successfulSimulations = 0) ∧
    (1 ≤ config.totalSimulations → ∀ fuel : Nat,
      ∃ s, startSimulation fuel config env = Run.pending s ∧
        launchedOf s.trace = [] ∧ settledOf s.trace = [] ∧
        s.completedSimulations = 0) := by
  constructor
  · intro hN fuel
    have hn : ¬ (0 : Int) < config.totalSimulations := by omega
    have hloop : waveLoop config env fuel 0 (initialState config) =
        Run.done (initialState config) := by
      cases fuel <;> simp [waveLoop, hn]
    refine ⟨displayResults config (initialState config),
      startSimulation_of_waveLoop config env fuel _ hloop, ?_, ?_, rfl, rfl⟩
    · simp [displayResults, initialState, getAggregatedStats]
    · simp [displayResults, initialState, launchedOf]
  · intro hN fuel
    have hc : config.concurrency < 1 := by omega
    obtain ⟨s, hs, h1, h2, h3⟩ := waveLoop_stuck config env hc hN fuel 0
      (initialState config) (by omega) (by simp [initialState, launchedOf])
      (by simp [initialState, settledOf]) rfl
    exact ⟨s, by simp [startSimulation, hs], h1, h2, h3⟩

/-- Witness of C8 (amended): `totalSimulations = -1`, `concurrency = 1`. -/
theorem C8_invalid_config_not_rejected_witness :
    ((1 : Int) < 1 ∨ (-1 : Int) < 0) ∧
    (((-1 : Int) ≤ 0 → ∀ fuel : Nat,
      ∃ s, startSimulation fuel ⟨-1, 1⟩ demoEnv = Run.done s ∧
        s.trace = [Event.barStart (-1), Event.barStop,
          Event.summary 0 (-1), Event.finalReport none] ∧
        launchedOf s.trace = [] ∧
        s.completedSimulations = 0 ∧ s.successfulSimulations = 0) ∧
    ((1 : Int) ≤ -1 → ∀ fuel : Nat,
      ∃ s, startSimulation fuel ⟨-1, 1⟩ demoEnv = Run.pending s ∧
        launchedOf s.trace = [] ∧ settledOf s.trace = [] ∧
        s.completedSimulations = 0)) :=
  ⟨Or.inr (by decide), C8_invalid_config_not_rejected ⟨-1, 1⟩ demoEnv (Or.inr (by decide))⟩

/-- C9: with `totalSimulations >= 0`, `concurrency >= 1` and an executor whose
every attempt settles (by resolving or by rejecting), `startSimulation`
returns: the wave loop makes exactly `waveCount` iterations, the ceiling of
`totalSimulations / concurrency` (with less fuel than that it is still
running), and the run ends with the stop of the progress bar, the summary line
and the final report, whatever the outcomes of the attempts. -/
theorem C9_run_terminates (config : Config) (env : Env)
    (hN : 0 ≤ config.totalSimulations) (hc : 1 ≤ config.concurrency)
    (fuel : Nat) (hfuel : waveCount config ≤ fuel) :
    (∃ s, startSimulation fuel config env = Run.done s ∧
      (wavesOf s.trace).length = waveCount config ∧
      ∃ t, s.trace = t ++ [Event.barStop,
        Event.summary s.successfulSimulations config.totalSimulations,
        Event.finalReport (getAggregatedStats s.reports)]) ∧
    (config.totalSimulations ≤ config.concurrency * (waveCount config : Int) ∧
      config.concurrency * (waveCount config : Int) <
        config.totalSimulations + config.concurrency) ∧
    (∀ less : Nat, less < waveCount config →
      ∃ s, startSimulation less config env = Run.pending s) := by
  obtain ⟨s, hrun, _, hwave⟩ := waveLoop_exit config env hN hc fuel hfuel
  obtain ⟨w, hw, _, hwaves, _, _⟩ := hwave
  have hww : w = waveCount config := by
    have h := Int.eq_of_mul_eq_mul_left (show config.concurrency ≠ 0 by omega) hw
    omega
  subst hww
  refine ⟨⟨displayResults config s, startSimulation_of_waveLoop config env fuel s hrun,
    ?_, s.trace, rfl⟩, waveCount_spec config hN hc, ?_⟩
  · rw [wavesOf_displayResults, hwaves]
    simp
  · intro less hless
    obtain ⟨_, h2⟩ := waveCount_spec config hN hc
    have h3 : (less : Int) * config.concurrency ≤
        ((waveCount config : Int) - 1) * config.concurrency :=
      Int.mul_le_mul_of_nonneg_right (by omega) (by omega)
    have h4 : ((waveCount config : Int) - 1) * config.concurrency =
        config.concurrency * (waveCount config : Int) - config.concurrency := by ring
    obtain ⟨s', hs'⟩ := waveLoop_pending config env hc less 0 (initialState config)
      (by omega)
    exact ⟨s', by simp [startSimulation, hs']⟩

/-- Witness of C9: ten attempts, three at a time, every attempt failing. -/
theorem C9_run_terminates_witness :
    (∃ s, startSimulation 4 ⟨10, 3⟩ failingEnv = Run.done s ∧
      (wavesOf s.trace).length = waveCount ⟨10, 3⟩ ∧
      ∃ t, s.trace = t ++ [Event.barStop,
        Event.summary s.successfulSimulations (10 : Int),
        Event.finalReport (getAggregatedStats s.reports)]) ∧
    ((10 : Int) ≤ (3 : Int) * (waveCount ⟨10, 3⟩ : Int) ∧
      (3 : Int) * (waveCount ⟨10, 3⟩ : Int) < (10 : Int) + 3) ∧
    (∀ less : Nat, less < waveCount ⟨10, 3⟩ →
      ∃ s, startSimulation less ⟨10, 3⟩ failingEnv = Run.pending s) :=
  C9_run_terminates ⟨10, 3⟩ failingEnv (by decide) (by decide) 4 (by decide)

/-- C10: with `totalSimulations = 0`, whatever the concurrency, the run
returns at once: `runSimulation` is never called, there is no wave and no
pause, the completed and successful counters are 0, and
`getAggregatedStats` is `null`. -/
theorem C10_empty_run (config : Config) (env : Env) (fuel : Nat)
    (hN : config.totalSimulations = 0) :
    ∃ s, startSimulation fuel config env = Run.done s ∧
      s.trace = [Event.barStart 0, Event.barStop, Event.summary 0 0,
        Event.finalReport none] ∧
      launchedOf s.trace = [] ∧ wavesOf s.trace = [] ∧ pausesOf s.trace = [] ∧
      s.completedSimulations = 0 ∧ s.successfulSimulations = 0 ∧
      getAggregatedStats s.reports = none := by
  have hn : ¬ (0 : Int) < config.totalSimulations := by omega
  have hloop : waveLoop config env fuel 0 (initialState config) =
      Run.done (initialState config) := by
    cases fuel <;> simp [waveLoop, hn]
  have htrace : (displayResults config (initialState config)).trace =
      [Event.barStart 0, Event.barStop, Event.summary 0 0, Event.finalReport none] := by
    simp [displayResults, initialState, getAggregatedStats, hN]
  refine ⟨displayResults config (initialState config),
    startSimulation_of_waveLoop config env fuel _ hloop, htrace, ?_, ?_, ?_, rfl, rfl, rfl⟩
  · rw [htrace]; rfl
  · rw [htrace]; rfl
  · rw [htrace]; rfl

/-- Witness of C10: no attempt, concurrency 3, no fuel at all. -/
theorem C10_empty_run_witness :
    ∃ s, startSimulation 0 ⟨0, 3⟩ demoEnv = Run.done s ∧
      s.trace = [Event.barStart 0, Event.barStop, Event.summary 0 0,
        Event.finalReport none] ∧
      launchedOf s.trace = [] ∧ wavesOf s.trace = [] ∧ pausesOf s.trace = [] ∧
      s.completedSimulations = 0 ∧ s.successfulSimulations = 0 ∧
      getAggregatedStats s.reports = none :=
  C10_empty_run ⟨0, 3⟩ demoEnv 0 rfl

/-! ## JavaScript numbers: algebra -/

theorem JSNumber.val_add_val (a b : ℚ) :
    JSNumber.val a + JSNumber.val b = JSNumber.val (a + b) := rfl

theorem JSNumber.nan_add (x : JSNumber) : JSNumber.nan + x = JSNumber.nan := rfl

theorem JSNumber.add_nan (x : JSNumber) : x + JSNumber.nan = JSNumber.nan := by
  cases x <;> rfl

theorem JSNumber.val_mul_val (a b : ℚ) :
    JSNumber.val a * JSNumber.val b = JSNumber.val (a * b) := rfl

theorem JSNumber.nan_mul (x : JSNumber) : JSNumber.nan * x = JSNumber.nan := rfl

theorem JSNumber.nan_div (x : JSNumber) : JSNumber.nan / x = JSNumber.nan := rfl

theorem JSNumber.val_div_val (a b : ℚ) (hb : b ≠ 0) :
    JSNumber.val a / JSNumber.val b = JSNumber.val (a / b) := by
  show JSNumber.div _ _ = _
  simp [JSNumber.div, hb]

theorem JSNumber.ofNat_eq (n : Nat) : (OfNat.ofNat n : JSNumber) = JSNumber.val (n : ℚ) := rfl

theorem JSNumber.add_swap (x y : JSNumber) : x + y = y + x := by
  cases x <;> cases y <;>
    simp only [JSNumber.val_add_val, JSNumber.nan_add, JSNumber.add_nan, Rat.add_comm]

theorem JSNumber.add_regroup (x y z : JSNumber) : x + y + z = x + (y + z) := by
  cases x <;> cases y <;> cases z <;>
    simp only [JSNumber.val_add_val, JSNumber.nan_add, JSNumber.add_nan, Rat.add_assoc]

/-! ## Rounding -/

/-- The function `toFixed2` rounds to two decimals: the result is a whole
number of hundredths and is within half a hundredth of the argument. -/
theorem toFixed2_rounds (x : ℚ) :
    (∃ k : Int, toFixed2 x = (k : ℚ) / 100) ∧ |toFixed2 x - x| ≤ 1 / 200 := by
  unfold toFixed2
  split
  · refine ⟨⟨-⌊-x * 100 + 1 / 2⌋, by push_cast; ring⟩, ?_⟩
    have h1 := Int.floor_le (-x * 100 + 1 / 2)
    have h2 := Int.lt_floor_add_one (-x * 100 + 1 / 2)
    rw [abs_le]
    constructor <;> linarith
  · refine ⟨⟨⌊x * 100 + 1 / 2⌋, rfl⟩, ?_⟩
    have h1 := Int.floor_le (x * 100 + 1 / 2)
    have h2 := Int.lt_floor_add_one (x * 100 + 1 / 2)
    rw [abs_le]
    constructor <;> linarith

/-! ## The aggregator -/

theorem foldl_addReport (added : List Report) :
    ∀ reports : List Report, added.foldl addReport reports = reports ++ added := by
  induction added with
  | nil => intro reports; simp
  | cons r rs ih => intro reports; simp [ih, addReport]

theorem foldl_add_val (l : List ℚ) :
    ∀ init : ℚ, (l.map JSNumber.val).foldl (fun sum x => sum + x) (JSNumber.val init) =
      JSNumber.val (init + l.sum) := by
  induction l with
  | nil => intro init; simp
  | cons q t ih =>
    intro init
    simp only [List.map_cons, List.foldl_cons, JSNumber.val_add_val, ih, List.sum_cons]
    rw [Rat.add_assoc]

/-- C11: `getAggregatedStats` is `null` exactly when no report has been added
to the aggregator; once a report has been added it returns a statistics object
whose count is the number of reports added, and the count it divides by is not
zero, so that every division by it is an ordinary division. -/
theorem C11_stats_absent_iff_no_report (added : List Report) :
    (getAggregatedStats (added.foldl addReport []) = none ↔ added = []) ∧
    (added ≠ [] →
      (∃ stats, getAggregatedStats (added.foldl addReport []) = some stats ∧
        stats.totalSimulations = added.length) ∧
      ((added.foldl addReport []).length : ℚ) ≠ 0 ∧
      ∀ q : ℚ, JSNumber.val q / JSNumber.val ((added.foldl addReport []).length : ℚ) =
        JSNumber.val (q / ((added.foldl addReport []).length : ℚ))) := by
  rw [foldl_addReport, List.nil_append]
  refine ⟨getAggregatedStats_eq_none added, ?_⟩
  intro hne
  have hlen : ((added.length : ℚ)) ≠ 0 := by
    have : added.length ≠ 0 := fun h => hne (List.length_eq_zero.1 h)
    exact_mod_cast this
  refine ⟨?_, hlen, fun q => JSNumber.val_div_val q _ hlen⟩
  cases h : getAggregatedStats added with
  | none => exact absurd ((getAggregatedStats_eq_none added).1 h) hne
  | some stats => exact ⟨stats, rfl, getAggregatedStats_totalSimulations added stats h⟩

theorem JSNumber.toFixed2_val (q : ℚ) :
    (JSNumber.val q).toFixed2 = JSNumber.val (LeadSim.toFixed2 q) := rfl

theorem toFixed2_of_nonneg (x : ℚ) (hx : 0 ≤ x) :
    toFixed2 x = ((⌊x * 100 + 1 / 2⌋ : Int) : ℚ) / 100 := by
  unfold toFixed2
  rw [if_neg (not_lt.2 hx)]

/-- C16: `calculateCost` is a pure function of `totalMB`: on any two
aggregators, whatever reports they hold, it returns the same result, and it
leaves the aggregator (its reports) as it was. -/
theorem C16_calculateCost_pure (a b : DataAggregator) (totalMB : JSNumber) :
    (a.calculateCost totalMB).1 = (b.calculateCost totalMB).1 ∧
    (a.calculateCost totalMB).2 = a ∧
    (a.calculateCost totalMB).2.reports = a.reports ∧
    (a.calculateCost totalMB).1 = calculateCost totalMB :=
  ⟨rfl, rfl, rfl, rfl⟩

/-! ## Reports of sessions -/

theorem smallSession_totalBytes : smallSession.totalBytes = JSNumber.val 4000 := by
  simp [smallSession, handleEvents, handleEvent, onRequest, onResponse, contentLengthOf,
    newSessionData, JSNumber.ofNat_eq, JSNumber.val_add_val]

theorem generateReport_totalMB (s : SessionData) (now simulationIndex : Int) :
    (generateReport s now simulationIndex).totalMB =
      (s.totalBytes / JSNumber.val (1024 * 1024)).toFixed2 := rfl

/-- C12 (counterexample): two sessions of 4000 bytes each.  Each report shows
0.00 MB, and the aggregate total is 0.00 MB, whereas the sum of the byte
totals (8000 bytes) divided by 1,048,576 and rounded once is 0.01 MB. -/
theorem C12_rounded_sessions_summed :
    smallSession.totalBytes = JSNumber.val 4000 ∧
    (getAggregatedStats [generateReport smallSession 1000 1,
      generateReport smallSession 1000 2]).map (fun stats => stats.totalDataMB) =
        some (JSNumber.val 0) ∧
    ((smallSession.totalBytes + smallSession.totalBytes) /
      JSNumber.val (1024 * 1024)).toFixed2 = JSNumber.val (1 / 100) := by
  have h : (((1024 : ℚ) * 1024)) ≠ 0 := by norm_num
  refine ⟨smallSession_totalBytes, ?_, ?_⟩
  · simp only [getAggregatedStats, generateReport, smallSession_totalBytes, Option.map_some',
      List.foldl_cons, List.foldl_nil]
    simp only [JSNumber.val_div_val _ _ h, JSNumber.toFixed2_val, JSNumber.ofNat_eq,
      JSNumber.val_add_val]
    norm_num [toFixed2, Int.floor_eq_iff]
  · simp only [smallSession_totalBytes, JSNumber.val_add_val, JSNumber.val_div_val _ _ h,
      JSNumber.toFixed2_val]
    norm_num [toFixed2, Int.floor_eq_iff]

/-- C12 (amended): for a non-empty collection of session reports, the
aggregate total `totalDataMB` is the sum of the `totalMB` of the reports, each
of which is the byte total of its session divided by 1,048,576 and already
rounded to two decimals, rounded to two decimals again. -/
theorem C12_total_sums_rounded_reports (sessions : List FinishedSession)
    (hne : sessions ≠ []) :
    ∃ stats, getAggregatedStats (sessions.map FinishedSession.report) = some stats ∧
      stats.totalDataMB =
        ((sessions.map (fun (f : FinishedSession) =>
            (f.data.totalBytes / JSNumber.val (1024 * 1024)).toFixed2)).foldl
          (fun sum x => sum + x) 0).toFixed2 ∧
      ∀ bytes : List ℚ,
        sessions.map (fun (f : FinishedSession) => f.data.totalBytes) =
          bytes.map JSNumber.val →
        stats.totalDataMB =
          JSNumber.val (toFixed2 (bytes.map (fun b => toFixed2 (b / 1048576))).sum) := by
  have hgen : ∀ l : List FinishedSession,
      (l.map FinishedSession.report).foldl (fun sum (x : Report) => sum + x.totalMB) 0 =
        (l.map (fun (f : FinishedSession) =>
          (f.data.totalBytes / JSNumber.val (1024 * 1024)).toFixed2)).foldl
          (fun sum x => sum + x) 0 := by
    intro l
    rw [List.foldl_map, List.foldl_map]
    rfl
  cases hs : sessions with
  | nil => exact absurd hs hne
  | cons f fs =>
    have e1 : (getAggregatedStats ((f :: fs).map FinishedSession.report)) =
        some _ := rfl
    refine ⟨_, e1, ?_, ?_⟩
    · show (((f :: fs).map FinishedSession.report).foldl
        (fun sum (x : Report) => sum + x.totalMB) 0).toFixed2 = _
      rw [hgen]
    · intro bytes hb
      show (((f :: fs).map FinishedSession.report).foldl
        (fun sum (x : Report) => sum + x.totalMB) 0).toFixed2 = _
      rw [hgen]
      have h : (((1024 : ℚ) * 1024)) ≠ 0 := by norm_num
      have hmap : (f :: fs).map (fun (f : FinishedSession) =>
          (f.data.totalBytes / JSNumber.val (1024 * 1024)).toFixed2) =
          (bytes.map (fun b => toFixed2 (b / 1048576))).map JSNumber.val := by
        have : (f :: fs).map (fun (f : FinishedSession) =>
            (f.data.totalBytes / JSNumber.val (1024 * 1024)).toFixed2) =
            ((f :: fs).map (fun (f : FinishedSession) => f.data.totalBytes)).map
              (fun x => (x / JSNumber.val (1024 * 1024)).toFixed2) := by
          rw [List.map_map]; rfl
        rw [this, hb, List.map_map, List.map_map]
        apply List.map_congr_left
        intro b _
        simp only [Function.comp, JSNumber.val_div_val _ _ h, JSNumber.toFixed2_val]
        norm_num
      rw [hmap]
      have hsum := foldl_add_val (bytes.map (fun b => toFixed2 (b / 1048576))) 0
      rw [zero_add] at hsum
      rw [show (0 : JSNumber) = JSNumber.val 0 from rfl, hsum]
      rfl

/-- Witness of C12 (amended): the two sessions of 4000 bytes. -/
theorem C12_total_sums_rounded_reports_witness :
    ∃ stats, getAggregatedStats
        ([(⟨smallSession, 1000, 1⟩ : FinishedSession), ⟨smallSession, 1000, 2⟩].map
          FinishedSession.report) = some stats ∧
      stats.totalDataMB =
        (([(⟨smallSession, 1000, 1⟩ : FinishedSession), ⟨smallSession, 1000, 2⟩].map
          (fun (f : FinishedSession) =>
            (f.data.totalBytes / JSNumber.val (1024 * 1024)).toFixed2)).foldl
          (fun sum x => sum + x) 0).toFixed2 ∧
      ∀ bytes : List ℚ,
        [(⟨smallSession, 1000, 1⟩ : FinishedSession), ⟨smallSession, 1000, 2⟩].map
          (fun (f : FinishedSession) => f.data.totalBytes) = bytes.map JSNumber.val →
        stats.totalDataMB =
          JSNumber.val (toFixed2 (bytes.map (fun b => toFixed2 (b / 1048576))).sum) :=
  C12_total_sums_rounded_reports _ (by simp)

/-! ## Size estimation -/

/-- The function `includesChars` decides whether `sub` is a block of
consecutive characters of `l`. -/
theorem includesChars_iff (sub : List Char) :
    ∀ l : List Char, includesChars l sub = true ↔ sub <:+: l := by
  intro l
  induction l with
  | nil => simp [includesChars, List.infix_nil, List.isEmpty_iff]
  | cons c cs ih =>
    rw [includesChars, Bool.or_eq_true, List.isPrefixOf_iff_prefix, ih, List.infix_cons_iff]

/-- The meaning of `includes`: `sub` occurs somewhere in `s`. -/
theorem includes_iff (s sub : String) :
    includes s sub = true ↔ ∃ before after : List Char,
      s.toList = before ++ sub.toList ++ after := by
  unfold includes
  rw [includesChars_iff]
  constructor
  · rintro ⟨before, after, h⟩
    exact ⟨before, after, h.symm⟩
  · rintro ⟨before, after, h⟩
    exact ⟨before, after, h.symm⟩

theorem includes_append_right (base sub : String) : includes (base ++ sub) sub = true := by
  rw [includes_iff]
  exact ⟨base.toList, [], by simp⟩

theorem estimateOf_image : estimateOf "image" = 150000 := by decide

theorem estimateOf_script : estimateOf "script" = 100000 := by decide

theorem estimateOf_stylesheet : estimateOf "stylesheet" = 30000 := by decide

theorem estimateOf_other : estimateOf "other" = 10000 := by decide

/-- C18 (counterexample): a URL that contains `.png` and also `google`,
declared as a script: the estimate is the one of the declared category
(100000), not the image estimate (150000). -/
theorem C18_google_url_keeps_category :
    includes "https://www.google.com/images/logo.png" ".png" = true ∧
    estimateSize "script" "https://www.google.com/images/logo.png" = 100000 ∧
    estimateOf "image" = 150000 := by
  decide

/-- C18 (amended): for a URL that contains neither `google` nor `facebook`,
whatever the declared category: if the URL contains `.jpg`, `.png` or `.webp`
the estimate is the image estimate 150000; otherwise, if it contains `.js`,
the script estimate 100000; otherwise, if it contains `.css`, the stylesheet
estimate 30000. -/
theorem C18_extension_overrides (resourceType url : String)
    (hg : includes url "google" = false) (hf : includes url "facebook" = false) :
    ((includes url ".jpg" = true ∨ includes url ".png" = true ∨
        includes url ".webp" = true) →
      estimateSize resourceType url = 150000) ∧
    (includes url ".jpg" = false → includes url ".png" = false →
      includes url ".webp" = false → includes url ".js" = true →
      estimateSize resourceType url = 100000) ∧
    (includes url ".jpg" = false → includes url ".png" = false →
      includes url ".webp" = false → includes url ".js" = false →
      includes url ".css" = true →
      estimateSize resourceType url = 30000) := by
  refine ⟨?_, ?_, ?_⟩
  · intro h
    have h' : (includes url ".jpg" || includes url ".png" || includes url ".webp") = true := by
      rcases h with h | h | h <;> simp [h]
    simp [estimateSize, hg, hf, h', estimateOf_image]
  · intro h1 h2 h3 h4
    simp [estimateSize, hg, hf, h1, h2, h3, h4, estimateOf_script]
  · intro h1 h2 h3 h4 h5
    simp [estimateSize, hg, hf, h1, h2, h3, h4, h5, estimateOf_stylesheet]

/-- Witness of C18 (amended): a script served from a path ending in `.png`. -/
theorem C18_extension_overrides_witness :
    includes "https://cdn.example.com/img/photo.png" "google" = false ∧
    includes "https://cdn.example.com/img/photo.png" "facebook" = false ∧
    (((includes "https://cdn.example.com/img/photo.png" ".jpg" = true ∨
        includes "https://cdn.example.com/img/photo.png" ".png" = true ∨
        includes "https://cdn.example.com/img/photo.png" ".webp" = true) →
      estimateSize "script" "https://cdn.example.com/img/photo.png" = 150000) ∧
    (includes "https://cdn.example.com/img/photo.png" ".jpg" = false →
      includes "https://cdn.example.com/img/photo.png" ".png" = false →
      includes "https://cdn.example.com/img/photo.png" ".webp" = false →
      includes "https://cdn.example.com/img/photo.png" ".js" = true →
      estimateSize "script" "https://cdn.example.com/img/photo.png" = 100000) ∧
    (includes "https://cdn.example.com/img/photo.png" ".jpg" = false →
      includes "https://cdn.example.com/img/photo.png" ".png" = false →
      includes "https://cdn.example.com/img/photo.png" ".webp" = false →
      includes "https://cdn.example.com/img/photo.png" ".js" = false →
      includes "https://cdn.example.com/img/photo.png" ".css" = true →
      estimateSize "script" "https://cdn.example.com/img/photo.png" = 30000)) :=
  ⟨by decide, by decide,
    C18_extension_overrides "script" "https://cdn.example.com/img/photo.png"
      (by decide) (by decide)⟩

/-- C19: for every URL ending in `.png`, `estimateSize('image', url)` is the
image estimate 150000, not the estimate 10000 of the category `other`. -/
theorem C19_png_image_estimate (base : String) :
    estimateSize "image" (base ++ ".png") = 150000 ∧
    estimateSize "image" (base ++ ".png") ≠ estimateOf "other" ∧
    estimateOf "other" = 10000 := by
  have h : estimateSize "image" (base ++ ".png") = 150000 := by
    have hpng := includes_append_right base ".png"
    have himg : estimateOrOther "image" = 150000 := by decide
    unfold estimateSize
    split
    · exact himg
    · simp [hpng, estimateOf_image]
  refine ⟨h, ?_, estimateOf_other⟩
  rw [h, estimateOf_other]
  decide

/-- C20: for a URL that contains none of `.jpg`, `.png`, `.webp`, `.js`,
`.css`, `estimateSize(category, url)` is the entry of the table for the
category: 50000 for `document`, 100000 for `script`, 30000 for `stylesheet`,
150000 for `image`, 10000 for `other`, and the entry of `other`, 10000, for a
category without an entry.  The result does not depend on the monitor on
which the method is called, and the call leaves the monitor unchanged. -/
theorem C20_category_default (resourceType url : String)
    (h1 : includes url ".jpg" = false) (h2 : includes url ".png" = false)
    (h3 : includes url ".webp" = false) (h4 : includes url ".js" = false)
    (h5 : includes url ".css" = false) :
    estimateSize resourceType url = estimateOrOther resourceType ∧
    (resourceType = "document" → estimateSize resourceType url = 50000) ∧
    (resourceType = "script" → estimateSize resourceType url = 100000) ∧
    (resourceType = "stylesheet" → estimateSize resourceType url = 30000) ∧
    (resourceType = "image" → estimateSize resourceType url = 150000) ∧
    (resourceType = "other" → estimateSize resourceType url = 10000) ∧
    (estimates.lookup resourceType = none → estimateSize resourceType url = 10000) ∧
    (∀ s₁ s₂ : SessionData,
      (s₁.estimateSize resourceType url).1 = (s₂.estimateSize resourceType url).1 ∧
      (s₁.estimateSize resourceType url).2 = s₁) := by
  have h : estimateSize resourceType url = estimateOrOther resourceType := by
    unfold estimateSize
    split
    · rfl
    · simp [h1, h2, h3, h4, h5]
  refine ⟨h, ?_, ?_, ?_, ?_, ?_, ?_, fun _ _ => ⟨rfl, rfl⟩⟩
  · rintro rfl; rw [h]; decide
  · rintro rfl; rw [h]; decide
  · rintro rfl; rw [h]; decide
  · rintro rfl; rw [h]; decide
  · rintro rfl; rw [h]; decide
  · intro hnone
    rw [h]
    unfold estimateOrOther
    rw [hnone]
    exact estimateOf_other

/-- Witness of C20: a page without extension, declared as a document. -/
theorem C20_category_default_witness :
    estimateSize "document" "https://example.com/landing" =
      estimateOrOther "document" ∧
    ("document" = "document" →
      estimateSize "document" "https://example.com/landing" = 50000) ∧
    ("document" = "script" →
      estimateSize "document" "https://example.com/landing" = 100000) ∧
    ("document" = "stylesheet" →
      estimateSize "document" "https://example.com/landing" = 30000) ∧
    ("document" = "image" →
      estimateSize "document" "https://example.com/landing" = 150000) ∧
    ("document" = "other" →
      estimateSize "document" "https://example.com/landing" = 10000) ∧
    (estimates.lookup "document" = none →
      estimateSize "document" "https://example.com/landing" = 10000) ∧
    (∀ s₁ s₂ : SessionData,
      (s₁.estimateSize "document" "https://example.com/landing").1 =
        (s₂.estimateSize "document" "https://example.com/landing").1 ∧
      (s₁.estimateSize "document" "https://example.com/landing").2 = s₁) :=
  C20_category_default "document" "https://example.com/landing"
    (by decide) (by decide) (by decide) (by decide) (by decide)

/-! ## Byte accounting of the monitor -/

theorem bytesBalanced_onResponse (s : SessionData) (e : ResponseEvent)
    (h : BytesBalanced s) : BytesBalanced (onResponse s e) := by
  unfold BytesBalanced at h ⊢
  unfold onResponse
  simp only []
  split_ifs <;> simp only [h] <;> ac_rfl

theorem bytesBalanced_handleEvent (debug : Bool) (s : SessionData) (ev : PageEvent)
    (h : BytesBalanced s) : BytesBalanced (handleEvent debug s ev) := by
  cases ev with
  | request e =>
    unfold BytesBalanced at h ⊢
    unfold handleEvent onRequest
    cases debug <;> simpa using h
  | response e => exact bytesBalanced_onResponse s e h
  | responseUnreadable => exact h

theorem bytesBalanced_handleEvents (debug : Bool) (events : List PageEvent) :
    ∀ s : SessionData, BytesBalanced s → BytesBalanced (handleEvents debug s events) := by
  induction events with
  | nil => intro s h; exact h
  | cons ev rest ih =>
    intro s h
    exact ih _ (bytesBalanced_handleEvent debug s ev h)

theorem bytesAreNumbers_onResponse (s : SessionData) (e : ResponseEvent) (c : ℚ)
    (hc : contentLengthOf e = JSNumber.val c)
    (h : BytesAreNumbers s) : BytesAreNumbers (onResponse s e) := by
  obtain ⟨d, sc, st, i, o, hd, hsc, hst, hi, ho, ht⟩ := h
  unfold onResponse
  simp only [hc]
  split_ifs
  · exact ⟨d, sc, st, i + c, o, hd, hsc, hst, by simp [hi, JSNumber.val_add_val], ho,
      by simp only [ht, JSNumber.val_add_val]; congr 1; ring⟩
  · exact ⟨d, sc + c, st, i, o, hd, by simp [hsc, JSNumber.val_add_val], hst, hi, ho,
      by simp only [ht, JSNumber.val_add_val]; congr 1; ring⟩
  · exact ⟨d, sc, st + c, i, o, hd, hsc, by simp [hst, JSNumber.val_add_val], hi, ho,
      by simp only [ht, JSNumber.val_add_val]; congr 1; ring⟩
  · exact ⟨d + c, sc, st, i, o, by simp [hd, JSNumber.val_add_val], hsc, hst, hi, ho,
      by simp only [ht, JSNumber.val_add_val]; congr 1; ring⟩
  · exact ⟨d, sc, st, i, o + c, hd, hsc, hst, hi, by simp [ho, JSNumber.val_add_val],
      by simp only [ht, JSNumber.val_add_val]; congr 1; ring⟩

theorem contentLengthOf_number (e : ResponseEvent)
    (h : e.measurement ≠ Measurement.contentLength none) :
    ∃ c : ℚ, contentLengthOf e = JSNumber.val c := by
  unfold contentLengthOf
  cases hm : e.measurement with
  | contentLength parsed =>
    cases parsed with
    | none => exact absurd hm h
    | some n => exact ⟨_, rfl⟩
  | bodyLength n => exact ⟨_, rfl⟩
  | bodyUnreadable => exact ⟨_, rfl⟩
  | headersUnreadable => exact ⟨_, rfl⟩

theorem bytesAreNumbers_handleEvents (debug : Bool) (events : List PageEvent) :
    ∀ s : SessionData,
      (∀ url resourceType, PageEvent.response
        ⟨url, resourceType, Measurement.contentLength none⟩ ∉ events) →
      BytesAreNumbers s → BytesAreNumbers (handleEvents debug s events) := by
  induction events with
  | nil => intro s _ h; exact h
  | cons ev rest ih =>
    intro s hev h
    have hrest : ∀ url resourceType, PageEvent.response
        ⟨url, resourceType, Measurement.contentLength none⟩ ∉ rest :=
      fun url rt hmem => hev url rt (List.mem_cons_of_mem _ hmem)
    refine ih _ hrest ?_
    cases ev with
    | request e =>
      obtain ⟨d, sc, st, i, o, hd, hsc, hst, hi, ho, ht⟩ := h
      refine ⟨d, sc, st, i, o, ?_⟩
      unfold handleEvent onRequest
      cases debug <;> exact ⟨hd, hsc, hst, hi, ho, ht⟩
    | response e =>
      have hne : e.measurement ≠ Measurement.contentLength none := by
        intro hm
        apply hev e.url e.resourceType
        rw [← hm]
        exact List.mem_cons_self _ _
      obtain ⟨c, hc⟩ := contentLengthOf_number e hne
      exact bytesAreNumbers_onResponse s e c hc h
    | responseUnreadable => exact h

/-- C17: after every sequence of request and response events handled by a
fresh monitor, `totalBytes` is the sum of the five category counters.  Each
response adds its measured or estimated length once to the total and once to
the counter of its category, the four other counters staying as they were.
When no response carries a `content-length` header that is not a number, all
six counters are numbers and the equation is one between numbers. -/
theorem C17_total_is_sum_of_categories (debug : Bool) (now : Int)
    (events : List PageEvent) :
    (handleEvents debug (newSessionData now) events).totalBytes =
      (handleEvents debug (newSessionData now) events).documentBytes +
        (handleEvents debug (newSessionData now) events).scriptBytes +
        (handleEvents debug (newSessionData now) events).stylesheetBytes +
        (handleEvents debug (newSessionData now) events).imageBytes +
        (handleEvents debug (newSessionData now) events).otherBytes ∧
    (∀ (s : SessionData) (e : ResponseEvent),
      (onResponse s e).totalBytes = s.totalBytes + contentLengthOf e ∧
      ∀ c : Category, (onResponse s e).counter c =
        if c = categoryOf e.resourceType then s.counter c + contentLengthOf e
        else s.counter c) ∧
    ((∀ url resourceType, PageEvent.response
        ⟨url, resourceType, Measurement.contentLength none⟩ ∉ events) →
      BytesAreNumbers (handleEvents debug (newSessionData now) events)) := by
  refine ⟨?_, ?_, ?_⟩
  · have h0 : BytesBalanced (newSessionData now) := by
      unfold BytesBalanced newSessionData
      simp [JSNumber.ofNat_eq, JSNumber.val_add_val]
    exact bytesBalanced_handleEvents debug events (newSessionData now) h0
  · intro s e
    constructor
    · unfold onResponse
      simp only []
      split_ifs <;> rfl
    · intro c
      unfold onResponse categoryOf
      simp only []
      split_ifs <;> cases c <;> simp_all [SessionData.counter]
  · intro h
    exact bytesAreNumbers_handleEvents debug events (newSessionData now) h
      ⟨0, 0, 0, 0, 0, rfl, rfl, rfl, rfl, rfl, by
        show JSNumber.val _ = _
        norm_num⟩

/-- C21: the amount a response adds to the totals is the value of the variable
`contentLength`.  When the `content-length` header is present it is the number
`parseInt` reads in the header, whatever the category and the URL; without
the header it is the length of the body when the body can be read; the
estimate `estimateSize(resourceType, url)` is used exactly in the two
remaining cases, where no length could be obtained. -/
theorem C21_length_precedence (s : SessionData) (e : ResponseEvent) :
    (onResponse s e).totalBytes = s.totalBytes + contentLengthOf e ∧
    (∀ parsed, e.measurement = Measurement.contentLength parsed →
      contentLengthOf e = parsedNumber parsed) ∧
    (∀ n : Int, e.measurement = Measurement.contentLength (some n) →
      contentLengthOf e = JSNumber.val (n : ℚ)) ∧
    (∀ length, e.measurement = Measurement.bodyLength length →
      contentLengthOf e = JSNumber.val (length : ℚ)) ∧
    ((e.measurement = Measurement.bodyUnreadable ∨
        e.measurement = Measurement.headersUnreadable) →
      contentLengthOf e = JSNumber.val (estimateSize e.resourceType e.url : ℚ)) ∧
    (∀ (url url' resourceType resourceType' : String) (m : Measurement),
      m ≠ Measurement.bodyUnreadable → m ≠ Measurement.headersUnreadable →
      contentLengthOf ⟨url, resourceType, m⟩ =
        contentLengthOf ⟨url', resourceType', m⟩) := by
  refine ⟨?_, ?_, ?_, ?_, ?_, ?_⟩
  · unfold onResponse
    simp only []
    split_ifs <;> rfl
  · intro parsed h
    simp [contentLengthOf, h]
  · intro n h
    simp [contentLengthOf, h, parsedNumber]
  · intro length h
    simp [contentLengthOf, h]
  · rintro (h | h) <;> simp [contentLengthOf, h]
  · intro url url' rt rt' m h1 h2
    cases m with
    | contentLength parsed => rfl
    | bodyLength length => rfl
    | bodyUnreadable => exact absurd rfl h1
    | headersUnreadable => exact absurd rfl h2

/-- C22 (the code at the failing input): three responses, the second with a
`content-length` header that holds no number.  After them the total and the
script counter are `NaN`: the 1000 and 2000 bytes of the two other responses
are no longer in the total.  With the header `-500` the total goes down, from
1000 to 500, and the script counter is negative. -/
theorem C22_bad_header_corrupts_totals :
    (handleEvents false (newSessionData 0) corruptingEvents).totalBytes = JSNumber.nan ∧
    (handleEvents false (newSessionData 0) corruptingEvents).scriptBytes = JSNumber.nan ∧
    (handleEvents false (newSessionData 0) corruptingEvents).imageBytes =
      JSNumber.val 1000 ∧
    (handleEvents false (newSessionData 0) corruptingEvents).documentBytes =
      JSNumber.val 2000 ∧
    (handleEvents false (newSessionData 0) (corruptingEvents.take 1)).totalBytes =
      JSNumber.val 1000 ∧
    (handleEvents false (newSessionData 0) negativeEvents).totalBytes = JSNumber.val 500 ∧
    (handleEvents false (newSessionData 0) negativeEvents).scriptBytes =
      JSNumber.val (-500) := by
  refine ⟨?_, ?_, ?_, ?_, ?_, ?_, ?_⟩ <;>
    simp [corruptingEvents, negativeEvents, handleEvents, handleEvent, onResponse,
      contentLengthOf, parsedNumber, newSessionData, JSNumber.ofNat_eq, JSNumber.val_add_val,
      JSNumber.add_nan, JSNumber.nan_add]
  norm_num

theorem handleEvent_counts (debug : Bool) (s : SessionData) (ev : PageEvent) :
    (handleEvent debug s ev).requestCount =
      s.requestCount + (if ev.isRequest then 1 else 0) ∧
    (handleEvent debug s ev).responseCount =
      s.responseCount + (if ev.isResponse then 1 else 0) := by
  cases ev with
  | request e =>
    unfold handleEvent onRequest
    cases debug <;> simp [PageEvent.isRequest, PageEvent.isResponse]
  | response e =>
    have h1 : (PageEvent.response e).isRequest = false := rfl
    have h2 : (PageEvent.response e).isResponse = true := rfl
    rw [h1, h2]
    unfold handleEvent onResponse
    simp only []
    split_ifs <;> first | contradiction | simp
  | responseUnreadable =>
    simp [handleEvent, PageEvent.isRequest, PageEvent.isResponse]

theorem handleEvents_counts (debug : Bool) (events : List PageEvent) :
    ∀ s : SessionData,
      (handleEvents debug s events).requestCount =
        s.requestCount + (events.countP PageEvent.isRequest : Nat) ∧
      (handleEvents debug s events).responseCount =
        s.responseCount + (events.countP PageEvent.isResponse : Nat) := by
  induction events with
  | nil => intro s; simp [handleEvents]
  | cons ev rest ih =>
    intro s
    have h1 := ih (handleEvent debug s ev)
    have h2 := handleEvent_counts debug s ev
    simp only [handleEvents, List.foldl_cons] at h1 ⊢
    rw [h1.1, h1.2, h2.1, h2.2, List.countP_cons, List.countP_cons]
    constructor
    · split_ifs <;> simp_all
      all_goals omega
    · split_ifs <;> simp_all
      all_goals omega

/-- C23: a request event adds exactly one to `requestCount` and leaves
`responseCount`, `totalBytes` and the five category counters as they were; a
response event adds exactly one to `responseCount` and nothing to
`requestCount`, however its size is measured, also when the measurement fails
or the response cannot be read at all.  After a sequence of events the two
counts are the numbers of request and of response events. -/
theorem C23_event_counters (debug : Bool) (s : SessionData) :
    (∀ e : RequestEvent,
      (handleEvent debug s (PageEvent.request e)).requestCount = s.requestCount + 1 ∧
      (handleEvent debug s (PageEvent.request e)).responseCount = s.responseCount ∧
      (handleEvent debug s (PageEvent.request e)).totalBytes = s.totalBytes ∧
      (handleEvent debug s (PageEvent.request e)).documentBytes = s.documentBytes ∧
      (handleEvent debug s (PageEvent.request e)).scriptBytes = s.scriptBytes ∧
      (handleEvent debug s (PageEvent.request e)).stylesheetBytes = s.stylesheetBytes ∧
      (handleEvent debug s (PageEvent.request e)).imageBytes = s.imageBytes ∧
      (handleEvent debug s (PageEvent.request e)).otherBytes = s.otherBytes) ∧
    (∀ e : ResponseEvent,
      (handleEvent debug s (PageEvent.response e)).responseCount = s.responseCount + 1 ∧
      (handleEvent debug s (PageEvent.response e)).requestCount = s.requestCount) ∧
    ((handleEvent debug s PageEvent.responseUnreadable).responseCount =
        s.responseCount + 1 ∧
      (handleEvent debug s PageEvent.responseUnreadable).requestCount = s.requestCount ∧
      (handleEvent debug s PageEvent.responseUnreadable).totalBytes = s.totalBytes) ∧
    (∀ (now : Int) (events : List PageEvent),
      (handleEvents debug (newSessionData now) events).requestCount =
        (events.countP PageEvent.isRequest : Nat) ∧
      (handleEvents debug (newSessionData now) events).responseCount =
        (events.countP PageEvent.isResponse : Nat)) := by
  refine ⟨?_, ?_, ?_, ?_⟩
  · intro e
    unfold handleEvent onRequest
    cases debug <;> simp
  · intro e
    have h := handleEvent_counts debug s (PageEvent.response e)
    simpa [PageEvent.isRequest, PageEvent.isResponse] using And.symm h
  · simp [handleEvent]
  · intro now events
    have h := handleEvents_counts debug events (newSessionData now)
    simpa [newSessionData] using h

/-- C26: `generateReport` returns `totalBytes` as accumulated by the session,
`totalMB` and each entry of `breakdown` as the corresponding byte counter
divided by 1,048,576 and rounded to two decimals, and `requestCount` and
`responseCount` as they are; the call leaves the session data unchanged.  The
last part reads `totalMB` as a rational when `totalBytes` is a number. -/
theorem C26_generateReport_fields (s : SessionData) (now simulationIndex : Int) :
    (generateReport s now simulationIndex).totalBytes = s.totalBytes ∧
    (generateReport s now simulationIndex).totalMB =
      (s.totalBytes / JSNumber.val 1048576).toFixed2 ∧
    (generateReport s now simulationIndex).breakdown.documents =
      (s.documentBytes / JSNumber.val 1048576).toFixed2 ∧
    (generateReport s now simulationIndex).breakdown.scripts =
      (s.scriptBytes / JSNumber.val 1048576).toFixed2 ∧
    (generateReport s now simulationIndex).breakdown.stylesheets =
      (s.stylesheetBytes / JSNumber.val 1048576).toFixed2 ∧
    (generateReport s now simulationIndex).breakdown.images =
      (s.imageBytes / JSNumber.val 1048576).toFixed2 ∧
    (generateReport s now simulationIndex).breakdown.other =
      (s.otherBytes / JSNumber.val 1048576).toFixed2 ∧
    (generateReport s now simulationIndex).requestCount = s.requestCount ∧
    (generateReport s now simulationIndex).responseCount = s.responseCount ∧
    (generateReport s now simulationIndex).simulationIndex = simulationIndex ∧
    (s.generateReport now simulationIndex).1 = generateReport s now simulationIndex ∧
    (s.generateReport now simulationIndex).2 = s ∧
    (∀ bytes : ℚ, s.totalBytes = JSNumber.val bytes →
      (generateReport s now simulationIndex).totalMB =
        JSNumber.val (toFixed2 (bytes / 1048576)) ∧
      |toFixed2 (bytes / 1048576) - bytes / 1048576| ≤ 1 / 200) := by
  have h : (1024 : ℚ) * 1024 = 1048576 := by norm_num
  refine ⟨rfl, ?_, ?_, ?_, ?_, ?_, ?_, rfl, rfl, rfl, rfl, rfl, ?_⟩
  · show (s.totalBytes / JSNumber.val (1024 * 1024)).toFixed2 = _
    rw [h]
  · show (s.documentBytes / JSNumber.val (1024 * 1024)).toFixed2 = _
    rw [h]
  · show (s.scriptBytes / JSNumber.val (1024 * 1024)).toFixed2 = _
    rw [h]
  · show (s.stylesheetBytes / JSNumber.val (1024 * 1024)).toFixed2 = _
    rw [h]
  · show (s.imageBytes / JSNumber.val (1024 * 1024)).toFixed2 = _
    rw [h]
  · show (s.otherBytes / JSNumber.val (1024 * 1024)).toFixed2 = _
    rw [h]
  · intro bytes hb
    refine ⟨?_, (toFixed2_rounds _).2⟩
    show (s.totalBytes / JSNumber.val (1024 * 1024)).toFixed2 = _
    rw [h, hb, JSNumber.val_div_val _ _ (by norm_num), JSNumber.toFixed2_val]

/-- C30: for a URL that contains `google` or `facebook`, `estimateSize` returns
the entry of the table for the declared category, and the entry of `other`,
10000, for a category without an entry, also when the URL contains `.jpg`,
`.png`, `.webp`, `.js` or `.css`. -/
theorem C30_google_facebook_rule (resourceType url : String)
    (h : includes url "google" = true ∨ includes url "facebook" = true) :
    estimateSize resourceType url = estimateOrOther resourceType ∧
    (resourceType = "document" → estimateSize resourceType url = 50000) ∧
    (resourceType = "script" → estimateSize resourceType url = 100000) ∧
    (resourceType = "stylesheet" → estimateSize resourceType url = 30000) ∧
    (resourceType = "image" → estimateSize resourceType url = 150000) ∧
    (resourceType = "font" → estimateSize resourceType url = 80000) ∧
    (resourceType = "xhr" → estimateSize resourceType url = 5000) ∧
    (resourceType = "fetch" → estimateSize resourceType url = 5000) ∧
    (resourceType = "other" → estimateSize resourceType url = 10000) ∧
    (estimates.lookup resourceType = none → estimateSize resourceType url = 10000) := by
  have hgf : (includes url "google" || includes url "facebook") = true := by
    rcases h with h | h <;> simp [h]
  have he : estimateSize resourceType url = estimateOrOther resourceType := by
    unfold estimateSize
    rw [if_pos hgf]
  refine ⟨he, ?_, ?_, ?_, ?_, ?_, ?_, ?_, ?_, ?_⟩
  · rintro rfl; rw [he]; decide
  · rintro rfl; rw [he]; decide
  · rintro rfl; rw [he]; decide
  · rintro rfl; rw [he]; decide
  · rintro rfl; rw [he]; decide
  · rintro rfl; rw [he]; decide
  · rintro rfl; rw [he]; decide
  · rintro rfl; rw [he]; decide
  · intro hnone
    rw [he]
    unfold estimateOrOther
    rw [hnone]
    exact estimateOf_other

/-- Witness of C30: a stylesheet served by a host whose name contains
`facebook`, from a path ending in `.css`. -/
theorem C30_google_facebook_rule_witness :
    (includes "https://static.facebook.com/sdk/all.css" "google" = true ∨
      includes "https://static.facebook.com/sdk/all.css" "facebook" = true) ∧
    includes "https://static.facebook.com/sdk/all.css" ".css" = true ∧
    (estimateSize "script" "https://static.facebook.com/sdk/all.css" =
        estimateOrOther "script" ∧
      ("script" = "document" →
        estimateSize "script" "https://static.facebook.com/sdk/all.css" = 50000) ∧
      ("script" = "script" →
        estimateSize "script" "https://static.facebook.com/sdk/all.css" = 100000) ∧
      ("script" = "stylesheet" →
        estimateSize "script" "https://static.facebook.com/sdk/all.css" = 30000) ∧
      ("script" = "image" →
        estimateSize "script" "https://static.facebook.com/sdk/all.css" = 150000) ∧
      ("script" = "font" →
        estimateSize "script" "https://static.facebook.com/sdk/all.css" = 80000) ∧
      ("script" = "xhr" →
        estimateSize "script" "https://static.facebook.com/sdk/all.css" = 5000) ∧
      ("script" = "fetch" →
        estimateSize "script" "https://static.facebook.com/sdk/all.css" = 5000) ∧
      ("script" = "other" →
        estimateSize "script" "https://static.facebook.com/sdk/all.css" = 10000) ∧
      (estimates.lookup "script" = none →
        estimateSize "script" "https://static.facebook.com/sdk/all.css" = 10000)) :=
  ⟨Or.inr (by decide), by decide,
    C30_google_facebook_rule "script" "https://static.facebook.com/sdk/all.css"
      (Or.inr (by decide))⟩

/-! ## Pauses and progress -/

theorem rhythm_append (a b : List Event) : rhythm (a ++ b) = rhythm a ++ rhythm b := by
  simp [rhythm]

theorem progressLog_append (a b : List Event) :
    progressLog (a ++ b) = progressLog a ++ progressLog b := by
  simp [progressLog]

theorem rhythm_map_launch (l : List Int) : rhythm (l.map Event.launch) = [] := by
  simp [rhythm]

theorem pausesOf_map_launch (l : List Int) : pausesOf (l.map Event.launch) = [] := by
  simp [pausesOf]

theorem progressLog_map_launch (l : List Int) :
    progressLog (l.map Event.launch) = [] := by
  simp [progressLog]

theorem rhythm_settleEvents (env : Env) (order : List Int) :
    ∀ c k, rhythm (settleEvents env c k order) = [] := by
  induction order with
  | nil => intro c k; rfl
  | cons a t ih => intro c k; simpa [rhythm, settleEvents] using ih _ _

theorem pausesOf_settleEvents (env : Env) (order : List Int) :
    ∀ c k, pausesOf (settleEvents env c k order) = [] := by
  induction order with
  | nil => intro c k; rfl
  | cons a t ih => intro c k; simpa [pausesOf, settleEvents] using ih _ _

/-- Every update shown while the attempts `order` settle keeps
`successful <= completed`, and `completed` grows by at most their number. -/
theorem progressLog_settleEvents (env : Env) (order : List Int) :
    ∀ c k, k ≤ c → ∀ p ∈ progressLog (settleEvents env c k order),
      p.2 ≤ p.1 ∧ p.1 ≤ c + order.length := by
  induction order with
  | nil => intro c k _ p hp; simp [settleEvents, progressLog] at hp
  | cons a t ih =>
    intro c k hk p hp
    simp only [settleEvents, progressLog, List.filterMap_cons, List.mem_cons] at hp
    rcases hp with rfl | hp
    · simp only [List.length_cons]
      constructor
      · split_ifs <;> omega
      · omega
    · have hk' : (if (env.runSimulation a).truthy then k + 1 else k) ≤ c + 1 := by
        split_ifs <;> omega
      have := ih (c + 1) _ hk' p hp
      simp only [List.length_cons]
      omega

theorem rhythm_waveEvents (config : Config) (env : Env) (i : Int) (s : RunState) :
    rhythm (waveEvents config env i s) =
      true :: (if i + min config.concurrency (config.totalSimulations - i) <
        config.totalSimulations then [false] else []) := by
  unfold waveEvents
  simp only [rhythm_append, rhythm_map_launch, rhythm_settleEvents]
  split <;> simp [rhythm]

theorem pausesOf_waveEvents (config : Config) (env : Env) (i : Int) (s : RunState) :
    pausesOf (waveEvents config env i s) =
      (if i + min config.concurrency (config.totalSimulations - i) <
        config.totalSimulations then [pauseDuration env s.draws] else []) := by
  unfold waveEvents
  simp only [pausesOf_append, pausesOf_map_launch, pausesOf_settleEvents]
  split <;> simp [pausesOf, pauseDuration]

theorem progressLog_waveEvents (config : Config) (env : Env) (i : Int) (s : RunState) :
    progressLog (waveEvents config env i s) =
      progressLog (settleEvents env s.completedSimulations s.successfulSimulations
        (completionOrder env
          (batchIndices i (min config.concurrency (config.totalSimulations - i))))) := by
  unfold waveEvents
  simp only [progressLog_append, progressLog_map_launch]
  split <;> simp [progressLog]

theorem runWave_draws (config : Config) (env : Env) (i : Int) (s : RunState) :
    (runWave config env i s).draws = s.draws +
      (if i + min config.concurrency (config.totalSimulations - i) <
        config.totalSimulations then 1 else 0) := by
  unfold runWave
  simp only []
  split <;> simp [(foldl_settle env _ _).2.2.2.2]

theorem drawInv_runWave (config : Config) (env : Env) (i : Int) (s : RunState)
    (h : DrawInv env s) : DrawInv env (runWave config env i s) := by
  unfold DrawInv at h ⊢
  rw [runWave_trace, pausesOf_append, pausesOf_waveEvents, runWave_draws, h]
  split
  · rw [List.range_succ, List.map_append]
    rfl
  · simp

theorem drawInv_waveLoop (config : Config) (env : Env) :
    ∀ (fuel : Nat) (i : Int) (s : RunState), DrawInv env s →
      DrawInv env (waveLoop config env fuel i s).state := by
  intro fuel
  induction fuel with
  | zero =>
    intro i s h
    unfold waveLoop
    split <;> exact h
  | succ fuel ih =>
    intro i s h
    unfold waveLoop
    split
    · exact ih _ _ (drawInv_runWave config env i s h)
    · exact h

theorem pausesOf_startSimulation (fuel : Nat) (config : Config) (env : Env) :
    DrawInv env (startSimulation fuel config env).state := by
  have h0 : DrawInv env (initialState config) := by
    simp [DrawInv, initialState, pausesOf]
  have h := drawInv_waveLoop config env fuel 0 (initialState config) h0
  unfold startSimulation
  cases hw : waveLoop config env fuel 0 (initialState config) with
  | done s =>
    rw [hw] at h
    simp only [Run.state] at h ⊢
    unfold DrawInv at h ⊢
    simpa [displayResults, pausesOf] using h
  | pending s =>
    rw [hw] at h
    exact h

/-- C25 (counterexample): the configuration asks for pauses of 100 to 200
milliseconds; with two attempts, one at a time, and `Math.random()` giving
0.5, the run pauses once, for 4500 milliseconds. -/
theorem C25_pause_ignores_configured_range :
    shortDelayConfig.interBatchDelayRange = (100, 200) ∧
    ∃ s, startSimulation 2 shortDelayConfig.toConfig demoEnv = Run.done s ∧
      pausesOf s.trace = [4500] ∧
      ¬ (shortDelayConfig.interBatchDelayRange.1 ≤ 4500 ∧
        (4500 : ℚ) ≤ shortDelayConfig.interBatchDelayRange.2) := by
  refine ⟨rfl, _, rfl, ?_, ?_⟩
  · refine Eq.trans (b := [demoEnv.random 0 * 5000 + 2000]) rfl ?_
    norm_num [demoEnv]
  · norm_num [shortDelayConfig]

/-- C25 (amended): for every configuration and every run, returned or still
going, each pause lasts `Math.random() * 5000 + 2000` milliseconds for the
value drawn for it, hence at least 2000 and less than 7000 milliseconds
whatever the draw in `[0, 1)`; the bounds are constants of the code. -/
theorem C25_pause_between_2000_and_7000 (fuel : Nat) (config : Config) (env : Env)
    (hr : ∀ k, 0 ≤ env.random k ∧ env.random k < 1) :
    pausesOf (startSimulation fuel config env).state.trace =
      (List.range (startSimulation fuel config env).state.draws).map
        (fun k => env.random k * 5000 + 2000) ∧
    ∀ ms ∈ pausesOf (startSimulation fuel config env).state.trace,
      2000 ≤ ms ∧ ms < 7000 := by
  have h := pausesOf_startSimulation fuel config env
  unfold DrawInv at h
  refine ⟨h, ?_⟩
  intro ms hms
  rw [h, List.mem_map] at hms
  obtain ⟨k, _, rfl⟩ := hms
  have := hr k
  unfold pauseDuration
  constructor <;> linarith [this.1, this.2]

/-- Witness of C25 (amended): ten attempts, three at a time, every draw 0.5. -/
theorem C25_pause_between_2000_and_7000_witness :
    (∀ k, 0 ≤ demoEnv.random k ∧ demoEnv.random k < 1) ∧
    (pausesOf (startSimulation 4 ⟨10, 3⟩ demoEnv).state.trace =
      (List.range (startSimulation 4 ⟨10, 3⟩ demoEnv).state.draws).map
        (fun k => demoEnv.random k * 5000 + 2000) ∧
    ∀ ms ∈ pausesOf (startSimulation 4 ⟨10, 3⟩ demoEnv).state.trace,
      2000 ≤ ms ∧ ms < 7000) :=
  ⟨fun _ => by norm_num [demoEnv],
    C25_pause_between_2000_and_7000 4 ⟨10, 3⟩ demoEnv (fun _ => by norm_num [demoEnv])⟩

theorem pausesOf_length_eq_count (tr : List Event) :
    (pausesOf tr).length = (rhythm tr).count false := by
  induction tr with
  | nil => rfl
  | cons e t ih =>
    cases e <;> simp_all [pausesOf, rhythm]

theorem count_false_rhythm (n : Nat) :
    ((List.replicate n [true, false]).flatten ++ [true]).count false = n := by
  induction n with
  | zero => rfl
  | succ n ih =>
    simp only [List.replicate_succ, List.flatten_cons, List.cons_append, List.nil_append,
      List.count_cons] at ih ⊢
    simp only [List.count_append] at ih ⊢
    simp at ih ⊢
    omega

/-- Two multiples of the concurrency in the same window of that width are
the same multiple. -/
theorem wave_index_unique (c n : Int) (hc : 1 ≤ c) (a b : Nat)
    (ha1 : n ≤ c * (a : Int)) (ha2 : c * (a : Int) < n + c)
    (hb1 : n ≤ c * (b : Int)) (hb2 : c * (b : Int) < n + c) : a = b := by
  have key : ∀ x y : Int, c * x < c * y + c → x ≤ y := by
    intro x y h
    have h' : c * x < c * (y + 1) := by
      rw [Int.mul_add, Int.mul_one]; exact h
    have := Int.lt_of_mul_lt_mul_left h' (by omega : (0 : Int) ≤ c)
    omega
  have h1 := key a b (by omega)
  have h2 := key b a (by omega)
  omega

theorem rhythmInv_initial (config : Config) (hN : 1 ≤ config.totalSimulations) :
    RhythmInv config 0 (initialState config) :=
  ⟨0, by simp, Or.inl ⟨by omega, by simp [initialState, rhythm]⟩⟩

theorem rhythmInv_step (config : Config) (env : Env) (i : Int) (s : RunState)
    (hlt : i < config.totalSimulations)
    (hinv : RhythmInv config i s) :
    RhythmInv config (i + config.concurrency) (runWave config env i s) := by
  obtain ⟨w, hw, hcase⟩ := hinv
  rcases hcase with ⟨_, hr⟩ | ⟨hge, _⟩
  · refine ⟨w + 1, by push_cast; rw [hw]; ring, ?_⟩
    rw [runWave_trace, rhythm_append, rhythm_waveEvents, hr]
    by_cases hmore : i + config.concurrency < config.totalSimulations
    · left
      refine ⟨hmore, ?_⟩
      rw [if_pos (by omega), List.replicate_succ', List.flatten_append]
      simp
    · right
      refine ⟨by omega, by omega, by omega, ?_⟩
      rw [if_neg (by omega)]
      simp
  · omega

/-- With at least one attempt, a valid concurrency and enough fuel the loop
returns with the waves and pauses in strict alternation, the last wave not
being followed by a pause. -/
theorem waveLoop_exit_rhythm (config : Config) (env : Env)
    (hN : 1 ≤ config.totalSimulations) (hc : 1 ≤ config.concurrency)
    (fuel : Nat) (hfuel : waveCount config ≤ fuel) :
    ∃ s, waveLoop config env fuel 0 (initialState config) = Run.done s ∧
      1 ≤ waveCount config ∧
      rhythm s.trace =
        (List.replicate (waveCount config - 1) [true, false]).flatten ++ [true] := by
  obtain ⟨i', s', hrun, hexit, hinv⟩ :=
    waveLoop_rule config env (fun i s => RhythmInv config i s)
      (fun i s hlt h => rhythmInv_step config env i s hlt h)
      fuel 0 (initialState config) (fuel_enough config (by omega) hc fuel hfuel)
      (rhythmInv_initial config hN)
  obtain ⟨w, hw, hcase⟩ := hinv
  rcases hcase with ⟨hlt, _⟩ | ⟨_, hlt, hpos, hr⟩
  · omega
  · obtain ⟨h1, h2⟩ := waveCount_spec config (by omega) hc
    have hwc : w = waveCount config :=
      wave_index_unique config.concurrency config.totalSimulations hc w (waveCount config)
        (by omega) (by omega) h1 h2
    subst hwc
    exact ⟨s', hrun, hpos, hr⟩

/-- C24: with at least one attempt and a concurrency of at least one, waves
and pauses alternate strictly, starting and ending with a wave: there is
exactly one pause after each wave except the last, none after the last, that
is `ceil(totalSimulations / concurrency) - 1` pauses in all. -/
theorem C24_pause_after_each_wave_but_last (config : Config) (env : Env)
    (hN : 1 ≤ config.totalSimulations) (hc : 1 ≤ config.concurrency)
    (fuel : Nat) (hfuel : waveCount config ≤ fuel) :
    ∃ s, startSimulation fuel config env = Run.done s ∧
      rhythm s.trace =
        (List.replicate (waveCount config - 1) [true, false]).flatten ++ [true] ∧
      (pausesOf s.trace).length = waveCount config - 1 ∧
      (wavesOf s.trace).length = waveCount config ∧
      1 ≤ waveCount config := by
  obtain ⟨s, hrun, hpos, hr⟩ := waveLoop_exit_rhythm config env hN hc fuel hfuel
  have hr' : rhythm (displayResults config s).trace =
      (List.replicate (waveCount config - 1) [true, false]).flatten ++ [true] := by
    rw [← hr]
    simp [displayResults, rhythm]
  have hwaves : ∀ tr : List Event, (wavesOf tr).length = (rhythm tr).count true := by
    intro tr
    induction tr with
    | nil => rfl
    | cons e t ih => cases e <;> simp_all [wavesOf, rhythm]
  refine ⟨displayResults config s, startSimulation_of_waveLoop config env fuel s hrun,
    hr', ?_, ?_, hpos⟩
  · rw [pausesOf_length_eq_count, hr', count_false_rhythm]
  · rw [hwaves, hr']
    have hlen := congrArg List.length hr'
    have hf := count_false_rhythm (waveCount config - 1)
    have htot : ∀ l : List Bool, l.count true + l.count false = l.length := by
      intro l
      induction l with
      | nil => rfl
      | cons b t ih => cases b <;> simp [List.count_cons] <;> omega
    have h2 := htot ((List.replicate (waveCount config - 1) [true, false]).flatten ++ [true])
    simp at h2 hf
    simp
    omega

/-- Witness of C24: ten attempts, three at a time (four waves, three pauses). -/
theorem C24_pause_after_each_wave_but_last_witness :
    ∃ s, startSimulation 4 ⟨10, 3⟩ demoEnv = Run.done s ∧
      rhythm s.trace =
        (List.replicate (waveCount ⟨10, 3⟩ - 1) [true, false]).flatten ++ [true] ∧
      (pausesOf s.trace).length = waveCount ⟨10, 3⟩ - 1 ∧
      (wavesOf s.trace).length = waveCount ⟨10, 3⟩ ∧
      1 ≤ waveCount ⟨10, 3⟩ :=
  C24_pause_after_each_wave_but_last ⟨10, 3⟩ demoEnv (by decide) (by decide) 4 (by decide)

theorem progressInv_initial (config : Config) : ProgressInv config (initialState config) := by
  refine ⟨Nat.le_refl _, ?_⟩
  intro p hp
  simp [initialState, progressLog] at hp

theorem progressInv_step (config : Config) (env : Env) (hc : 1 ≤ config.concurrency)
    (i : Int) (s : RunState) (hlt : i < config.totalSimulations)
    (hcount : CountInv config env i s) (hinv : ProgressInv config s) :
    ProgressInv config (runWave config env i s) := by
  obtain ⟨hle, hlog⟩ := hinv
  have h0 : 0 ≤ i := hcount.1
  have hcomp : s.completedSimulations = (min i config.totalSimulations).toNat :=
    hcount.2.2.2.2.1
  constructor
  · rw [runWave_successful, runWave_completed]
    have h1 := List.countP_le_length (fun k => (env.runSimulation k).truthy)
      (l := batchIndices i (min config.concurrency (config.totalSimulations - i)))
    rw [batchIndices_length] at h1
    omega
  · intro p hp
    rw [runWave_trace, progressLog_append, List.mem_append] at hp
    rcases hp with hp | hp
    · exact hlog p hp
    · rw [progressLog_waveEvents] at hp
      have h1 := progressLog_settleEvents env _ s.completedSimulations
        s.successfulSimulations hle p hp
      rw [(completionOrder_perm env _).length_eq, batchIndices_length] at h1
      refine ⟨h1.1, ?_⟩
      omega

/-- With a valid configuration and enough fuel the loop returns in a state
where the counters and every update shown satisfy
`successful <= completed <= totalSimulations`. -/
theorem waveLoop_exit_progress (config : Config) (env : Env)
    (hN : 0 ≤ config.totalSimulations) (hc : 1 ≤ config.concurrency)
    (fuel : Nat) (hfuel : waveCount config ≤ fuel) :
    ∃ s, waveLoop config env fuel 0 (initialState config) = Run.done s ∧
      ProgressInv config s ∧
      (s.completedSimulations : Int) = config.totalSimulations := by
  obtain ⟨i', s', hrun, hexit, hcount, hprog⟩ :=
    waveLoop_rule config env (fun i s => CountInv config env i s ∧ ProgressInv config s)
      (fun i s hlt h => ⟨countInv_step config env hc i s hlt h.1,
        progressInv_step config env hc i s hlt h.1 h.2⟩)
      fuel 0 (initialState config) (fuel_enough config hN hc fuel hfuel)
      ⟨countInv_initial config env, progressInv_initial config⟩
  refine ⟨s', hrun, hprog, ?_⟩
  have hcomp : s'.completedSimulations = (min i' config.totalSimulations).toNat :=
    hcount.2.2.2.2.1
  omega

/-- C27: with `totalSimulations >= 0` and `concurrency >= 1`, for every
behaviour of the executor, the counters satisfy
`0 <= successful <= completed <= totalSimulations` at the start, after every
update made by a settling attempt, and when `startSimulation` returns. -/
theorem C27_counters_ordered (config : Config) (env : Env)
    (hN : 0 ≤ config.totalSimulations) (hc : 1 ≤ config.concurrency)
    (fuel : Nat) (hfuel : waveCount config ≤ fuel) :
    (initialState config).successfulSimulations ≤
      (initialState config).completedSimulations ∧
    ((initialState config).completedSimulations : Int) ≤ config.totalSimulations ∧
    ∃ s, startSimulation fuel config env = Run.done s ∧
      (∀ p ∈ progressLog s.trace,
        0 ≤ p.2 ∧ p.2 ≤ p.1 ∧ (p.1 : Int) ≤ config.totalSimulations) ∧
      (progressLog s.trace).length = config.totalSimulations.toNat ∧
      0 ≤ s.successfulSimulations ∧
      s.successfulSimulations ≤ s.completedSimulations ∧
      (s.completedSimulations : Int) ≤ config.totalSimulations := by
  obtain ⟨s, hrun, ⟨hle, hlog⟩, hcomp⟩ :=
    waveLoop_exit_progress config env hN hc fuel hfuel
  obtain ⟨s2, hrun2, hcount, _⟩ := waveLoop_exit config env hN hc fuel hfuel
  have hs : s2 = s := by
    rw [hrun] at hrun2
    exact (Run.done.inj hrun2).symm
  subst hs
  have hlen : ∀ tr : List Event, (progressLog tr).length = (completedLog tr).length := by
    intro tr
    induction tr with
    | nil => rfl
    | cons e t ih => cases e <;> simp_all [progressLog, completedLog]
  have hplog : progressLog (displayResults config s2).trace = progressLog s2.trace := by
    simp [displayResults, progressLog]
  refine ⟨Nat.le_refl _, by simp [initialState]; exact hN,
    displayResults config s2, startSimulation_of_waveLoop config env fuel s2 hrun,
    ?_, ?_, Nat.zero_le _, hle, by
      show (s2.completedSimulations : Int) ≤ config.totalSimulations
      omega⟩
  · intro p hp
    rw [hplog] at hp
    exact ⟨Nat.zero_le _, hlog p hp⟩
  · rw [hplog, hlen, (countInv_exit config env s2 hcount).2.2.1]
    simp

/-- Witness of C27: ten attempts, three at a time. -/
theorem C27_counters_ordered_witness :
    (initialState ⟨10, 3⟩).successfulSimulations ≤
      (initialState ⟨10, 3⟩).completedSimulations ∧
    ((initialState ⟨10, 3⟩).completedSimulations : Int) ≤ 10 ∧
    ∃ s, startSimulation 4 ⟨10, 3⟩ demoEnv = Run.done s ∧
      (∀ p ∈ progressLog s.trace, 0 ≤ p.2 ∧ p.2 ≤ p.1 ∧ (p.1 : Int) ≤ 10) ∧
      (progressLog s.trace).length = (10 : Int).toNat ∧
      0 ≤ s.successfulSimulations ∧
      s.successfulSimulations ≤ s.completedSimulations ∧
      (s.completedSimulations : Int) ≤ 10 :=
  C27_counters_ordered ⟨10, 3⟩ demoEnv (by decide) (by decide) 4 (by decide)

/-! ## Means, and the report that holds no number -/

/-- The mean of a non-empty list lies between a lower and an upper bound of
its elements. -/
theorem mean_between (l : List ℚ) (lo hi : ℚ) (hne : l ≠ [])
    (hlo : ∀ y ∈ l, lo ≤ y) (hhi : ∀ y ∈ l, y ≤ hi) :
    lo ≤ l.sum / (l.length : ℚ) ∧ l.sum / (l.length : ℚ) ≤ hi := by
  have hpos : (0 : ℚ) < (l.length : ℚ) := by
    have : 0 < l.length := List.length_pos.2 hne
    exact_mod_cast this
  have h1 := List.card_nsmul_le_sum l lo hlo
  have h2 := List.sum_le_card_nsmul l hi hhi
  rw [nsmul_eq_mul] at h1 h2
  constructor
  · rw [le_div_iff₀ hpos]; linarith
  · rw [div_le_iff₀ hpos]; linarith

theorem nanReport_totalMB : nanReport.totalMB = JSNumber.nan := by
  have h : (handleEvents false (newSessionData 0) corruptingEvents).totalBytes =
      JSNumber.nan := by
    simp [corruptingEvents, handleEvents, handleEvent, onResponse, contentLengthOf,
      parsedNumber, newSessionData, JSNumber.ofNat_eq, JSNumber.val_add_val,
      JSNumber.add_nan, JSNumber.nan_add]
  show ((handleEvents false (newSessionData 0) corruptingEvents).totalBytes /
    JSNumber.val (1024 * 1024)).toFixed2 = JSNumber.nan
  rw [h]
  rfl

/-! ## The statistics and the costs in binary64 -/

namespace Binary64

/-! ## Rounding to the nearest double -/

theorem roundHalfEven_cases (x : ℚ) :
    roundHalfEven x = ⌊x⌋ ∧ x - ⌊x⌋ ≤ 1 / 2 ∨ roundHalfEven x = ⌊x⌋ + 1 ∧ 1 / 2 ≤ x - ⌊x⌋ := by
  unfold roundHalfEven
  split_ifs with h1 h2 h3
  · exact Or.inl ⟨rfl, h1.le⟩
  · exact Or.inr ⟨rfl, h2.le⟩
  · exact Or.inl ⟨rfl, not_lt.1 h2⟩
  · exact Or.inr ⟨rfl, not_lt.1 h1⟩

theorem roundHalfEven_error (x : ℚ) : |(roundHalfEven x : ℚ) - x| ≤ 1 / 2 := by
  have hf := Int.floor_le x
  have hl := Int.lt_floor_add_one x
  rw [abs_le]
  rcases roundHalfEven_cases x with ⟨h, hx⟩ | ⟨h, hx⟩
  · rw [h]; constructor <;> linarith
  · rw [h]; push_cast; constructor <;> linarith

theorem roundHalfEven_eq_of_lt (x : ℚ) (m : Int) (h : |x - m| < 1 / 2) :
    roundHalfEven x = m := by
  rw [abs_lt] at h
  have hf := Int.floor_le x
  have hl := Int.lt_floor_add_one x
  rcases roundHalfEven_cases x with ⟨h1, hx⟩ | ⟨h1, hx⟩
  · rw [h1]
    have a1 : (⌊x⌋ : ℚ) < m + 1 := by linarith
    have a2 : (m : ℚ) < ⌊x⌋ + 1 := by linarith
    have b1 : ⌊x⌋ < m + 1 := by exact_mod_cast a1
    have b2 : m < ⌊x⌋ + 1 := by exact_mod_cast a2
    omega
  · rw [h1]
    have a1 : ((⌊x⌋ : ℚ) + 1) < m + 1 := by linarith
    have a2 : (m : ℚ) < ⌊x⌋ + 1 + 1 := by linarith
    have b1 : ⌊x⌋ + 1 < m + 1 := by exact_mod_cast a1
    have b2 : m < ⌊x⌋ + 1 + 1 := by exact_mod_cast a2
    omega

theorem roundHalfEven_nonneg (x : ℚ) (hx : 0 ≤ x) : 0 ≤ roundHalfEven x := by
  have h0 : 0 ≤ ⌊x⌋ := Int.floor_nonneg.2 hx
  rcases roundHalfEven_cases x with ⟨h, _⟩ | ⟨h, _⟩ <;> rw [h] <;> omega

theorem two_zpow_pos (e : Int) : (0 : ℚ) < 2 ^ e := zpow_pos (by norm_num) e

theorem ulpExponent_eq (x : ℚ) (k : Int) (hk : -1022 ≤ k) (h1 : 2 ^ k ≤ |x|)
    (h2 : |x| < 2 ^ (k + 1)) : ulpExponent x = k - 52 := by
  have hpos : 0 < |x| := lt_of_lt_of_le (two_zpow_pos k) h1
  have e1 : k ≤ Int.log 2 |x| :=
    (Int.zpow_le_iff_le_log (by norm_num) hpos).1 (by exact_mod_cast h1)
  have e2 : Int.log 2 |x| < k + 1 :=
    (Int.lt_zpow_iff_log_lt (by norm_num) hpos).1 (by exact_mod_cast h2)
  unfold ulpExponent
  have : Int.log 2 |x| = k := by omega
  rw [this, max_eq_left hk]

theorem ulpExponent_le (x : ℚ) (K : Int) (hK : -1022 ≤ K) (hx : x ≠ 0) (h : |x| ≤ 2 ^ K) :
    ulpExponent x ≤ K - 52 := by
  unfold ulpExponent
  have : Int.log 2 |x| ≤ K := by
    have hpos : 0 < |x| := abs_pos.2 hx
    have := Int.log_mono_right (b := 2) hpos h
    rwa [show ((2 : ℚ)) = ((2 : ℕ) : ℚ) by norm_num, Int.log_zpow (by norm_num)] at this
  have := max_le this hK
  omega

theorem nearest_zero : nearest 0 = 0 := by
  unfold nearest
  simp [roundHalfEven]

/-- Rounding to the nearest double moves a number by half a unit in the last
place at most. -/
theorem nearest_error (x : ℚ) : |nearest x - x| ≤ 2 ^ (ulpExponent x - 1) := by
  unfold nearest
  set e := ulpExponent x with he
  have hp : (0 : ℚ) < 2 ^ e := two_zpow_pos e
  have h := roundHalfEven_error (x / 2 ^ e)
  have hx : x = x / 2 ^ e * 2 ^ e := by field_simp
  have : (roundHalfEven (x / 2 ^ e) : ℚ) * 2 ^ e - x =
      ((roundHalfEven (x / 2 ^ e) : ℚ) - x / 2 ^ e) * 2 ^ e := by
    rw [sub_mul, ← hx]
  rw [this, abs_mul, abs_of_pos hp]
  have h2 : (2 : ℚ) ^ (e - 1) = 1 / 2 * 2 ^ e := by
    rw [zpow_sub₀ (by norm_num : (2 : ℚ) ≠ 0)]; simp; ring
  rw [h2]
  exact mul_le_mul_of_nonneg_right h hp.le

/-- For `|x| <= 2 ^ K` the rounding error is `2 ^ (K - 53)` at most. -/
theorem nearest_error_le (x : ℚ) (K : Int) (hK : -1022 ≤ K) (h : |x| ≤ 2 ^ K) :
    |nearest x - x| ≤ 2 ^ (K - 53) := by
  rcases eq_or_ne x 0 with h0 | hx
  · rw [h0, nearest_zero]
    simpa using (two_zpow_pos (K - 53)).le
  · refine le_trans (nearest_error x) ?_
    apply zpow_le_zpow_right₀ (by norm_num)
    have := ulpExponent_le x K hK hx h
    omega

theorem nearest_nonneg (x : ℚ) (hx : 0 ≤ x) : 0 ≤ nearest x := by
  unfold nearest
  have hp : (0 : ℚ) < 2 ^ ulpExponent x := two_zpow_pos _
  have := roundHalfEven_nonneg (x / 2 ^ ulpExponent x) (div_nonneg hx hp.le)
  have : (0 : ℚ) ≤ roundHalfEven (x / 2 ^ ulpExponent x) := by exact_mod_cast this
  positivity

/-- No overflow below `2 ^ 1022`. -/
theorem ofRat_fin (x : ℚ) (K : Int) (hK : -1022 ≤ K) (hK2 : K ≤ 1022) (h : |x| ≤ 2 ^ K) :
    F64.ofRat x = F64.fin (nearest x) := by
  unfold F64.ofRat
  rw [if_neg]
  rw [not_lt]
  have h1 := nearest_error_le x K hK h
  have h2 : |nearest x| ≤ |x| + 2 ^ (K - 53) := by
    have := abs_sub_abs_le_abs_sub (nearest x) x
    linarith
  have h3 : (2 : ℚ) ^ (K - 53) ≤ 2 ^ K := zpow_le_zpow_right₀ (by norm_num) (by omega)
  have h4 : (2 : ℚ) ^ K ≤ 2 ^ (1022 : Int) := zpow_le_zpow_right₀ (by norm_num) hK2
  have h5 : (2 : ℚ) ^ (1022 : Int) + 2 ^ (1022 : Int) ≤ maxValue := by
    unfold maxValue; norm_num
  linarith

theorem nearest_eq (x : ℚ) (k m : Int) (hk : -1022 ≤ k) (h1 : 2 ^ k ≤ x)
    (h2 : x < 2 ^ (k + 1)) (hm1 : (m : ℚ) - 1 / 2 < x / 2 ^ (k - 52))
    (hm2 : x / 2 ^ (k - 52) < m + 1 / 2) :
    nearest x = m * 2 ^ (k - 52) := by
  have hx : 0 ≤ x := le_trans (two_zpow_pos k).le h1
  unfold nearest
  rw [ulpExponent_eq x k hk (by rwa [abs_of_nonneg hx]) (by rwa [abs_of_nonneg hx]),
    roundHalfEven_eq_of_lt _ m (by rw [abs_lt]; constructor <;> linarith)]

/-- How a positive number is rounded, from its binade `2 ^ k <= x < 2 ^ (k + 1)`
and the multiple `m` of the unit in the last place within half a unit of it. -/
theorem ofRat_eval (x v : ℚ) (k m : Int) (hk : -1022 ≤ k) (hk2 : k ≤ 1021)
    (hv : v = m * 2 ^ (k - 52)) (h1 : 2 ^ k ≤ x)
    (h2 : x < 2 ^ (k + 1)) (hm1 : (m : ℚ) - 1 / 2 < x / 2 ^ (k - 52))
    (hm2 : x / 2 ^ (k - 52) < m + 1 / 2) :
    F64.ofRat x = F64.fin v := by
  have hx : 0 ≤ x := le_trans (two_zpow_pos k).le h1
  rw [ofRat_fin x (k + 1) (by omega) (by omega) (by rw [abs_of_nonneg hx]; exact h2.le),
    nearest_eq x k m hk h1 h2 hm1 hm2, hv]

theorem ofRat_zero : F64.ofRat 0 = F64.fin 0 := by
  rw [ofRat_fin 0 0 (by norm_num) (by norm_num) (by norm_num), nearest_zero]

theorem F64.fin_add_fin (a b : ℚ) : F64.fin a + F64.fin b = F64.ofRat (a + b) := rfl

theorem F64.fin_mul_fin (a b : ℚ) : F64.fin a * F64.fin b = F64.ofRat (a * b) := rfl

theorem F64.fin_div_fin (a b : ℚ) (hb : b ≠ 0) :
    F64.fin a / F64.fin b = F64.ofRat (a / b) := by
  show F64.div _ _ = _
  simp [F64.div, hb]

theorem F64.toFixed2_fin (q : ℚ) (hq : |q| < 10 ^ (21 : ℕ)) :
    (F64.fin q).toFixed2 = F64.ofRat (LeadSim.toFixed2 q) := by
  simp [F64.toFixed2, F64.toFixed2Text, F64.parseFloat, not_le.2 hq]

theorem roundHalfEven_tie_even (x : ℚ) (m : Int) (hx : x = m + 1 / 2) (hm : m % 2 = 0) :
    roundHalfEven x = m := by
  have hf : ⌊x⌋ = m := by
    rw [Int.floor_eq_iff]; constructor <;> linarith
  unfold roundHalfEven
  rw [hf]
  have h1 : ¬ (x - (m : ℚ) < 1 / 2) := by rw [hx]; norm_num
  have h2 : ¬ ((1 : ℚ) / 2 < x - (m : ℚ)) := by rw [hx]; norm_num
  rw [if_neg h1, if_neg h2, if_pos hm]

theorem roundHalfEven_tie_odd (x : ℚ) (m : Int) (hx : x = m + 1 / 2) (hm : m % 2 = 1) :
    roundHalfEven x = m + 1 := by
  have hf : ⌊x⌋ = m := by
    rw [Int.floor_eq_iff]; constructor <;> linarith
  unfold roundHalfEven
  rw [hf]
  have h1 : ¬ (x - (m : ℚ) < 1 / 2) := by rw [hx]; norm_num
  have h2 : ¬ ((1 : ℚ) / 2 < x - (m : ℚ)) := by rw [hx]; norm_num
  have h3 : ¬ (m % 2 = 0) := by omega
  rw [if_neg h1, if_neg h2, if_neg h3]

/-- How a positive number exactly halfway between two doubles is rounded: to
the one with the even significand. -/
theorem ofRat_eval_tie (x v : ℚ) (k m : Int) (hk : -1022 ≤ k) (hk2 : k ≤ 1021)
    (hv : v = m * 2 ^ (k - 52)) (h1 : 2 ^ k ≤ x)
    (h2 : x < 2 ^ (k + 1)) (hm : x / 2 ^ (k - 52) = m + 1 / 2) (heven : m % 2 = 0) :
    F64.ofRat x = F64.fin v := by
  have hx : 0 ≤ x := le_trans (two_zpow_pos k).le h1
  rw [ofRat_fin x (k + 1) (by omega) (by omega) (by rw [abs_of_nonneg hx]; exact h2.le), hv]
  unfold nearest
  rw [ulpExponent_eq x k hk (by rwa [abs_of_nonneg hx]) (by rwa [abs_of_nonneg hx]),
    roundHalfEven_tie_even _ m hm heven]

/-- The same when the double below has an odd significand: the number is
rounded up. -/
theorem ofRat_eval_tie_up (x v : ℚ) (k m : Int) (hk : -1022 ≤ k) (hk2 : k ≤ 1021)
    (hv : v = (m + 1) * 2 ^ (k - 52)) (h1 : 2 ^ k ≤ x)
    (h2 : x < 2 ^ (k + 1)) (hm : x / 2 ^ (k - 52) = m + 1 / 2) (hodd : m % 2 = 1) :
    F64.ofRat x = F64.fin v := by
  have hx : 0 ≤ x := le_trans (two_zpow_pos k).le h1
  rw [ofRat_fin x (k + 1) (by omega) (by omega) (by rw [abs_of_nonneg hx]; exact h2.le), hv]
  unfold nearest
  rw [ulpExponent_eq x k hk (by rwa [abs_of_nonneg hx]) (by rwa [abs_of_nonneg hx]),
    roundHalfEven_tie_odd _ m hm hodd]
  push_cast
  rfl

/-! ## Sums and means of session reports in binary64 -/

theorem roundHalfEven_intCast (m : Int) : roundHalfEven (m : ℚ) = m :=
  roundHalfEven_eq_of_lt _ m (by simp)

/-- A multiple of the unit in the last place is a double: rounding leaves it. -/
theorem nearest_fixed (x : ℚ) (m : Int) (hx : x = m * 2 ^ ulpExponent x) : nearest x = x := by
  unfold nearest
  have hp := two_zpow_pos (ulpExponent x)
  have : x / 2 ^ ulpExponent x = m := by
    rw [div_eq_iff hp.ne']; exact hx
  rw [this, roundHalfEven_intCast]; exact hx.symm

/-- The whole numbers below `2 ^ 53` are doubles. -/
theorem nearest_natCast (n : ℕ) (hn : n < 2 ^ 53) : nearest (n : ℚ) = n := by
  rcases Nat.eq_zero_or_pos n with rfl | hpos
  · simpa using nearest_zero
  · have hk : Nat.log 2 n < 53 := Nat.log_lt_of_lt_pow (by omega) hn
    have he : ulpExponent (n : ℚ) = -((52 - Nat.log 2 n : ℕ) : Int) := by
      unfold ulpExponent
      rw [Nat.abs_cast, Int.log_natCast]
      omega
    apply nearest_fixed _ ((n * 2 ^ (52 - Nat.log 2 n) : ℕ) : Int)
    rw [he, zpow_neg, zpow_natCast]
    push_cast
    field_simp

theorem ofRat_natCast (n : ℕ) (hn : n < 2 ^ 53) : F64.ofRat (n : ℚ) = F64.fin n := by
  have h : |(n : ℚ)| ≤ 2 ^ (53 : Int) := by
    rw [Nat.abs_cast]
    have : (n : ℚ) < ((2 ^ 53 : ℕ) : ℚ) := by exact_mod_cast hn
    have h2 : (((2 : ℕ) ^ 53 : ℕ) : ℚ) = 2 ^ (53 : Int) := by norm_num
    linarith
  rw [ofRat_fin _ 53 (by norm_num) (by norm_num) h, nearest_natCast n hn]

/-- The sum of session totals of at most 1000 MB each, at most 1000 of them, as
computed by `reduce`: it is off the exact sum by `2 ^ -33 + 2 ^ -43` per term
at most. -/
theorem foldl_add_hundredths (ks : List ℕ) :
    ∀ (j : ℕ) (s S : ℚ), (∀ k ∈ ks, k ≤ 100000) → j + ks.length ≤ 1000 →
      |s - S| ≤ j * (1 / 2 ^ 33 + 1 / 2 ^ 43) → 0 ≤ S → S ≤ 1000 * j → 0 ≤ s →
      ∃ s', ks.foldl (fun sum (k : ℕ) => sum + F64.ofRat ((k : ℚ) / 100)) (F64.fin s) =
          F64.fin s' ∧
        |s' - (S + (ks.sum : ℚ) / 100)| ≤ ((j + ks.length : ℕ) : ℚ) * (1 / 2 ^ 33 + 1 / 2 ^ 43) ∧
        0 ≤ S + (ks.sum : ℚ) / 100 ∧
        S + (ks.sum : ℚ) / 100 ≤ 1000 * ((j + ks.length : ℕ) : ℚ) ∧ 0 ≤ s' := by
  induction ks with
  | nil =>
    intro j s S _ _ hs h0 h1 hs0
    refine ⟨s, rfl, ?_, ?_, ?_, hs0⟩
    · simpa using hs
    · simpa using h0
    · simpa using h1
  | cons k t ih =>
    intro j s S hk hlen hs h0 h1 hs0
    have hk0 : k ≤ 100000 := hk k (List.mem_cons_self _ _)
    have hkq : (k : ℚ) ≤ 100000 := by exact_mod_cast hk0
    have hkq0 : (0 : ℚ) ≤ k := Nat.cast_nonneg k
    have hj : (j : ℚ) + 1 ≤ 1000 := by
      have : j + 1 ≤ 1000 := by simp only [List.length_cons] at hlen; omega
      exact_mod_cast this
    have hj0 : (0 : ℚ) ≤ j := Nat.cast_nonneg j
    -- the term
    have ha : |(k : ℚ) / 100| ≤ 2 ^ (10 : Int) := by
      rw [abs_of_nonneg (by positivity)]; norm_num; linarith
    have ea := nearest_error_le _ 10 (by norm_num) ha
    have hterm : F64.ofRat ((k : ℚ) / 100) = F64.fin (nearest ((k : ℚ) / 100)) :=
      ofRat_fin _ 10 (by norm_num) (by norm_num) ha
    have ea' : |nearest ((k : ℚ) / 100) - (k : ℚ) / 100| ≤ 1 / 2 ^ 43 := by
      have : (2 : ℚ) ^ ((10 : Int) - 53) = 1 / 2 ^ 43 := by norm_num
      rwa [this] at ea
    -- the sum
    rw [abs_le] at hs ea'
    have hx : |s + nearest ((k : ℚ) / 100)| ≤ 2 ^ (20 : Int) := by
      rw [abs_le]; norm_num
      constructor <;> nlinarith
    have es := nearest_error_le _ 20 (by norm_num) hx
    have es' : |nearest (s + nearest ((k : ℚ) / 100)) - (s + nearest ((k : ℚ) / 100))| ≤
        1 / 2 ^ 33 := by
      have : (2 : ℚ) ^ ((20 : Int) - 53) = 1 / 2 ^ 33 := by norm_num
      rwa [this] at es
    rw [abs_le] at es'
    have hstep : F64.fin s + F64.ofRat ((k : ℚ) / 100) =
        F64.fin (nearest (s + nearest ((k : ℚ) / 100))) := by
      rw [hterm, F64.fin_add_fin]
      exact ofRat_fin _ 20 (by norm_num) (by norm_num) hx
    have hnn : 0 ≤ nearest (s + nearest ((k : ℚ) / 100)) :=
      nearest_nonneg _ (add_nonneg hs0 (nearest_nonneg _ (by positivity)))
    obtain ⟨s', e1, e2, e3, e4, e5⟩ := ih (j + 1) (nearest (s + nearest ((k : ℚ) / 100)))
      (S + (k : ℚ) / 100) (fun k' hk' => hk k' (List.mem_cons_of_mem _ hk'))
      (by simp only [List.length_cons] at hlen; omega)
      (by rw [abs_le]; push_cast; constructor <;> linarith)
      (by positivity) (by push_cast; linarith) hnn
    refine ⟨s', ?_, ?_, ?_, ?_, e5⟩
    · rw [List.foldl_cons, hstep, e1]
    · have : S + ((k :: t).sum : ℚ) / 100 = S + (k : ℚ) / 100 + (t.sum : ℚ) / 100 := by
        rw [List.sum_cons]; push_cast; ring
      rw [this]
      have h2 : j + (k :: t).length = j + 1 + t.length := by
        simp only [List.length_cons]; omega
      rw [h2]; exact e2
    · have : S + ((k :: t).sum : ℚ) / 100 = S + (k : ℚ) / 100 + (t.sum : ℚ) / 100 := by
        rw [List.sum_cons]; push_cast; ring
      rw [this]; exact e3
    · have : S + ((k :: t).sum : ℚ) / 100 = S + (k : ℚ) / 100 + (t.sum : ℚ) / 100 := by
        rw [List.sum_cons]; push_cast; ring
      rw [this]
      have h2 : j + (k :: t).length = j + 1 + t.length := by
        simp only [List.length_cons]; omega
      rw [h2]; exact e4

theorem foldl_add_totalMB_session (reports : List Report) (ks : List ℕ)
    (hk : reports.map (fun r => r.totalMB) =
      ks.map (fun (k : ℕ) => JSNumber.val ((k : ℚ) / 100))) (init : F64) :
    reports.foldl (fun sum x => sum + F64.ofJSNumber x.totalMB) init =
      ks.foldl (fun sum (k : ℕ) => sum + F64.ofRat ((k : ℚ) / 100)) init := by
  have h1 : reports.foldl (fun sum x => sum + F64.ofJSNumber x.totalMB) init =
      (reports.map (fun r => r.totalMB)).foldl (fun sum t => sum + F64.ofJSNumber t) init := by
    rw [List.foldl_map]
  rw [h1, hk, List.foldl_map]
  rfl

/-- The total of up to 1000 session reports of up to 1000 MB each, as summed
by `getAggregatedStats`, before it is rounded to two decimals. -/
theorem session_sum (reports : List Report) (ks : List ℕ)
    (hk : reports.map (fun r => r.totalMB) =
      ks.map (fun (k : ℕ) => JSNumber.val ((k : ℚ) / 100)))
    (hM : ∀ k ∈ ks, k ≤ 100000) (hn : reports.length ≤ 1000) :
    ∃ s, reports.foldl (fun sum x => sum + F64.ofJSNumber x.totalMB) (F64.fin 0) = F64.fin s ∧
      |s - (ks.sum : ℚ) / 100| ≤ (reports.length : ℚ) * (1 / 2 ^ 33 + 1 / 2 ^ 43) ∧
      0 ≤ (ks.sum : ℚ) / 100 ∧ (ks.sum : ℚ) / 100 ≤ 1000 * (reports.length : ℚ) ∧ 0 ≤ s := by
  have hlen : ks.length = reports.length := by
    have := congrArg List.length hk
    simpa using this.symm
  obtain ⟨s, e1, e2, e3, e4, e5⟩ := foldl_add_hundredths ks 0 0 0 hM (by omega) (by simp)
    le_rfl (by simp) le_rfl
  refine ⟨s, ?_, ?_, ?_, ?_, e5⟩
  · rw [foldl_add_totalMB_session reports ks hk, e1]
  · simpa [hlen] using e2
  · simpa using e3
  · simpa [hlen] using e4

/-- The mean `avgMB` of up to 1000 session reports of up to 1000 MB each: a
double within `2 ^ -33 + 2 ^ -42` of the exact mean. -/
theorem session_mean (reports : List Report) (ks : List ℕ) (hne : reports ≠ [])
    (hk : reports.map (fun r => r.totalMB) =
      ks.map (fun (k : ℕ) => JSNumber.val ((k : ℚ) / 100)))
    (hM : ∀ k ∈ ks, k ≤ 100000) (hn : reports.length ≤ 1000) :
    ∃ a, reports.foldl (fun sum x => sum + F64.ofJSNumber x.totalMB) (F64.fin 0) /
          F64.ofRat (reports.length : ℚ) = F64.fin a ∧
      |a - (ks.sum : ℚ) / 100 / (reports.length : ℚ)| ≤ 1 / 2 ^ 33 + 1 / 2 ^ 42 ∧
      0 ≤ a ∧
      0 ≤ (ks.sum : ℚ) / 100 / (reports.length : ℚ) ∧
      (ks.sum : ℚ) / 100 / (reports.length : ℚ) ≤ 1000 := by
  obtain ⟨s, e1, e2, e3, e4, hs0⟩ := session_sum reports ks hk hM hn
  have hpos : 0 < reports.length := List.length_pos.2 hne
  have hn1 : (1 : ℚ) ≤ (reports.length : ℚ) := by exact_mod_cast hpos
  have hn0 : (0 : ℚ) < (reports.length : ℚ) := by linarith
  have hnq : (reports.length : ℚ) ≤ 1000 := by exact_mod_cast hn
  set n : ℚ := (reports.length : ℚ) with hndef
  set S : ℚ := (ks.sum : ℚ) / 100 with hS
  have hmu0 : 0 ≤ S / n := div_nonneg e3 hn0.le
  have hmu1 : S / n ≤ 1000 := by rw [div_le_iff₀ hn0]; linarith
  rw [abs_le] at e2
  -- the quotient of the double sum
  have hq : |s / n - S / n| ≤ 1 / 2 ^ 33 + 1 / 2 ^ 43 := by
    rw [← sub_div, abs_div, abs_of_pos hn0, div_le_iff₀ hn0, abs_le]
    constructor <;> linarith
  rw [abs_le] at hq
  have hnat : F64.ofRat n = F64.fin n := ofRat_natCast _ (by omega)
  have hx : |s / n| ≤ 2 ^ (10 : Int) := by
    rw [abs_of_nonneg (div_nonneg hs0 hn0.le)]; norm_num; linarith
  have er := nearest_error_le _ 10 (by norm_num) hx
  have er' : |nearest (s / n) - s / n| ≤ 1 / 2 ^ 43 := by
    have : (2 : ℚ) ^ ((10 : Int) - 53) = 1 / 2 ^ 43 := by norm_num
    rwa [this] at er
  rw [abs_le] at er'
  refine ⟨nearest (s / n), ?_, ?_, nearest_nonneg _ (div_nonneg hs0 hn0.le), hmu0, hmu1⟩
  · rw [e1, hnat, F64.fin_div_fin _ _ hn0.ne']
    exact ofRat_fin _ 10 (by norm_num) (by norm_num) hx
  · rw [abs_le]; constructor <;> linarith

theorem floor_near_lattice (v η : ℚ) (J t : Int) (n : ℕ) (hn : 0 < n) (h1 : (J : ℚ) ≤ v)
    (h2 : v < J + 1) (htq : (v - J) * (2 * n) = (t : ℚ)) (hη1 : -(1 / (2 * (n : ℚ))) < η)
    (hη2 : η < 1 / (2 * (n : ℚ))) :
    ⌊v + η⌋ = J ∨ (v = J ∧ ⌊v + η⌋ = J - 1) := by
  have hn0 : (0 : ℚ) < n := by exact_mod_cast hn
  have hn1 : (1 : ℚ) ≤ n := by exact_mod_cast hn
  have hsmall : 1 / (2 * (n : ℚ)) ≤ 1 / 2 := by
    rw [div_le_div_iff₀ (by positivity) (by norm_num)]; linarith
  have ht0 : 0 ≤ t := by
    have : (0 : ℚ) ≤ (t : ℚ) := by rw [← htq]; exact mul_nonneg (by linarith) (by positivity)
    exact_mod_cast this
  have ht1 : t < 2 * n := by
    have : (t : ℚ) < 2 * n := by
      rw [← htq]
      have : (v - J) * (2 * n) < 1 * (2 * n) :=
        mul_lt_mul_of_pos_right (by linarith) (by positivity)
      linarith
    exact_mod_cast this
  have hvJ : v - J = (t : ℚ) / (2 * n) := by
    rw [← htq]; field_simp
  rcases eq_or_lt_of_le ht0 with h0 | hpos
  · -- the tie
    have hvz : v = J := by
      rw [← h0] at hvJ; simp at hvJ; linarith
    rcases le_or_lt 0 η with hη0 | hη0
    · left
      rw [Int.floor_eq_iff]
      constructor <;> linarith
    · right
      refine ⟨hvz, ?_⟩
      rw [Int.floor_eq_iff]
      push_cast
      constructor <;> linarith
  · left
    have hlow : 1 / (2 * (n : ℚ)) ≤ v - J := by
      rw [hvJ]
      apply div_le_div_of_nonneg_right _ (by positivity)
      exact_mod_cast hpos
    have hhigh : v - J ≤ 1 - 1 / (2 * (n : ℚ)) := by
      rw [hvJ, div_le_iff₀ (by positivity)]
      have : (t : ℚ) ≤ 2 * n - 1 := by
        have : t ≤ 2 * n - 1 := by omega
        exact_mod_cast this
      have hh : (1 - 1 / (2 * (n : ℚ))) * (2 * n) = 2 * n - 1 := by field_simp
      rw [hh]; exact this
    rw [Int.floor_eq_iff]
    constructor <;> linarith

/-- A number within less than `1 / (2 n)` of `P / n + 1 / 2` has the same
integer part, unless `P / n + 1 / 2` is itself an integer, when its integer part
may also be one less. -/
theorem floor_near_fraction (P : Int) (n : ℕ) (hn : 0 < n) (η : ℚ)
    (hη : |η| < 1 / (2 * (n : ℚ))) :
    ⌊(P : ℚ) / n + 1 / 2 + η⌋ = ⌊(P : ℚ) / n + 1 / 2⌋ ∨
      (Int.fract ((P : ℚ) / n) = 1 / 2 ∧
        ⌊(P : ℚ) / n + 1 / 2 + η⌋ = ⌊(P : ℚ) / n + 1 / 2⌋ - 1) := by
  have hn0 : (0 : ℚ) < n := by exact_mod_cast hn
  rw [abs_lt] at hη
  have htq : ((P : ℚ) / n + 1 / 2 - (⌊(P : ℚ) / n + 1 / 2⌋ : Int)) * (2 * n) =
      ((2 * P + n - 2 * n * ⌊(P : ℚ) / n + 1 / 2⌋ : Int) : ℚ) := by
    push_cast; field_simp; ring
  rcases floor_near_lattice _ η _ _ n hn (Int.floor_le _) (Int.lt_floor_add_one _) htq
    hη.1 hη.2 with h | ⟨h1, h2⟩
  · exact Or.inl h
  · right
    refine ⟨?_, h2⟩
    rw [Int.fract_eq_iff]
    refine ⟨by norm_num, by norm_num, ⌊(P : ℚ) / n + 1 / 2⌋ - 1, ?_⟩
    push_cast; linarith

/-- Rounding to two decimals a number `y` that is within less than
`1 / (200 n)` of a fraction `e` whose hundredfold has denominator `n`. -/
theorem toFixed2_near (e y : ℚ) (P : Int) (n : ℕ) (hn : 0 < n) (hP : e * 100 = (P : ℚ) / n)
    (he : 0 ≤ e) (hy : 0 ≤ y) (h : |y - e| * 100 < 1 / (2 * (n : ℚ))) :
    toFixed2 y = toFixed2 e ∨
      (Int.fract (e * 100) = 1 / 2 ∧ toFixed2 y = toFixed2 e - 1 / 100) := by
  rw [toFixed2_of_nonneg y hy, toFixed2_of_nonneg e he]
  have hη : |(y - e) * 100| < 1 / (2 * (n : ℚ)) := by
    rw [abs_mul]; simpa using h
  have key := floor_near_fraction P n hn ((y - e) * 100) hη
  have e1 : (P : ℚ) / n + 1 / 2 + (y - e) * 100 = y * 100 + 1 / 2 := by
    rw [← hP]; ring
  rw [e1, ← hP] at key
  rcases key with h1 | ⟨h1, h2⟩
  · left; rw [h1]
  · right
    refine ⟨h1, ?_⟩
    rw [h2]; push_cast; ring

/-- The projection of the mean to `c` simulations, `c` one of 100, 1000 and
10000, before it is rounded to two decimals. -/
theorem scale_mean (a μ c : ℚ) (ha : 0 ≤ a) (hμ : μ ≤ 1000)
    (h : |a - μ| ≤ 1 / 2 ^ 33 + 1 / 2 ^ 42) (hc : 0 ≤ c) (hc2 : c ≤ 10000) :
    ∃ y, F64.fin a * F64.fin c = F64.fin y ∧ 0 ≤ y ∧ y ≤ 2 ^ 24 ∧
      |y - μ * c| ≤ c * (1 / 2 ^ 33 + 1 / 2 ^ 42) + 1 / 2 ^ 29 := by
  rw [abs_le] at h
  have hac : 0 ≤ a * c := mul_nonneg ha hc
  have hx : |a * c| ≤ 2 ^ (24 : Int) := by
    rw [abs_of_nonneg hac]
    have : a * c ≤ 1001 * 10000 := mul_le_mul (by linarith) hc2 hc (by norm_num)
    norm_num; linarith
  have er := nearest_error_le _ 24 (by norm_num) hx
  have er' : |nearest (a * c) - a * c| ≤ 1 / 2 ^ 29 := by
    have : (2 : ℚ) ^ ((24 : Int) - 53) = 1 / 2 ^ 29 := by norm_num
    rwa [this] at er
  rw [abs_le] at er'
  have hyb : nearest (a * c) ≤ 2 ^ 24 := by
    have : a * c ≤ 1001 * 10000 := mul_le_mul (by linarith) hc2 hc (by norm_num)
    norm_num; linarith
  refine ⟨nearest (a * c), ?_, nearest_nonneg _ hac, hyb, ?_⟩
  · rw [F64.fin_mul_fin]
    exact ofRat_fin _ 24 (by norm_num) (by norm_num) hx
  · rw [abs_le]
    have h1 : (a - μ) * c ≤ (1 / 2 ^ 33 + 1 / 2 ^ 42) * c :=
      mul_le_mul_of_nonneg_right h.2 hc
    have h2 : -(1 / 2 ^ 33 + 1 / 2 ^ 42) * c ≤ (a - μ) * c :=
      mul_le_mul_of_nonneg_right h.1 hc
    constructor <;> nlinarith

/-- A projection rounded to two decimals. -/
theorem rounded_projection (y μ c : ℚ) (ks : List ℕ) (n : ℕ) (hn : 0 < n) (hn2 : n ≤ 1000)
    (hμ : μ = (ks.sum : ℚ) / 100 / n) (hμ0 : 0 ≤ μ) (hc : c = 1 ∨ c = 100 ∨ c = 1000 ∨ c = 10000)
    (hy : 0 ≤ y) (hy2 : y ≤ 2 ^ 24)
    (h : |y - μ * c| ≤ c * (1 / 2 ^ 33 + 1 / 2 ^ 42) + 1 / 2 ^ 29) :
    RoundedOrTieBelow (F64.fin y).toFixed2 (μ * c) := by
  have hn0 : (0 : ℚ) < n := by exact_mod_cast hn
  have hnq : (n : ℚ) ≤ 1000 := by exact_mod_cast hn2
  obtain ⟨C, hC, hC1, hC2⟩ : ∃ C : ℕ, c = C ∧ 0 < C ∧ C ≤ 10000 := by
    rcases hc with h | h | h | h
    · exact ⟨1, by simp [h], by norm_num, by norm_num⟩
    · exact ⟨100, by simp [h], by norm_num, by norm_num⟩
    · exact ⟨1000, by simp [h], by norm_num, by norm_num⟩
    · exact ⟨10000, by simp [h], by norm_num, by norm_num⟩
  have hc0 : (0 : ℚ) < c := by rw [hC]; exact_mod_cast hC1
  have hc1 : c ≤ 10000 := by rw [hC]; exact_mod_cast hC2
  have hP : μ * c * 100 = (((ks.sum * C : ℕ) : Int) : ℚ) / n := by
    rw [hμ, hC, Int.cast_natCast, Nat.cast_mul]; field_simp; ring
  have hclose : |y - μ * c| * 100 < 1 / (2 * (n : ℚ)) := by
    have h1 : 1 / (2 * (1000 : ℚ)) ≤ 1 / (2 * (n : ℚ)) := by
      apply one_div_le_one_div_of_le (by positivity); linarith
    have h2 : (c * (1 / 2 ^ 33 + 1 / 2 ^ 42) + 1 / 2 ^ 29) * 100 < 1 / (2 * (1000 : ℚ)) := by
      have : c * (1 / 2 ^ 33 + 1 / 2 ^ 42) ≤ 10000 * (1 / 2 ^ 33 + 1 / 2 ^ 42) :=
        mul_le_mul_of_nonneg_right hc1 (by norm_num)
      norm_num at this ⊢
      linarith
    have h3 : |y - μ * c| * 100 ≤ (c * (1 / 2 ^ 33 + 1 / 2 ^ 42) + 1 / 2 ^ 29) * 100 :=
      mul_le_mul_of_nonneg_right h (by norm_num)
    linarith
  have hq : |y| < 10 ^ (21 : ℕ) := by
    rw [abs_of_nonneg hy]
    have : (2 : ℚ) ^ 24 < 10 ^ (21 : ℕ) := by norm_num
    linarith
  rw [F64.toFixed2_fin _ hq]
  unfold RoundedOrTieBelow
  rcases toFixed2_near (μ * c) y _ n hn hP (mul_nonneg hμ0 hc0.le) hy hclose with h1 | ⟨h1, h2⟩
  · left; rw [h1]
  · right; exact ⟨h1, by rw [h2]⟩

theorem getAggregatedStats_cons (r : Report) (rs : List Report) :
    ∃ stats, getAggregatedStats (r :: rs) = some stats ∧
      stats.totalSimulations = (r :: rs).length ∧
      stats.totalDataMB = ((r :: rs).foldl (fun sum x => sum + F64.ofJSNumber x.totalMB)
        (F64.fin 0)).toFixed2 ∧
      stats.averagePerSimulationMB =
        ((r :: rs).foldl (fun sum x => sum + F64.ofJSNumber x.totalMB) (F64.fin 0) /
          F64.ofRat ((r :: rs).length : ℚ)).toFixed2 ∧
      stats.minPerSimulationMB =
        (rs.foldl (fun m x => F64.min m (F64.ofJSNumber x.totalMB))
          (F64.ofJSNumber r.totalMB)).toFixed2 ∧
      stats.maxPerSimulationMB =
        (rs.foldl (fun m x => F64.max m (F64.ofJSNumber x.totalMB))
          (F64.ofJSNumber r.totalMB)).toFixed2 ∧
      stats.projections.per100 =
        ((r :: rs).foldl (fun sum x => sum + F64.ofJSNumber x.totalMB) (F64.fin 0) /
          F64.ofRat ((r :: rs).length : ℚ) * F64.fin 100).toFixed2 ∧
      stats.projections.per1000 =
        ((r :: rs).foldl (fun sum x => sum + F64.ofJSNumber x.totalMB) (F64.fin 0) /
          F64.ofRat ((r :: rs).length : ℚ) * F64.fin 1000).toFixed2 ∧
      stats.projections.per10000 =
        ((r :: rs).foldl (fun sum x => sum + F64.ofJSNumber x.totalMB) (F64.fin 0) /
          F64.ofRat ((r :: rs).length : ℚ) * F64.fin 10000).toFixed2 ∧
      stats.estimatedCostPer1000 =
        calculateCost ((r :: rs).foldl (fun sum x => sum + F64.ofJSNumber x.totalMB)
          (F64.fin 0) / F64.ofRat ((r :: rs).length : ℚ) * F64.fin 1000) :=
  ⟨_, rfl, rfl, rfl, rfl, rfl, rfl, rfl, rfl, rfl, rfl⟩

/-- C13 (counterexample): two reports of 0.00 and 0.03 MB.  Their mean is
0.015 MB, which rounded to two decimals is 0.02; the statistics show 0.01,
because the quotient of the doubles 0.03 and 2 lies below 0.015. -/
theorem C13_mean_of_two_reports_rounds_down :
    (getAggregatedStats [reportOf 1 0, reportOf 2 (3 / 100)]).map
        (fun stats => stats.averagePerSimulationMB) = some (F64.ofRat (1 / 100)) ∧
    toFixed2 ((0 + 3 / 100) / 2) = 1 / 50 ∧
    F64.ofRat (1 / 100) ≠ F64.ofRat (1 / 50) ∧
    F64.ofRat (3 / 100) / F64.ofRat 2 = F64.fin (1080863910568919 / 72057594037927936) ∧
    (1080863910568919 / 72057594037927936 : ℚ) < 3 / 200 := by
  have h1 : F64.ofRat (3 / 100) = F64.fin (1080863910568919 / 36028797018963968) :=
    ofRat_eval _ _ (-6) 8646911284551352 (by norm_num) (by norm_num) (by norm_num)
      (by norm_num) (by norm_num) (by norm_num) (by norm_num)
  have h2 : F64.fin 0 + F64.fin (1080863910568919 / 36028797018963968) =
      F64.fin (1080863910568919 / 36028797018963968) :=
    ofRat_eval _ _ (-6) 8646911284551352 (by norm_num) (by norm_num) (by norm_num)
      (by norm_num) (by norm_num) (by norm_num) (by norm_num)
  have h3 : F64.ofRat 2 = F64.fin 2 :=
    ofRat_eval _ _ 1 4503599627370496 (by norm_num) (by norm_num) (by norm_num)
      (by norm_num) (by norm_num) (by norm_num) (by norm_num)
  have h4 : F64.fin (1080863910568919 / 36028797018963968) / F64.fin 2 =
      F64.fin (1080863910568919 / 72057594037927936) := by
    rw [F64.fin_div_fin _ _ (by norm_num)]
    exact ofRat_eval _ _ (-7) 8646911284551352 (by norm_num) (by norm_num) (by norm_num)
      (by norm_num) (by norm_num) (by norm_num) (by norm_num)
  have h5 : (F64.fin (1080863910568919 / 72057594037927936)).toFixed2 =
      F64.ofRat (1 / 100) := by
    rw [F64.toFixed2_fin _ (by norm_num [abs_lt])]
    congr 1
    norm_num [toFixed2, Int.floor_eq_iff]
  have h6 : F64.ofRat (1 / 100) = F64.fin (5764607523034235 / 576460752303423488) :=
    ofRat_eval _ _ (-7) 5764607523034235 (by norm_num) (by norm_num) (by norm_num)
      (by norm_num) (by norm_num) (by norm_num) (by norm_num)
  have h7 : F64.ofRat (1 / 50) = F64.fin (5764607523034235 / 288230376151711744) :=
    ofRat_eval _ _ (-6) 5764607523034235 (by norm_num) (by norm_num) (by norm_num)
      (by norm_num) (by norm_num) (by norm_num) (by norm_num)
  refine ⟨?_, ?_, ?_, ?_, ?_⟩
  · simp only [getAggregatedStats, reportOf, F64.ofJSNumber, Option.map_some',
      List.foldl_cons, List.foldl_nil, ofRat_zero, F64.fin_add_fin, List.length_cons,
      List.length_nil, Nat.reduceAdd, Nat.cast_ofNat, add_zero, h1]
    rw [← F64.fin_add_fin, h2, h3, h4, h5]
  · norm_num [toFixed2, Int.floor_eq_iff]
  · rw [h6, h7]
    intro h
    injection h with h
    norm_num at h
  · rw [h1, h3, h4]
  · norm_num

/-- The mean of session reports, rounded to two decimals. -/
theorem session_average (reports : List Report) (ks : List ℕ) (hne : reports ≠ [])
    (hk : reports.map (fun r => r.totalMB) =
      ks.map (fun (k : ℕ) => JSNumber.val ((k : ℚ) / 100)))
    (hM : ∀ k ∈ ks, k ≤ 100000) (hn : reports.length ≤ 1000) :
    RoundedOrTieBelow
      (reports.foldl (fun sum x => sum + F64.ofJSNumber x.totalMB) (F64.fin 0) /
        F64.ofRat (reports.length : ℚ)).toFixed2
      ((ks.sum : ℚ) / 100 / (reports.length : ℚ)) := by
  obtain ⟨a, ea, hclose, ha0, hμ0, hμ1⟩ := session_mean reports ks hne hk hM hn
  have hpos : 0 < reports.length := List.length_pos.2 hne
  rw [ea]
  have hb : |a - (ks.sum : ℚ) / 100 / (reports.length : ℚ) * 1| ≤
      1 * (1 / 2 ^ 33 + 1 / 2 ^ 42) + 1 / 2 ^ 29 := by
    rw [mul_one, one_mul]
    have h4 : (0 : ℚ) ≤ 1 / 2 ^ 29 := by norm_num
    linarith
  have ha1 : a ≤ 2 ^ 24 := by
    have h2 := (abs_le.1 hclose).2
    have h4 : (1 : ℚ) / 2 ^ 33 + 1 / 2 ^ 42 ≤ 1 := by norm_num
    have h5 : (1001 : ℚ) ≤ 2 ^ 24 := by norm_num
    linarith
  have := rounded_projection a _ 1 ks _ hpos hn rfl hμ0 (Or.inl rfl) ha0 ha1 hb
  rwa [mul_one] at this

/-- C13 (amended): for `n >= 1` session reports, at most 1000 of them, whose
`totalMB` are whole numbers of hundredths of at most 1000 MB (`ks` lists
them in hundredths), `getAggregatedStats` returns `totalSimulations = n`, and
`averagePerSimulationMB` and the projections `per100`, `per1000` and `per10000`
are the doubles of the exact mean, and of the exact mean times 100, 1000 and
10000, rounded to two decimals, except that a figure whose exact value lies
exactly halfway between two hundredths may be shown one hundredth lower. -/
theorem C13_mean_and_projections_of_session_reports (reports : List Report) (ks : List ℕ)
    (hne : reports ≠ [])
    (hk : reports.map (fun r => r.totalMB) =
      ks.map (fun (k : ℕ) => JSNumber.val ((k : ℚ) / 100)))
    (hM : ∀ k ∈ ks, k ≤ 100000) (hn : reports.length ≤ 1000) :
    ∃ stats, getAggregatedStats reports = some stats ∧
      stats.totalSimulations = reports.length ∧
      RoundedOrTieBelow stats.averagePerSimulationMB
        ((ks.sum : ℚ) / 100 / (reports.length : ℚ)) ∧
      RoundedOrTieBelow stats.projections.per100
        ((ks.sum : ℚ) / 100 / (reports.length : ℚ) * 100) ∧
      RoundedOrTieBelow stats.projections.per1000
        ((ks.sum : ℚ) / 100 / (reports.length : ℚ) * 1000) ∧
      RoundedOrTieBelow stats.projections.per10000
        ((ks.sum : ℚ) / 100 / (reports.length : ℚ) * 10000) := by
  obtain ⟨a, ea, hclose, ha0, hμ0, hμ1⟩ := session_mean reports ks hne hk hM hn
  have hpos : 0 < reports.length := List.length_pos.2 hne
  cases reports with
  | nil => exact absurd rfl hne
  | cons r rs =>
    obtain ⟨stats, hs, h1, -, h3, -, -, h6, h7, h8, -⟩ := getAggregatedStats_cons r rs
    refine ⟨stats, hs, h1, ?_, ?_, ?_, ?_⟩
    · rw [h3]
      exact session_average (r :: rs) ks hne hk hM hn
    · rw [h6, ea]
      obtain ⟨y, ey, hy0, hy1, hy⟩ := scale_mean a _ 100 ha0 hμ1 hclose (by norm_num)
        (by norm_num)
      rw [ey]
      exact rounded_projection y _ 100 ks _ hpos hn rfl hμ0 (Or.inr (Or.inl rfl)) hy0 hy1 hy
    · rw [h7, ea]
      obtain ⟨y, ey, hy0, hy1, hy⟩ := scale_mean a _ 1000 ha0 hμ1 hclose (by norm_num)
        (by norm_num)
      rw [ey]
      exact rounded_projection y _ 1000 ks _ hpos hn rfl hμ0 (Or.inr (Or.inr (Or.inl rfl)))
        hy0 hy1 hy
    · rw [h8, ea]
      obtain ⟨y, ey, hy0, hy1, hy⟩ := scale_mean a _ 10000 ha0 hμ1 hclose (by norm_num)
        (by norm_num)
      rw [ey]
      exact rounded_projection y _ 10000 ks _ hpos hn rfl hμ0 (Or.inr (Or.inr (Or.inr rfl)))
        hy0 hy1 hy

/-- Witness of C13 (amended): the two reports of 0.00 and 0.03 MB. -/
theorem C13_mean_and_projections_of_session_reports_witness :
    ∃ stats, getAggregatedStats [reportOf 1 0, reportOf 2 (3 / 100)] = some stats ∧
      stats.totalSimulations = [reportOf 1 0, reportOf 2 (3 / 100)].length ∧
      RoundedOrTieBelow stats.averagePerSimulationMB
        ((([0, 3] : List ℕ).sum : ℚ) / 100 /
          ([reportOf 1 0, reportOf 2 (3 / 100)].length : ℚ)) ∧
      RoundedOrTieBelow stats.projections.per100
        ((([0, 3] : List ℕ).sum : ℚ) / 100 /
          ([reportOf 1 0, reportOf 2 (3 / 100)].length : ℚ) * 100) ∧
      RoundedOrTieBelow stats.projections.per1000
        ((([0, 3] : List ℕ).sum : ℚ) / 100 /
          ([reportOf 1 0, reportOf 2 (3 / 100)].length : ℚ) * 1000) ∧
      RoundedOrTieBelow stats.projections.per10000
        ((([0, 3] : List ℕ).sum : ℚ) / 100 /
          ([reportOf 1 0, reportOf 2 (3 / 100)].length : ℚ) * 10000) :=
  C13_mean_and_projections_of_session_reports [reportOf 1 0, reportOf 2 (3 / 100)] [0, 3]
    (by simp) (by simp [reportOf]) (by decide) (by simp)

theorem F64.min_fin_fin (a b : ℚ) :
    F64.min (F64.fin a) (F64.fin b) = F64.fin (Min.min a b) := rfl

theorem F64.max_fin_fin (a b : ℚ) :
    F64.max (F64.fin a) (F64.fin b) = F64.fin (Max.max a b) := rfl

/-- The double of a whole number of hundredths, of at most 1000 MB. -/
theorem ofRat_hundredths (k : ℕ) (hk : k ≤ 100000) :
    F64.ofRat ((k : ℚ) / 100) = F64.fin (nearest ((k : ℚ) / 100)) ∧
      |nearest ((k : ℚ) / 100) - (k : ℚ) / 100| ≤ 1 / 2 ^ 43 ∧
      0 ≤ nearest ((k : ℚ) / 100) := by
  have hkq : (k : ℚ) ≤ 100000 := by exact_mod_cast hk
  have hkq0 : (0 : ℚ) ≤ k := Nat.cast_nonneg k
  have ha : |(k : ℚ) / 100| ≤ 2 ^ (10 : Int) := by
    rw [abs_of_nonneg (by positivity)]; norm_num; linarith
  have ea := nearest_error_le _ 10 (by norm_num) ha
  have : (2 : ℚ) ^ ((10 : Int) - 53) = 1 / 2 ^ 43 := by norm_num
  rw [this] at ea
  exact ⟨ofRat_fin _ 10 (by norm_num) (by norm_num) ha, ea, nearest_nonneg _ (by positivity)⟩

/-- The doubles of the hundredths are in the order of the hundredths. -/
theorem nearest_hundredths_lt (a b : ℕ) (ha : a ≤ 100000) (hb : b ≤ 100000) (h : a < b) :
    nearest ((a : ℚ) / 100) < nearest ((b : ℚ) / 100) := by
  obtain ⟨-, e1, -⟩ := ofRat_hundredths a ha
  obtain ⟨-, e2, -⟩ := ofRat_hundredths b hb
  rw [abs_le] at e1 e2
  have hab : (a : ℚ) + 1 ≤ b := by exact_mod_cast h
  have : (1 : ℚ) / 2 ^ 43 < 1 / 400 := by norm_num
  linarith

theorem nearest_hundredths_le (a b : ℕ) (ha : a ≤ 100000) (hb : b ≤ 100000) (h : a ≤ b) :
    nearest ((a : ℚ) / 100) ≤ nearest ((b : ℚ) / 100) := by
  rcases Nat.eq_or_lt_of_le h with rfl | h
  · exact le_rfl
  · exact (nearest_hundredths_lt a b ha hb h).le

/-- Rounding the double of a whole number of hundredths to two decimals gives
it back. -/
theorem toFixed2_hundredths (k : ℕ) (y : ℚ) (hy : 0 ≤ y) (hk : (k : ℚ) / 100 ≤ 2 ^ 21)
    (h : |y - (k : ℚ) / 100| < 1 / 200) :
    (F64.fin y).toFixed2 = F64.ofRat ((k : ℚ) / 100) := by
  rw [abs_lt] at h
  have hq : |y| < 10 ^ (21 : ℕ) := by
    rw [abs_of_nonneg hy]
    have : (2 : ℚ) ^ 21 + 1 < 10 ^ (21 : ℕ) := by norm_num
    linarith
  rw [F64.toFixed2_fin _ hq, toFixed2_of_nonneg y hy]
  have : ⌊y * 100 + 1 / 2⌋ = (k : Int) := by
    rw [Int.floor_eq_iff]
    push_cast
    constructor <;> linarith
  rw [this]
  norm_num

theorem foldl_min_hundredths (ks : List ℕ) :
    ∀ m : ℕ, m ≤ 100000 → (∀ k ∈ ks, k ≤ 100000) →
      ∃ m', m' ∈ m :: ks ∧ (∀ k ∈ m :: ks, m' ≤ k) ∧
        ks.foldl (fun a (k : ℕ) => F64.min a (F64.ofRat ((k : ℚ) / 100)))
          (F64.fin (nearest ((m : ℚ) / 100))) = F64.fin (nearest ((m' : ℚ) / 100)) := by
  induction ks with
  | nil => intro m _ _; exact ⟨m, by simp, by simp, rfl⟩
  | cons k t ih =>
    intro m hm hk
    have hk0 : k ≤ 100000 := hk k (List.mem_cons_self _ _)
    have hstep : F64.min (F64.fin (nearest ((m : ℚ) / 100))) (F64.ofRat ((k : ℚ) / 100)) =
        F64.fin (nearest (((min m k : ℕ) : ℚ) / 100)) := by
      rw [(ofRat_hundredths k hk0).1, F64.min_fin_fin]
      rcases le_total m k with h | h
      · rw [min_eq_left h, min_eq_left (nearest_hundredths_le m k hm hk0 h)]
      · rw [min_eq_right h, min_eq_right (nearest_hundredths_le k m hk0 hm h)]
    obtain ⟨m', h1, h2, h3⟩ := ih (min m k) (le_trans (min_le_left _ _) hm)
      (fun k' hk' => hk k' (List.mem_cons_of_mem _ hk'))
    refine ⟨m', ?_, ?_, ?_⟩
    · rcases List.mem_cons.1 h1 with h | h
      · rcases min_choice m k with h' | h' <;> simp [h, h']
      · simp [h]
    · intro k' hk'
      have hmin := h2 (min m k) (List.mem_cons_self _ _)
      rcases List.mem_cons.1 hk' with rfl | hk'
      · exact le_trans hmin (min_le_left _ _)
      · rcases List.mem_cons.1 hk' with rfl | hk'
        · exact le_trans hmin (min_le_right _ _)
        · exact h2 k' (List.mem_cons_of_mem _ hk')
    · rw [List.foldl_cons, hstep, h3]

theorem foldl_max_hundredths (ks : List ℕ) :
    ∀ m : ℕ, m ≤ 100000 → (∀ k ∈ ks, k ≤ 100000) →
      ∃ m', m' ∈ m :: ks ∧ (∀ k ∈ m :: ks, k ≤ m') ∧
        ks.foldl (fun a (k : ℕ) => F64.max a (F64.ofRat ((k : ℚ) / 100)))
          (F64.fin (nearest ((m : ℚ) / 100))) = F64.fin (nearest ((m' : ℚ) / 100)) := by
  induction ks with
  | nil => intro m _ _; exact ⟨m, by simp, by simp, rfl⟩
  | cons k t ih =>
    intro m hm hk
    have hk0 : k ≤ 100000 := hk k (List.mem_cons_self _ _)
    have hstep : F64.max (F64.fin (nearest ((m : ℚ) / 100))) (F64.ofRat ((k : ℚ) / 100)) =
        F64.fin (nearest (((max m k : ℕ) : ℚ) / 100)) := by
      rw [(ofRat_hundredths k hk0).1, F64.max_fin_fin]
      rcases le_total m k with h | h
      · rw [max_eq_right h, max_eq_right (nearest_hundredths_le m k hm hk0 h)]
      · rw [max_eq_left h, max_eq_left (nearest_hundredths_le k m hk0 hm h)]
    obtain ⟨m', h1, h2, h3⟩ := ih (max m k) (max_le hm hk0)
      (fun k' hk' => hk k' (List.mem_cons_of_mem _ hk'))
    refine ⟨m', ?_, ?_, ?_⟩
    · rcases List.mem_cons.1 h1 with h | h
      · rcases max_choice m k with h' | h' <;> simp [h, h']
      · simp [h]
    · intro k' hk'
      have hmax := h2 (max m k) (List.mem_cons_self _ _)
      rcases List.mem_cons.1 hk' with rfl | hk'
      · exact le_trans (le_max_left _ _) hmax
      · rcases List.mem_cons.1 hk' with rfl | hk'
        · exact le_trans (le_max_right _ _) hmax
        · exact h2 k' (List.mem_cons_of_mem _ hk')
    · rw [List.foldl_cons, hstep, h3]

/-- The count, total, minimum and maximum of the statistics of up to 1000
session reports of up to 1000 MB each: the total is the double of the exact sum
of the totals, the minimum and the maximum are the doubles of the least and of
the greatest total. -/
theorem session_stats (reports : List Report) (ks : List ℕ) (hne : reports ≠ [])
    (hk : reports.map (fun r => r.totalMB) =
      ks.map (fun (k : ℕ) => JSNumber.val ((k : ℚ) / 100)))
    (hM : ∀ k ∈ ks, k ≤ 100000) (hn : reports.length ≤ 1000) :
    ∃ (stats : AggregatedStats) (lo hi : ℕ), getAggregatedStats reports = some stats ∧
      stats.totalSimulations = reports.length ∧
      stats.totalDataMB = F64.ofRat ((ks.sum : ℚ) / 100) ∧
      lo ∈ ks ∧ (∀ k ∈ ks, lo ≤ k) ∧
      stats.minPerSimulationMB = F64.ofRat ((lo : ℚ) / 100) ∧
      hi ∈ ks ∧ (∀ k ∈ ks, k ≤ hi) ∧
      stats.maxPerSimulationMB = F64.ofRat ((hi : ℚ) / 100) := by
  obtain ⟨s, e1, e2, e3, e4, hs0⟩ := session_sum reports ks hk hM hn
  have hnq : (reports.length : ℚ) ≤ 1000 := by exact_mod_cast hn
  cases reports with
  | nil => exact absurd rfl hne
  | cons r rs =>
    cases ks with
    | nil => simp at hk
    | cons k0 kt =>
      obtain ⟨stats, hs, h1, h2, -, h4, h5, -, -, -, -⟩ := getAggregatedStats_cons r rs
      simp only [List.map_cons, List.cons.injEq] at hk
      obtain ⟨hr, hrs⟩ := hk
      have hk0 : k0 ≤ 100000 := hM k0 (List.mem_cons_self _ _)
      have hkt : ∀ k ∈ kt, k ≤ 100000 := fun k hk' => hM k (List.mem_cons_of_mem _ hk')
      have hfold : ∀ (op : F64 → F64 → F64) (init : F64),
          rs.foldl (fun m x => op m (F64.ofJSNumber x.totalMB)) init =
            kt.foldl (fun a (k : ℕ) => op a (F64.ofRat ((k : ℚ) / 100))) init := by
        intro op init
        have : rs.foldl (fun m x => op m (F64.ofJSNumber x.totalMB)) init =
            (rs.map (fun r => r.totalMB)).foldl (fun m t => op m (F64.ofJSNumber t)) init := by
          rw [List.foldl_map]
        rw [this, hrs, List.foldl_map]
        rfl
      have hhead : F64.ofJSNumber r.totalMB = F64.fin (nearest ((k0 : ℚ) / 100)) := by
        rw [hr]; exact (ofRat_hundredths k0 hk0).1
      obtain ⟨lo, l1, l2, l3⟩ := foldl_min_hundredths kt k0 hk0 hkt
      obtain ⟨hi, u1, u2, u3⟩ := foldl_max_hundredths kt k0 hk0 hkt
      have hlo : lo ≤ 100000 := hM lo l1
      have hhi : hi ≤ 100000 := hM hi u1
      have small : (1 : ℚ) / 2 ^ 43 < 1 / 200 := by norm_num
      refine ⟨stats, lo, hi, hs, h1, ?_, l1, l2, ?_, u1, u2, ?_⟩
      · rw [h2, e1]
        have hsum : (((k0 :: kt).sum : ℕ) : ℚ) / 100 ≤ 2 ^ 21 := by
          have : (2 : ℚ) ^ 21 = 2097152 := by norm_num
          linarith
        apply toFixed2_hundredths _ s hs0 hsum
        have : ((r :: rs).length : ℚ) * (1 / 2 ^ 33 + 1 / 2 ^ 43) ≤
            1000 * (1 / 2 ^ 33 + 1 / 2 ^ 43) :=
          mul_le_mul_of_nonneg_right hnq (by norm_num)
        have h3 : (1000 : ℚ) * (1 / 2 ^ 33 + 1 / 2 ^ 43) < 1 / 200 := by norm_num
        exact lt_of_le_of_lt e2 (lt_of_le_of_lt this h3)
      · rw [h4, hfold F64.min, hhead, l3]
        obtain ⟨-, b1, b2⟩ := ofRat_hundredths lo hlo
        apply toFixed2_hundredths lo _ b2 _ (lt_of_le_of_lt b1 small)
        have : (lo : ℚ) ≤ 100000 := by exact_mod_cast hlo
        norm_num; linarith
      · rw [h5, hfold F64.max, hhead, u3]
        obtain ⟨-, b1, b2⟩ := ofRat_hundredths hi hhi
        apply toFixed2_hundredths hi _ b2 _ (lt_of_le_of_lt b1 small)
        have : (hi : ℚ) ≤ 100000 := by exact_mod_cast hhi
        norm_num; linarith

theorem totalDataMB_three (i j k : Int) (a b c : ℚ) :
    (getAggregatedStats ([reportOf i a, reportOf j b, reportOf k c].foldl addReport [])).map
        (fun stats => stats.totalDataMB) =
      some (F64.fin 0 + F64.ofRat a + F64.ofRat b + F64.ofRat c).toFixed2 := rfl

/-- C14 (counterexample): three reports of 0.001, 0.002 and 0.012 MB.  Added in
this order the total of the statistics is 0.01 MB; added with the third report
first it is 0.02 MB: the two double sums lie on either side of 0.015. -/
theorem C14_total_depends_on_order :
    List.Perm [reportOf 1 (1 / 1000), reportOf 2 (1 / 500), reportOf 3 (3 / 250)]
      [reportOf 3 (3 / 250), reportOf 1 (1 / 1000), reportOf 2 (1 / 500)] ∧
    (getAggregatedStats ([reportOf 1 (1 / 1000), reportOf 2 (1 / 500), reportOf 3 (3 / 250)].foldl
        addReport [])).map (fun stats => stats.totalDataMB) = some (F64.ofRat (1 / 100)) ∧
    (getAggregatedStats ([reportOf 3 (3 / 250), reportOf 1 (1 / 1000), reportOf 2 (1 / 500)].foldl
        addReport [])).map (fun stats => stats.totalDataMB) = some (F64.ofRat (1 / 50)) ∧
    F64.ofRat (1 / 100) ≠ F64.ofRat (1 / 50) := by
  refine ⟨?_, ?_, ?_, ?_⟩
  · exact ((List.Perm.swap _ _ []).cons _).trans (List.Perm.swap _ _ [_])
  · rw [totalDataMB_three]
    have a1 : F64.ofRat (1 / 1000) =
        F64.fin (1152921504606847 / 1152921504606846976) :=
      ofRat_eval _ _ (-10) 4611686018427388 (by norm_num) (by norm_num) (by norm_num)
        (by norm_num) (by norm_num) (by norm_num) (by norm_num)
    have a2 : F64.ofRat (1 / 500) =
        F64.fin (1152921504606847 / 576460752303423488) :=
      ofRat_eval _ _ (-9) 4611686018427388 (by norm_num) (by norm_num) (by norm_num)
        (by norm_num) (by norm_num) (by norm_num) (by norm_num)
    have a3 : F64.ofRat (3 / 250) =
        F64.fin (3458764513820541 / 288230376151711744) :=
      ofRat_eval _ _ (-7) 6917529027641082 (by norm_num) (by norm_num) (by norm_num)
        (by norm_num) (by norm_num) (by norm_num) (by norm_num)
    have a4 : F64.fin (0) +
        F64.fin (1152921504606847 / 1152921504606846976) =
        F64.fin (1152921504606847 / 1152921504606846976) :=
      ofRat_eval _ _ (-10) 4611686018427388 (by norm_num) (by norm_num) (by norm_num)
        (by norm_num) (by norm_num) (by norm_num) (by norm_num)
    have a5 : F64.fin (1152921504606847 / 1152921504606846976) +
        F64.fin (1152921504606847 / 576460752303423488) =
        F64.fin (3458764513820541 / 1152921504606846976) :=
      ofRat_eval _ _ (-9) 6917529027641082 (by norm_num) (by norm_num) (by norm_num)
        (by norm_num) (by norm_num) (by norm_num) (by norm_num)
    have a6 : F64.fin (3458764513820541 / 1152921504606846976) +
        F64.fin (3458764513820541 / 288230376151711744) =
        F64.fin (1080863910568919 / 72057594037927936) :=
      ofRat_eval_tie _ _ (-7) 8646911284551352 (by norm_num) (by norm_num) (by norm_num)
        (by norm_num) (by norm_num) (by norm_num) (by norm_num)
    have a7 : (F64.fin (1080863910568919 / 72057594037927936)).toFixed2 =
        F64.ofRat (1 / 100) :=
      by
      rw [F64.toFixed2_fin _ (by norm_num [abs_lt])]
      congr 1
      norm_num [toFixed2, Int.floor_eq_iff]
    rw [a1, a2, a3, a4, a5, a6, a7]
  · rw [totalDataMB_three]
    have b1 : F64.ofRat (3 / 250) =
        F64.fin (3458764513820541 / 288230376151711744) :=
      ofRat_eval _ _ (-7) 6917529027641082 (by norm_num) (by norm_num) (by norm_num)
        (by norm_num) (by norm_num) (by norm_num) (by norm_num)
    have b2 : F64.ofRat (1 / 1000) =
        F64.fin (1152921504606847 / 1152921504606846976) :=
      ofRat_eval _ _ (-10) 4611686018427388 (by norm_num) (by norm_num) (by norm_num)
        (by norm_num) (by norm_num) (by norm_num) (by norm_num)
    have b3 : F64.ofRat (1 / 500) =
        F64.fin (1152921504606847 / 576460752303423488) :=
      ofRat_eval _ _ (-9) 4611686018427388 (by norm_num) (by norm_num) (by norm_num)
        (by norm_num) (by norm_num) (by norm_num) (by norm_num)
    have b4 : F64.fin (0) +
        F64.fin (3458764513820541 / 288230376151711744) =
        F64.fin (3458764513820541 / 288230376151711744) :=
      ofRat_eval _ _ (-7) 6917529027641082 (by norm_num) (by norm_num) (by norm_num)
        (by norm_num) (by norm_num) (by norm_num) (by norm_num)
    have b5 : F64.fin (3458764513820541 / 288230376151711744) +
        F64.fin (1152921504606847 / 1152921504606846976) =
        F64.fin (3746994889972253 / 288230376151711744) :=
      ofRat_eval_tie_up _ _ (-7) 7493989779944505 (by norm_num) (by norm_num) (by norm_num)
        (by norm_num) (by norm_num) (by norm_num) (by norm_num)
    have b6 : F64.fin (3746994889972253 / 288230376151711744) +
        F64.fin (1152921504606847 / 576460752303423488) =
        F64.fin (8646911284551353 / 576460752303423488) :=
      ofRat_eval _ _ (-7) 8646911284551353 (by norm_num) (by norm_num) (by norm_num)
        (by norm_num) (by norm_num) (by norm_num) (by norm_num)
    have b7 : (F64.fin (8646911284551353 / 576460752303423488)).toFixed2 =
        F64.ofRat (1 / 50) :=
      by
      rw [F64.toFixed2_fin _ (by norm_num [abs_lt])]
      congr 1
      norm_num [toFixed2, Int.floor_eq_iff]
    rw [b1, b2, b3, b4, b5, b6, b7]
  ·
    have c1 : F64.ofRat (1 / 100) =
        F64.fin (5764607523034235 / 576460752303423488) :=
      ofRat_eval _ _ (-7) 5764607523034235 (by norm_num) (by norm_num) (by norm_num)
        (by norm_num) (by norm_num) (by norm_num) (by norm_num)
    have c2 : F64.ofRat (1 / 50) =
        F64.fin (5764607523034235 / 288230376151711744) :=
      ofRat_eval _ _ (-6) 5764607523034235 (by norm_num) (by norm_num) (by norm_num)
        (by norm_num) (by norm_num) (by norm_num) (by norm_num)
    rw [c1, c2]
    intro h
    injection h with h
    norm_num at h

/-- The totals of session reports, in hundredths of a megabyte. -/
theorem exists_hundredths (l : List Report)
    (hs : ∀ r ∈ l, ∃ k : ℕ, k ≤ 100000 ∧ r.totalMB = JSNumber.val ((k : ℚ) / 100)) :
    ∃ ks : List ℕ, l.map (fun r => r.totalMB) =
        ks.map (fun (k : ℕ) => JSNumber.val ((k : ℚ) / 100)) ∧ ∀ k ∈ ks, k ≤ 100000 := by
  induction l with
  | nil => exact ⟨[], rfl, by simp⟩
  | cons r t ih =>
    obtain ⟨k, hk, hr⟩ := hs r (List.mem_cons_self _ _)
    obtain ⟨ks, e, hks⟩ := ih (fun r' hr' => hs r' (List.mem_cons_of_mem _ hr'))
    refine ⟨k :: ks, by simp [hr, e], ?_⟩
    intro k' hk'
    rcases List.mem_cons.1 hk' with rfl | h
    · exact hk
    · exact hks k' h

/-- Two lists of hundredths that give the same totals up to order are the
same up to order. -/
theorem hundredths_perm (ks₁ ks₂ : List ℕ)
    (h : (ks₁.map (fun (k : ℕ) => JSNumber.val ((k : ℚ) / 100))).Perm
      (ks₂.map (fun (k : ℕ) => JSNumber.val ((k : ℚ) / 100)))) : ks₁.Perm ks₂ := by
  have h2 := h.map (fun t : JSNumber =>
    match t with
    | .val q => ⌊q * 100⌋.toNat
    | .nan => 0)
  rw [List.map_map, List.map_map] at h2
  have hid : ∀ ks : List ℕ, ks.map ((fun t : JSNumber =>
      match t with
      | .val q => ⌊q * 100⌋.toNat
      | .nan => 0) ∘ (fun (k : ℕ) => JSNumber.val ((k : ℚ) / 100))) = ks := by
    intro ks
    induction ks with
    | nil => rfl
    | cons k t ih =>
      rw [List.map_cons, ih]
      congr 1
      show ⌊(k : ℚ) / 100 * 100⌋.toNat = k
      have : (k : ℚ) / 100 * 100 = ((k : Int) : ℚ) := by push_cast; ring
      rw [this, Int.floor_intCast]
      simp
  rwa [hid, hid] at h2

/-- C14 (amended): for session reports, at most 1000 of them, whose `totalMB`
are whole numbers of hundredths of at most 1000 MB, adding the same reports to
a fresh aggregator in two different orders gives the same count, total,
minimum and maximum in `getAggregatedStats`. -/
theorem C14_order_of_session_reports (l₁ l₂ : List Report) (h : l₁.Perm l₂)
    (hs : ∀ r ∈ l₁, ∃ k : ℕ, k ≤ 100000 ∧ r.totalMB = JSNumber.val ((k : ℚ) / 100))
    (hn : l₁.length ≤ 1000) :
    (getAggregatedStats (l₁.foldl addReport [])).map countTotalMinMax =
      (getAggregatedStats (l₂.foldl addReport [])).map countTotalMinMax := by
  rw [foldl_addReport, foldl_addReport, List.nil_append, List.nil_append]
  rcases List.eq_nil_or_concat l₁ with rfl | hcons
  · have : l₂ = [] := List.Perm.eq_nil h.symm
    subst this
    rfl
  · have hne₁ : l₁ ≠ [] := by
      obtain ⟨L, b, rfl⟩ := hcons
      simp
    have hne₂ : l₂ ≠ [] := fun e => hne₁ (List.Perm.eq_nil (e ▸ h))
    have hs₂ : ∀ r ∈ l₂, ∃ k : ℕ, k ≤ 100000 ∧ r.totalMB = JSNumber.val ((k : ℚ) / 100) :=
      fun r hr => hs r (h.mem_iff.2 hr)
    have hn₂ : l₂.length ≤ 1000 := by rw [← h.length_eq]; exact hn
    obtain ⟨ks₁, e₁, b₁⟩ := exists_hundredths l₁ hs
    obtain ⟨ks₂, e₂, b₂⟩ := exists_hundredths l₂ hs₂
    have hp : ks₁.Perm ks₂ := by
      apply hundredths_perm
      rw [← e₁, ← e₂]
      exact h.map _
    obtain ⟨s₁, lo₁, hi₁, g₁, c₁, t₁, m₁, m₁', n₁, x₁, x₁', y₁⟩ :=
      session_stats l₁ ks₁ hne₁ e₁ b₁ hn
    obtain ⟨s₂, lo₂, hi₂, g₂, c₂, t₂, m₂, m₂', n₂, x₂, x₂', y₂⟩ :=
      session_stats l₂ ks₂ hne₂ e₂ b₂ hn₂
    have hlo : lo₁ = lo₂ :=
      le_antisymm (m₁' lo₂ (hp.mem_iff.2 m₂)) (m₂' lo₁ (hp.mem_iff.1 m₁))
    have hhi : hi₁ = hi₂ :=
      le_antisymm (x₂' hi₁ (hp.mem_iff.1 x₁)) (x₁' hi₂ (hp.mem_iff.2 x₂))
    rw [g₁, g₂]
    simp only [Option.map_some', countTotalMinMax, c₁, c₂, t₁, t₂, n₁, n₂, y₁, y₂, hlo, hhi,
      h.length_eq, hp.sum_eq]

/-- Witness of C14 (amended): three reports of 1.50, 0.25 and 7.00 MB, in all
six orders. -/
theorem C14_order_of_session_reports_witness :
    (getAggregatedStats ([reportOf 1 (3 / 2), reportOf 2 (1 / 4), reportOf 3 7].foldl
        addReport [])).map countTotalMinMax =
      (getAggregatedStats ([reportOf 1 (3 / 2), reportOf 3 7, reportOf 2 (1 / 4)].foldl
        addReport [])).map countTotalMinMax ∧
    (getAggregatedStats ([reportOf 1 (3 / 2), reportOf 2 (1 / 4), reportOf 3 7].foldl
        addReport [])).map countTotalMinMax =
      (getAggregatedStats ([reportOf 2 (1 / 4), reportOf 1 (3 / 2), reportOf 3 7].foldl
        addReport [])).map countTotalMinMax ∧
    (getAggregatedStats ([reportOf 1 (3 / 2), reportOf 2 (1 / 4), reportOf 3 7].foldl
        addReport [])).map countTotalMinMax =
      (getAggregatedStats ([reportOf 2 (1 / 4), reportOf 3 7, reportOf 1 (3 / 2)].foldl
        addReport [])).map countTotalMinMax ∧
    (getAggregatedStats ([reportOf 1 (3 / 2), reportOf 2 (1 / 4), reportOf 3 7].foldl
        addReport [])).map countTotalMinMax =
      (getAggregatedStats ([reportOf 3 7, reportOf 1 (3 / 2), reportOf 2 (1 / 4)].foldl
        addReport [])).map countTotalMinMax ∧
    (getAggregatedStats ([reportOf 1 (3 / 2), reportOf 2 (1 / 4), reportOf 3 7].foldl
        addReport [])).map countTotalMinMax =
      (getAggregatedStats ([reportOf 3 7, reportOf 2 (1 / 4), reportOf 1 (3 / 2)].foldl
        addReport [])).map countTotalMinMax := by
  have hs : ∀ r ∈ [reportOf 1 (3 / 2), reportOf 2 (1 / 4), reportOf 3 7],
      ∃ k : ℕ, k ≤ 100000 ∧ r.totalMB = JSNumber.val ((k : ℚ) / 100) := by
    intro r hr
    simp only [List.mem_cons, List.mem_singleton, List.not_mem_nil, or_false] at hr
    rcases hr with rfl | rfl | rfl
    · exact ⟨150, by norm_num, by simp [reportOf]; norm_num⟩
    · exact ⟨25, by norm_num, by simp [reportOf]; norm_num⟩
    · exact ⟨700, by norm_num, by simp [reportOf]; norm_num⟩
  exact ⟨
    C14_order_of_session_reports [reportOf 1 (3 / 2), reportOf 2 (1 / 4), reportOf 3 7]
      [reportOf 1 (3 / 2), reportOf 3 7, reportOf 2 (1 / 4)]
      ((List.Perm.swap _ _ []).cons _) hs (by simp),
    C14_order_of_session_reports [reportOf 1 (3 / 2), reportOf 2 (1 / 4), reportOf 3 7]
      [reportOf 2 (1 / 4), reportOf 1 (3 / 2), reportOf 3 7]
      (List.Perm.swap _ _ [_]) hs (by simp),
    C14_order_of_session_reports [reportOf 1 (3 / 2), reportOf 2 (1 / 4), reportOf 3 7]
      [reportOf 2 (1 / 4), reportOf 3 7, reportOf 1 (3 / 2)]
      ((List.Perm.swap _ _ [_]).trans ((List.Perm.swap _ _ []).cons _)) hs (by simp),
    C14_order_of_session_reports [reportOf 1 (3 / 2), reportOf 2 (1 / 4), reportOf 3 7]
      [reportOf 3 7, reportOf 1 (3 / 2), reportOf 2 (1 / 4)]
      (((List.Perm.swap _ _ []).cons _).trans (List.Perm.swap _ _ [_])) hs (by simp),
    C14_order_of_session_reports [reportOf 1 (3 / 2), reportOf 2 (1 / 4), reportOf 3 7]
      [reportOf 3 7, reportOf 2 (1 / 4), reportOf 1 (3 / 2)]
      (((List.Perm.swap _ _ [_]).trans ((List.Perm.swap _ _ []).cons _)).trans
      (List.Perm.swap _ _ [_])) hs (by simp)⟩

/-! ## Costs in binary64 -/

/-- The relative error of rounding to the nearest double is `2 ^ -53` at most,
apart from the absolute error `2 ^ -1075` among the subnormal numbers. -/
theorem nearest_rel_error (x : ℚ) (hx : 0 ≤ x) :
    |nearest x - x| ≤ x / 2 ^ 53 + 1 / 2 ^ 1075 := by
  rcases eq_or_lt_of_le hx with h0 | hpos
  · rw [← h0, nearest_zero]; norm_num
  · refine le_trans (nearest_error x) ?_
    unfold ulpExponent
    rw [abs_of_pos hpos]
    rcases le_total (Int.log 2 x) (-1022) with h | h
    · rw [max_eq_right h]
      have : (2 : ℚ) ^ ((-1022 : Int) - 52 - 1) = 1 / 2 ^ 1075 := by norm_num
      rw [this]
      have : 0 ≤ x / 2 ^ 53 := by positivity
      linarith
    · rw [max_eq_left h]
      have h1 := Int.zpow_log_le_self (b := 2) (by norm_num) hpos
      have h2 : (2 : ℚ) ^ (Int.log 2 x - 52 - 1) = 2 ^ Int.log 2 x / 2 ^ 53 := by
        rw [show Int.log 2 x - 52 - 1 = Int.log 2 x - 53 by ring,
          zpow_sub₀ (by norm_num : (2 : ℚ) ≠ 0)]
        norm_num
      rw [h2]
      have h3 : (2 : ℚ) ^ Int.log 2 x / 2 ^ 53 ≤ x / 2 ^ 53 := by
        apply div_le_div_of_nonneg_right _ (by positivity)
        exact_mod_cast h1
      have : (0 : ℚ) ≤ 1 / 2 ^ 1075 := by positivity
      linarith

/-- Two numbers within `η` of each other have the same integer part when the
second is farther than `η` from every integer. -/
theorem floor_eq_of_near (u v η : ℚ) (h : |u - v| ≤ η)
    (hfar : ∀ j : Int, η < |v - (j : ℚ)|) : ⌊u⌋ = ⌊v⌋ := by
  have h1 := Int.floor_le v
  have h2 := Int.lt_floor_add_one v
  have f1 := hfar ⌊v⌋
  have f2 := hfar (⌊v⌋ + 1)
  rw [abs_of_nonneg (by linarith)] at f1
  rw [abs_of_nonpos (by push_cast; linarith)] at f2
  push_cast at f2
  rw [abs_le] at h
  rw [Int.floor_eq_iff]
  constructor <;> linarith

/-- The cost of one tier, of price `p` per GB, for `d` MB. -/
theorem cost_of_tier (d p : ℚ) (hd0 : 0 ≤ d) (hd1 : d ≤ 2 ^ 53)
    (hp : p = 5 / 2 ∨ p = 7 ∨ p = 25 / 2) :
    CostNear ((F64.fin d / F64.fin 1024) * F64.fin p).toFixed2 (d / 1024 * p) := by
  have hp0 : 0 < p := by rcases hp with h | h | h <;> rw [h] <;> norm_num
  have hp1 : p ≤ 25 / 2 := by rcases hp with h | h | h <;> rw [h] <;> norm_num
  -- the division by 1024
  have hx1 : 0 ≤ d / 1024 := by positivity
  have hx1b : d / 1024 ≤ 2 ^ 43 := by
    rw [div_le_iff₀ (by norm_num)]; norm_num at hd1 ⊢; linarith
  have hK1 : |d / 1024| ≤ 2 ^ (43 : Int) := by
    rw [abs_of_nonneg hx1]; norm_num at hx1b ⊢; linarith
  have eg : F64.fin d / F64.fin 1024 = F64.fin (nearest (d / 1024)) := by
    rw [F64.fin_div_fin _ _ (by norm_num)]
    exact ofRat_fin _ 43 (by norm_num) (by norm_num) hK1
  have rg := nearest_rel_error _ hx1
  have hg0 := nearest_nonneg _ hx1
  set g := nearest (d / 1024) with hg
  rw [abs_le] at rg
  have ht0 : (0 : ℚ) < 1 / 2 ^ 1075 := by positivity
  have ht1 : (1 : ℚ) / 2 ^ 1075 ≤ 1 := by
    rw [div_le_one (by positivity)]; exact one_le_pow₀ (by norm_num)
  -- the product by the price
  have hx2 : 0 ≤ g * p := mul_nonneg hg0 hp0.le
  have hgb : g ≤ 2 ^ 44 := by
    have : d / 1024 / 2 ^ 53 ≤ 1 := by
      rw [div_le_one (by positivity)]; norm_num at hx1b ⊢; linarith
    norm_num at hx1b ⊢; linarith
  have hx2b : g * p ≤ 2 ^ 48 := by
    have : g * p ≤ 2 ^ 44 * (25 / 2) := mul_le_mul hgb hp1 hp0.le (by positivity)
    norm_num at this ⊢; linarith
  have hK2 : |g * p| ≤ 2 ^ (48 : Int) := by
    rw [abs_of_nonneg hx2]; norm_num at hx2b ⊢; linarith
  have ey : F64.fin g * F64.fin p = F64.fin (nearest (g * p)) := by
    rw [F64.fin_mul_fin]
    exact ofRat_fin _ 48 (by norm_num) (by norm_num) hK2
  have ry := nearest_rel_error _ hx2
  have hy0 := nearest_nonneg _ hx2
  set y := nearest (g * p) with hy
  rw [abs_le] at ry
  have hyb : y < 10 ^ (21 : ℕ) := by
    have : g * p / 2 ^ 53 ≤ 1 := by
      rw [div_le_one (by positivity)]; norm_num at hx2b ⊢; linarith
    norm_num at hx2b ⊢; linarith
  have efix : (F64.fin y).toFixed2 = F64.ofRat (((⌊y * 100 + 1 / 2⌋ : Int) : ℚ) / 100) := by
    rw [F64.toFixed2_fin _ (by rw [abs_of_nonneg hy0]; exact hyb), toFixed2_of_nonneg y hy0]
  -- the distance of the double product from the exact cost
  set x := d / 1024 * p with hx
  have hx0 : 0 ≤ x := mul_nonneg hx1 hp0.le
  have hdist : |y - x| ≤ x / 2 ^ 51 + 14 * (1 / 2 ^ 1075) := by
    have e1 : (g - d / 1024) * p ≤ (d / 1024 / 2 ^ 53 + 1 / 2 ^ 1075) * p :=
      mul_le_mul_of_nonneg_right rg.2 hp0.le
    have e2 : -(d / 1024 / 2 ^ 53 + 1 / 2 ^ 1075) * p ≤ (g - d / 1024) * p :=
      mul_le_mul_of_nonneg_right (by linarith [rg.1]) hp0.le
    have e3 : 1 / 2 ^ 1075 * p ≤ 1 / 2 ^ 1075 * (25 / 2) :=
      mul_le_mul_of_nonneg_left hp1 ht0.le
    have e4 : d / 1024 / 2 ^ 53 * p = x / 2 ^ 53 := by rw [hx]; ring
    have e5 : (g - d / 1024) * p = g * p - x := by rw [hx]; ring
    have e6 : (d / 1024 / 2 ^ 53 + 1 / 2 ^ 1075) * p =
        x / 2 ^ 53 + 1 / 2 ^ 1075 * p := by rw [hx]; ring
    rw [e6] at e1
    rw [neg_mul, e6] at e2
    rw [e5] at e1 e2
    rw [abs_le]
    constructor <;> linarith
  rw [eg, ey, efix]
  have hfl1 := Int.floor_le (y * 100 + 1 / 2)
  have hfl2 := Int.lt_floor_add_one (y * 100 + 1 / 2)
  rcases le_or_lt (1 / 2 ^ 1000) x with hbig | hsmall
  · -- the ordinary case
    have hd2 : |y - x| ≤ x / 2 ^ 50 := by
      have : (14 : ℚ) * (1 / 2 ^ 1075) ≤ 1 / 2 ^ 1000 / 2 ^ 51 := by norm_num
      have h2 : 1 / 2 ^ 1000 / 2 ^ 51 ≤ x / 2 ^ 51 :=
        div_le_div_of_nonneg_right hbig (by positivity)
      have h3 : x / 2 ^ 51 + x / 2 ^ 51 = x / 2 ^ 50 := by ring
      linarith
    refine ⟨⌊y * 100 + 1 / 2⌋, rfl, ?_, ?_⟩
    · rw [abs_le] at hd2 ⊢
      constructor <;> linarith
    · intro hfar
      rw [toFixed2_of_nonneg x hx0]
      have hxpos : 0 < x := lt_of_lt_of_le (by positivity) hbig
      have : ⌊y * 100 + 1 / 2⌋ = ⌊x * 100 + 1 / 2⌋ := by
        apply floor_eq_of_near _ _ (x / 2 ^ 43) _ hfar
        have e : y * 100 + 1 / 2 - (x * 100 + 1 / 2) = (y - x) * 100 := by ring
        rw [e, abs_mul]
        have h100 : |(100 : ℚ)| = 100 := by norm_num
        rw [h100]
        have h4 : x / 2 ^ 50 * 100 ≤ x / 2 ^ 43 := by
          have : x / 2 ^ 50 * 100 = x * (100 / 2 ^ 50) := by ring
          rw [this, div_eq_mul_inv x]
          apply mul_le_mul_of_nonneg_left _ hx0
          norm_num
        have h5 : |y - x| * 100 ≤ x / 2 ^ 50 * 100 :=
          mul_le_mul_of_nonneg_right hd2 (by norm_num)
        linarith
      rw [this]
  · -- costs below any double of interest: the cost shown is 0
    have hy1 : y < 1 / 400 := by
      rw [abs_le] at hdist
      have h1 : x / 2 ^ 51 ≤ x := by
        rw [div_le_iff₀ (by positivity)]
        have : x * 1 ≤ x * 2 ^ 51 := mul_le_mul_of_nonneg_left (by norm_num) hx0
        linarith
      have h2 : (1 : ℚ) / 2 ^ 1000 ≤ 1 / 2 ^ 11 :=
        one_div_le_one_div_of_le (by positivity) (pow_le_pow_right₀ (by norm_num) (by norm_num))
      have h3 : (14 : ℚ) * (1 / 2 ^ 1075) ≤ 1 / 2 ^ 11 := by norm_num
      norm_num at h2 h3 ⊢
      linarith [hdist.2]
    have hx1' : x < 1 / 400 := by
      have h2 : (1 : ℚ) / 2 ^ 1000 ≤ 1 / 2 ^ 11 :=
        one_div_le_one_div_of_le (by positivity) (pow_le_pow_right₀ (by norm_num) (by norm_num))
      norm_num at h2 ⊢
      linarith
    have hm : ⌊y * 100 + 1 / 2⌋ = 0 := by
      rw [Int.floor_eq_iff]; push_cast; constructor <;> linarith
    have hmx : ⌊x * 100 + 1 / 2⌋ = 0 := by
      rw [Int.floor_eq_iff]; push_cast; constructor <;> linarith
    refine ⟨0, by rw [hm], ?_, ?_⟩
    · have : 0 ≤ x / 2 ^ 50 := by positivity
      rw [abs_le]; push_cast
      constructor <;> linarith
    · intro _
      rw [toFixed2_of_nonneg x hx0, hmx]

theorem calculateCost_eq (totalMB : F64) :
    calculateCost totalMB =
      { proxyCheap := (totalMB / F64.fin 1024 * F64.fin (5 / 2)).toFixed2
        iproyal := (totalMB / F64.fin 1024 * F64.fin 7).toFixed2
        brightData := (totalMB / F64.fin 1024 * F64.fin (25 / 2)).toFixed2 } := rfl

/-- C15 (counterexample): the cost of 6.144 MB, that is of the double nearest
to 6.144.  The exact costs of this double at 2.5, 7 and 12.5 per GB lie just
above 0.015, 0.042 and 0.075 and round to 0.02, 0.04 and 0.08; `calculateCost`
returns 0.01, 0.04 and 0.07, because the double products lie below 0.015 and
0.075. -/
theorem C15_cost_of_6144_rounds_down :
    F64.ofRat (768 / 125) = F64.fin (3458764513820541 / 562949953421312) ∧
    calculateCost (F64.fin (3458764513820541 / 562949953421312)) =
      { proxyCheap := F64.ofRat (1 / 100)
        iproyal := F64.ofRat (1 / 25)
        brightData := F64.ofRat (7 / 100) } ∧
    toFixed2 (3458764513820541 / 562949953421312 / 1024 * (5 / 2)) = 1 / 50 ∧
    toFixed2 (3458764513820541 / 562949953421312 / 1024 * 7) = 1 / 25 ∧
    toFixed2 (3458764513820541 / 562949953421312 / 1024 * (25 / 2)) = 2 / 25 ∧
    F64.ofRat (1 / 100) ≠ F64.ofRat (1 / 50) ∧
    F64.ofRat (7 / 100) ≠ F64.ofRat (2 / 25) := by
  have e1 : F64.ofRat (768 / 125) =
      F64.fin (3458764513820541 / 562949953421312) :=
    ofRat_eval _ _ (2) 6917529027641082 (by norm_num) (by norm_num) (by norm_num)
      (by norm_num) (by norm_num) (by norm_num) (by norm_num)
  have e2 : F64.fin (3458764513820541 / 562949953421312) /
      F64.fin (1024) =
      F64.fin (3458764513820541 / 576460752303423488) :=
    by
    rw [F64.fin_div_fin _ _ (by norm_num)]
    exact ofRat_eval _ _ (-8) 6917529027641082 (by norm_num) (by norm_num) (by norm_num)
      (by norm_num) (by norm_num) (by norm_num) (by norm_num)
  have e3 : F64.fin (3458764513820541 / 576460752303423488) *
      F64.fin (5 / 2) =
      F64.fin (1080863910568919 / 72057594037927936) :=
    ofRat_eval_tie _ _ (-7) 8646911284551352 (by norm_num) (by norm_num) (by norm_num)
      (by norm_num) (by norm_num) (by norm_num) (by norm_num)
  have e4 : (F64.fin (1080863910568919 / 72057594037927936)).toFixed2 =
      F64.ofRat (1 / 100) :=
    by
    rw [F64.toFixed2_fin _ (by norm_num [abs_lt])]
    congr 1
    norm_num [toFixed2, Int.floor_eq_iff]
  have e5 : F64.fin (3458764513820541 / 576460752303423488) *
      F64.fin (7) =
      F64.fin (6052837899185947 / 144115188075855872) :=
    ofRat_eval _ _ (-5) 6052837899185947 (by norm_num) (by norm_num) (by norm_num)
      (by norm_num) (by norm_num) (by norm_num) (by norm_num)
  have e6 : (F64.fin (6052837899185947 / 144115188075855872)).toFixed2 =
      F64.ofRat (1 / 25) :=
    by
    rw [F64.toFixed2_fin _ (by norm_num [abs_lt])]
    congr 1
    norm_num [toFixed2, Int.floor_eq_iff]
  have e7 : F64.fin (3458764513820541 / 576460752303423488) *
      F64.fin (25 / 2) =
      F64.fin (5404319552844595 / 72057594037927936) :=
    ofRat_eval _ _ (-4) 5404319552844595 (by norm_num) (by norm_num) (by norm_num)
      (by norm_num) (by norm_num) (by norm_num) (by norm_num)
  have e8 : (F64.fin (5404319552844595 / 72057594037927936)).toFixed2 =
      F64.ofRat (7 / 100) :=
    by
    rw [F64.toFixed2_fin _ (by norm_num [abs_lt])]
    congr 1
    norm_num [toFixed2, Int.floor_eq_iff]
  have c1 : F64.ofRat (1 / 100) =
      F64.fin (5764607523034235 / 576460752303423488) :=
    ofRat_eval _ _ (-7) 5764607523034235 (by norm_num) (by norm_num) (by norm_num)
      (by norm_num) (by norm_num) (by norm_num) (by norm_num)
  have c2 : F64.ofRat (1 / 50) =
      F64.fin (5764607523034235 / 288230376151711744) :=
    ofRat_eval _ _ (-6) 5764607523034235 (by norm_num) (by norm_num) (by norm_num)
      (by norm_num) (by norm_num) (by norm_num) (by norm_num)
  have c3 : F64.ofRat (7 / 100) =
      F64.fin (1261007895663739 / 18014398509481984) :=
    ofRat_eval _ _ (-4) 5044031582654956 (by norm_num) (by norm_num) (by norm_num)
      (by norm_num) (by norm_num) (by norm_num) (by norm_num)
  have c4 : F64.ofRat (2 / 25) =
      F64.fin (5764607523034235 / 72057594037927936) :=
    ofRat_eval _ _ (-4) 5764607523034235 (by norm_num) (by norm_num) (by norm_num)
      (by norm_num) (by norm_num) (by norm_num) (by norm_num)
  refine ⟨e1, ?_, ?_, ?_, ?_, ?_, ?_⟩
  · rw [calculateCost_eq]
    rw [e2, e3, e4, e5, e6, e7, e8]
  · norm_num [toFixed2, Int.floor_eq_iff]
  · norm_num [toFixed2, Int.floor_eq_iff]
  · norm_num [toFixed2, Int.floor_eq_iff]
  · rw [c1, c2]
    intro h
    injection h with h
    norm_num at h
  · rw [c3, c4]
    intro h
    injection h with h
    norm_num at h

/-- C15 (amended): for `0 <= totalMB <= 2 ^ 53` the cost of each tier is a whole
number of hundredths, given as a double, within half a hundredth and the
rounding error of the two double operations (`x / 2 ^ 50` for an exact cost
`x = totalMB / 1024 * price`) of the exact cost, the prices being 2.5, 7 and
12.5 per GB; it is the exact cost rounded to two decimals whenever
`x * 100 + 1 / 2` is not within `x / 2 ^ 43` of a whole number.  For 10240 MB
the tier at 2.5 per GB costs exactly 25.00. -/
theorem C15_cost_per_tier_near_exact (d : ℚ) (hd0 : 0 ≤ d) (hd1 : d ≤ 2 ^ 53) :
    CostNear (calculateCost (F64.fin d)).proxyCheap (d / 1024 * (5 / 2)) ∧
    CostNear (calculateCost (F64.fin d)).iproyal (d / 1024 * 7) ∧
    CostNear (calculateCost (F64.fin d)).brightData (d / 1024 * (25 / 2)) ∧
    (calculateCost (F64.fin 10240)).proxyCheap = F64.fin 25 := by
  refine ⟨?_, ?_, ?_, ?_⟩
  · rw [calculateCost_eq]
    exact cost_of_tier d _ hd0 hd1 (Or.inl rfl)
  · rw [calculateCost_eq]
    exact cost_of_tier d _ hd0 hd1 (Or.inr (Or.inl rfl))
  · rw [calculateCost_eq]
    exact cost_of_tier d _ hd0 hd1 (Or.inr (Or.inr rfl))
  · rw [calculateCost_eq]
    have w1 : F64.fin (10240) /
        F64.fin (1024) =
        F64.fin (10) :=
      by
      rw [F64.fin_div_fin _ _ (by norm_num)]
      exact ofRat_eval _ _ (3) 5629499534213120 (by norm_num) (by norm_num) (by norm_num)
        (by norm_num) (by norm_num) (by norm_num) (by norm_num)
    have w2 : F64.fin (10) *
        F64.fin (5 / 2) =
        F64.fin (25) :=
      ofRat_eval _ _ (4) 7036874417766400 (by norm_num) (by norm_num) (by norm_num)
        (by norm_num) (by norm_num) (by norm_num) (by norm_num)
    have w3 : (F64.fin (25)).toFixed2 =
        F64.ofRat (25) :=
      by
      rw [F64.toFixed2_fin _ (by norm_num [abs_lt])]
      congr 1
      norm_num [toFixed2, Int.floor_eq_iff]
    have w4 : F64.ofRat (25) =
        F64.fin (25) :=
      ofRat_eval _ _ (4) 7036874417766400 (by norm_num) (by norm_num) (by norm_num)
        (by norm_num) (by norm_num) (by norm_num) (by norm_num)
    rw [w1, w2, w3, w4]

/-- Witness of C15 (amended): 10240 MB, that is 10 GB. -/
theorem C15_cost_per_tier_near_exact_witness :
    CostNear (calculateCost (F64.fin 10240)).proxyCheap (10240 / 1024 * (5 / 2)) ∧
    CostNear (calculateCost (F64.fin 10240)).iproyal (10240 / 1024 * 7) ∧
    CostNear (calculateCost (F64.fin 10240)).brightData (10240 / 1024 * (25 / 2)) ∧
    (calculateCost (F64.fin 10240)).proxyCheap = F64.fin 25 :=
  C15_cost_per_tier_near_exact 10240 (by norm_num) (by norm_num)

/-! ## The two costs for 1,000 simulations -/

/-- The double product `totalMB / 1024 * price` for up to `2 ^ 25` MB. -/
theorem tier_product (a p : ℚ) (ha0 : 0 ≤ a) (ha1 : a ≤ 2 ^ 25)
    (hp : p = 5 / 2 ∨ p = 7 ∨ p = 25 / 2) :
    ∃ y, F64.fin a / F64.fin 1024 * F64.fin p = F64.fin y ∧ 0 ≤ y ∧ y < 10 ^ (21 : ℕ) ∧
      |y - a / 1024 * p| ≤ 1 / 2 ^ 32 := by
  have hp0 : 0 < p := by rcases hp with h | h | h <;> rw [h] <;> norm_num
  have hp1 : p ≤ 25 / 2 := by rcases hp with h | h | h <;> rw [h] <;> norm_num
  have hx1 : 0 ≤ a / 1024 := by positivity
  have hx1b : a / 1024 ≤ 2 ^ 15 := by
    rw [div_le_iff₀ (by norm_num)]; norm_num at ha1 ⊢; linarith
  have hK1 : |a / 1024| ≤ 2 ^ (15 : Int) := by
    rw [abs_of_nonneg hx1]; norm_num at hx1b ⊢; linarith
  have eg : F64.fin a / F64.fin 1024 = F64.fin (nearest (a / 1024)) := by
    rw [F64.fin_div_fin _ _ (by norm_num)]
    exact ofRat_fin _ 15 (by norm_num) (by norm_num) hK1
  have rg := nearest_error_le _ 15 (by norm_num) hK1
  have hg0 := nearest_nonneg _ hx1
  have r1 : (2 : ℚ) ^ ((15 : Int) - 53) = 1 / 2 ^ 38 := by norm_num
  rw [r1, abs_le] at rg
  have hgb : nearest (a / 1024) ≤ 2 ^ 16 := by norm_num at hx1b rg ⊢; linarith
  have hx2 : 0 ≤ nearest (a / 1024) * p := mul_nonneg hg0 hp0.le
  have hx2b : nearest (a / 1024) * p ≤ 2 ^ 20 := by
    have : nearest (a / 1024) * p ≤ 2 ^ 16 * (25 / 2) := mul_le_mul hgb hp1 hp0.le (by positivity)
    norm_num at this ⊢; linarith
  have hK2 : |nearest (a / 1024) * p| ≤ 2 ^ (20 : Int) := by
    rw [abs_of_nonneg hx2]; norm_num at hx2b ⊢; linarith
  have ry := nearest_error_le _ 20 (by norm_num) hK2
  have r2 : (2 : ℚ) ^ ((20 : Int) - 53) = 1 / 2 ^ 33 := by norm_num
  rw [r2, abs_le] at ry
  refine ⟨nearest (nearest (a / 1024) * p), ?_, nearest_nonneg _ hx2, ?_, ?_⟩
  · rw [eg, F64.fin_mul_fin]
    exact ofRat_fin _ 20 (by norm_num) (by norm_num) hK2
  · norm_num at hx2b ry ⊢; linarith
  · have e1 : (nearest (a / 1024) - a / 1024) * p ≤ 1 / 2 ^ 38 * p :=
      mul_le_mul_of_nonneg_right rg.2 hp0.le
    have e2 : -(1 / 2 ^ 38) * p ≤ (nearest (a / 1024) - a / 1024) * p :=
      mul_le_mul_of_nonneg_right rg.1 hp0.le
    have e3 : (1 : ℚ) / 2 ^ 38 * p ≤ 1 / 2 ^ 38 * (25 / 2) :=
      mul_le_mul_of_nonneg_left hp1 (by positivity)
    have e4 : (nearest (a / 1024) - a / 1024) * p =
        nearest (a / 1024) * p - a / 1024 * p := by ring
    rw [e4] at e1 e2
    rw [abs_le]
    norm_num at e1 e2 e3 ry ⊢
    constructor <;> linarith

/-- Integer parts of two numbers less than 1 apart differ by 1 at most. -/
theorem floor_sub_le_one (u v : ℚ) (h : |u - v| < 1) : |⌊u⌋ - ⌊v⌋| ≤ 1 := by
  have a1 := Int.floor_le u
  have a2 := Int.lt_floor_add_one u
  have b1 := Int.floor_le v
  have b2 := Int.lt_floor_add_one v
  rw [abs_lt] at h
  have c1 : ((⌊u⌋ : Int) : ℚ) < ⌊v⌋ + 2 := by linarith
  have c2 : ((⌊v⌋ : Int) : ℚ) < ⌊u⌋ + 2 := by linarith
  have d1 : ⌊u⌋ < ⌊v⌋ + 2 := by exact_mod_cast c1
  have d2 : ⌊v⌋ < ⌊u⌋ + 2 := by exact_mod_cast c2
  rw [abs_le]
  constructor <;> omega

/-- The cost of a tier for `a` MB and for `a` rounded to two decimals. -/
theorem cost_pair (a p : ℚ) (ha0 : 0 ≤ a) (ha1 : a ≤ 2 ^ 24)
    (hp : p = 5 / 2 ∨ p = 7 ∨ p = 25 / 2) :
    CentApart (((F64.fin a).toFixed2 / F64.fin 1024) * F64.fin p).toFixed2
      ((F64.fin a / F64.fin 1024) * F64.fin p).toFixed2 := by
  have hp0 : 0 < p := by rcases hp with h | h | h <;> rw [h] <;> norm_num
  have hp1 : p ≤ 25 / 2 := by rcases hp with h | h | h <;> rw [h] <;> norm_num
  -- the rounded projection
  have hr := (toFixed2_rounds a).2
  rw [abs_le] at hr
  have hf0 : 0 ≤ toFixed2 a := by
    rw [toFixed2_of_nonneg a ha0]
    have : (0 : Int) ≤ ⌊a * 100 + 1 / 2⌋ := Int.floor_nonneg.2 (by positivity)
    have : (0 : ℚ) ≤ ((⌊a * 100 + 1 / 2⌋ : Int) : ℚ) := by exact_mod_cast this
    positivity
  have hK : |toFixed2 a| ≤ 2 ^ (25 : Int) := by
    rw [abs_of_nonneg hf0]; norm_num at ha1 ⊢; linarith
  have ea : (F64.fin a).toFixed2 = F64.fin (nearest (toFixed2 a)) := by
    rw [F64.toFixed2_fin _ (by rw [abs_of_nonneg ha0]; norm_num at ha1 ⊢; linarith)]
    exact ofRat_fin _ 25 (by norm_num) (by norm_num) hK
  have ra := nearest_error_le _ 25 (by norm_num) hK
  have r1 : (2 : ℚ) ^ ((25 : Int) - 53) = 1 / 2 ^ 28 := by norm_num
  rw [r1, abs_le] at ra
  have hb0 := nearest_nonneg _ hf0
  have hb1 : nearest (toFixed2 a) ≤ 2 ^ 25 := by norm_num at ha1 ra ⊢; linarith
  obtain ⟨y, ey, hy0, hy1, hy⟩ := tier_product a p ha0 (by norm_num at ha1 ⊢; linarith) hp
  obtain ⟨z, ez, hz0, hz1, hz⟩ := tier_product (nearest (toFixed2 a)) p hb0 hb1 hp
  rw [ea, ey, ez, F64.toFixed2_fin y (by rw [abs_of_nonneg hy0]; exact hy1),
    F64.toFixed2_fin z (by rw [abs_of_nonneg hz0]; exact hz1), toFixed2_of_nonneg y hy0,
    toFixed2_of_nonneg z hz0]
  refine ⟨⌊z * 100 + 1 / 2⌋, ⌊y * 100 + 1 / 2⌋, rfl, rfl, ?_⟩
  apply floor_sub_le_one
  rw [abs_le] at hy hz
  have e1 : (nearest (toFixed2 a) - a) * p ≤ (1 / 200 + 1 / 2 ^ 28) * p :=
    mul_le_mul_of_nonneg_right (by linarith) hp0.le
  have e2 : -(1 / 200 + 1 / 2 ^ 28) * p ≤ (nearest (toFixed2 a) - a) * p :=
    mul_le_mul_of_nonneg_right (by linarith) hp0.le
  have e3 : ((1 : ℚ) / 200 + 1 / 2 ^ 28) * p ≤ (1 / 200 + 1 / 2 ^ 28) * (25 / 2) :=
    mul_le_mul_of_nonneg_left hp1 (by positivity)
  have e4 : (nearest (toFixed2 a) - a) * p / 1024 =
      nearest (toFixed2 a) / 1024 * p - a / 1024 * p := by ring
  rw [abs_lt]
  norm_num at e1 e2 e3 hy hz ⊢
  constructor <;> linarith

theorem estimatedCostPer1000_two (i j : Int) (a b : ℚ) :
    (getAggregatedStats [reportOf i a, reportOf j b]).map
        (fun stats => stats.estimatedCostPer1000) =
      some (calculateCost
        ((F64.fin 0 + F64.ofRat a + F64.ofRat b) / F64.ofRat 2 * F64.fin 1000)) := rfl

theorem printed_costs_two (i j : Int) (a b : ℚ) :
    (displayFinalReport [reportOf i a, reportOf j b]).map (fun shown => shown.costs) =
      some (calculateCost
        ((F64.fin 0 + F64.ofRat a + F64.ofRat b) / F64.ofRat 2 * F64.fin 1000).toFixed2) :=
  rfl

/-- C29 (counterexample): two reports of 0.01 and 2.55 MB.  The double mean
times 1000 is 1279.9999999999998; `estimatedCostPer1000`, computed from it,
is 3.12, 8.75 and 15.62, whereas `displayFinalReport` prints the costs of the
rounded projection 1280.00, which are 3.13, 8.75 and 15.63. -/
theorem C29_printed_cost_differs :
    (getAggregatedStats [reportOf 1 (1 / 100), reportOf 2 (51 / 20)]).map
        (fun stats => stats.estimatedCostPer1000) =
      some
        { proxyCheap := F64.ofRat (78 / 25)
          iproyal := F64.ofRat (35 / 4)
          brightData := F64.ofRat (781 / 50) } ∧
    (displayFinalReport [reportOf 1 (1 / 100), reportOf 2 (51 / 20)]).map
        (fun shown => shown.costs) =
      some
        { proxyCheap := F64.ofRat (313 / 100)
          iproyal := F64.ofRat (35 / 4)
          brightData := F64.ofRat (1563 / 100) } ∧
    F64.ofRat (78 / 25) ≠ F64.ofRat (313 / 100) ∧
    F64.ofRat (781 / 50) ≠ F64.ofRat (1563 / 100) := by
  refine ⟨?_, ?_, ?_, ?_⟩
  · rw [estimatedCostPer1000_two, calculateCost_eq]
    have e1 : F64.ofRat (1 / 100) =
        F64.fin (5764607523034235 / 576460752303423488) :=
      ofRat_eval _ _ (-7) 5764607523034235 (by norm_num) (by norm_num) (by norm_num)
        (by norm_num) (by norm_num) (by norm_num) (by norm_num)
    have e2 : F64.ofRat (51 / 20) =
        F64.fin (2871044762448691 / 1125899906842624) :=
      ofRat_eval _ _ (1) 5742089524897382 (by norm_num) (by norm_num) (by norm_num)
        (by norm_num) (by norm_num) (by norm_num) (by norm_num)
    have e3 : F64.ofRat (2) =
        F64.fin (2) :=
      ofRat_eval _ _ (1) 4503599627370496 (by norm_num) (by norm_num) (by norm_num)
        (by norm_num) (by norm_num) (by norm_num) (by norm_num)
    have e4 : F64.fin (0) +
        F64.fin (5764607523034235 / 576460752303423488) =
        F64.fin (5764607523034235 / 576460752303423488) :=
      ofRat_eval _ _ (-7) 5764607523034235 (by norm_num) (by norm_num) (by norm_num)
        (by norm_num) (by norm_num) (by norm_num) (by norm_num)
    have e5 : F64.fin (5764607523034235 / 576460752303423488) +
        F64.fin (2871044762448691 / 1125899906842624) =
        F64.fin (2882303761517117 / 1125899906842624) :=
      ofRat_eval _ _ (1) 5764607523034234 (by norm_num) (by norm_num) (by norm_num)
        (by norm_num) (by norm_num) (by norm_num) (by norm_num)
    have e6 : F64.fin (2882303761517117 / 1125899906842624) /
        F64.fin (2) =
        F64.fin (2882303761517117 / 2251799813685248) :=
      by
      rw [F64.fin_div_fin _ _ (by norm_num)]
      exact ofRat_eval _ _ (0) 5764607523034234 (by norm_num) (by norm_num) (by norm_num)
        (by norm_num) (by norm_num) (by norm_num) (by norm_num)
    have e7 : F64.fin (2882303761517117 / 2251799813685248) *
        F64.fin (1000) =
        F64.fin (5629499534213119 / 4398046511104) :=
      ofRat_eval _ _ (10) 5629499534213119 (by norm_num) (by norm_num) (by norm_num)
        (by norm_num) (by norm_num) (by norm_num) (by norm_num)
    have e8 : F64.fin (5629499534213119 / 4398046511104) /
        F64.fin (1024) =
        F64.fin (5629499534213119 / 4503599627370496) :=
      by
      rw [F64.fin_div_fin _ _ (by norm_num)]
      exact ofRat_eval _ _ (0) 5629499534213119 (by norm_num) (by norm_num) (by norm_num)
        (by norm_num) (by norm_num) (by norm_num) (by norm_num)
    have e9 : F64.fin (5629499534213119 / 4503599627370496) *
        F64.fin (5 / 2) =
        F64.fin (7036874417766399 / 2251799813685248) :=
      ofRat_eval _ _ (1) 7036874417766399 (by norm_num) (by norm_num) (by norm_num)
        (by norm_num) (by norm_num) (by norm_num) (by norm_num)
    have e10 : (F64.fin (7036874417766399 / 2251799813685248)).toFixed2 =
        F64.ofRat (78 / 25) :=
      by
      rw [F64.toFixed2_fin _ (by norm_num [abs_lt])]
      congr 1
      norm_num [toFixed2, Int.floor_eq_iff]
    have e11 : F64.fin (5629499534213119 / 4503599627370496) *
        F64.fin (7) =
        F64.fin (4925812092436479 / 562949953421312) :=
      ofRat_eval _ _ (3) 4925812092436479 (by norm_num) (by norm_num) (by norm_num)
        (by norm_num) (by norm_num) (by norm_num) (by norm_num)
    have e12 : (F64.fin (4925812092436479 / 562949953421312)).toFixed2 =
        F64.ofRat (35 / 4) :=
      by
      rw [F64.toFixed2_fin _ (by norm_num [abs_lt])]
      congr 1
      norm_num [toFixed2, Int.floor_eq_iff]
    have e13 : F64.fin (5629499534213119 / 4503599627370496) *
        F64.fin (25 / 2) =
        F64.fin (4398046511103999 / 281474976710656) :=
      ofRat_eval _ _ (3) 8796093022207998 (by norm_num) (by norm_num) (by norm_num)
        (by norm_num) (by norm_num) (by norm_num) (by norm_num)
    have e14 : (F64.fin (4398046511103999 / 281474976710656)).toFixed2 =
        F64.ofRat (781 / 50) :=
      by
      rw [F64.toFixed2_fin _ (by norm_num [abs_lt])]
      congr 1
      norm_num [toFixed2, Int.floor_eq_iff]
    rw [e1, e2, e3, e4, e5, e6, e7, e8, e9, e10, e11, e12, e13, e14]
  · rw [printed_costs_two]
    have d1 : F64.ofRat (1 / 100) =
        F64.fin (5764607523034235 / 576460752303423488) :=
      ofRat_eval _ _ (-7) 5764607523034235 (by norm_num) (by norm_num) (by norm_num)
        (by norm_num) (by norm_num) (by norm_num) (by norm_num)
    have d2 : F64.ofRat (51 / 20) =
        F64.fin (2871044762448691 / 1125899906842624) :=
      ofRat_eval _ _ (1) 5742089524897382 (by norm_num) (by norm_num) (by norm_num)
        (by norm_num) (by norm_num) (by norm_num) (by norm_num)
    have d3 : F64.ofRat (2) =
        F64.fin (2) :=
      ofRat_eval _ _ (1) 4503599627370496 (by norm_num) (by norm_num) (by norm_num)
        (by norm_num) (by norm_num) (by norm_num) (by norm_num)
    have d4 : F64.fin (0) +
        F64.fin (5764607523034235 / 576460752303423488) =
        F64.fin (5764607523034235 / 576460752303423488) :=
      ofRat_eval _ _ (-7) 5764607523034235 (by norm_num) (by norm_num) (by norm_num)
        (by norm_num) (by norm_num) (by norm_num) (by norm_num)
    have d5 : F64.fin (5764607523034235 / 576460752303423488) +
        F64.fin (2871044762448691 / 1125899906842624) =
        F64.fin (2882303761517117 / 1125899906842624) :=
      ofRat_eval _ _ (1) 5764607523034234 (by norm_num) (by norm_num) (by norm_num)
        (by norm_num) (by norm_num) (by norm_num) (by norm_num)
    have d6 : F64.fin (2882303761517117 / 1125899906842624) /
        F64.fin (2) =
        F64.fin (2882303761517117 / 2251799813685248) :=
      by
      rw [F64.fin_div_fin _ _ (by norm_num)]
      exact ofRat_eval _ _ (0) 5764607523034234 (by norm_num) (by norm_num) (by norm_num)
        (by norm_num) (by norm_num) (by norm_num) (by norm_num)
    have d7 : F64.fin (2882303761517117 / 2251799813685248) *
        F64.fin (1000) =
        F64.fin (5629499534213119 / 4398046511104) :=
      ofRat_eval _ _ (10) 5629499534213119 (by norm_num) (by norm_num) (by norm_num)
        (by norm_num) (by norm_num) (by norm_num) (by norm_num)
    have d8 : (F64.fin (5629499534213119 / 4398046511104)).toFixed2 =
        F64.ofRat (1280) :=
      by
      rw [F64.toFixed2_fin _ (by norm_num [abs_lt])]
      congr 1
      norm_num [toFixed2, Int.floor_eq_iff]
    have d9 : F64.ofRat (1280) =
        F64.fin (1280) :=
      ofRat_eval _ _ (10) 5629499534213120 (by norm_num) (by norm_num) (by norm_num)
        (by norm_num) (by norm_num) (by norm_num) (by norm_num)
    have d10 : F64.fin (1280) /
        F64.fin (1024) =
        F64.fin (5 / 4) :=
      by
      rw [F64.fin_div_fin _ _ (by norm_num)]
      exact ofRat_eval _ _ (0) 5629499534213120 (by norm_num) (by norm_num) (by norm_num)
        (by norm_num) (by norm_num) (by norm_num) (by norm_num)
    have d11 : F64.fin (5 / 4) *
        F64.fin (5 / 2) =
        F64.fin (25 / 8) :=
      ofRat_eval _ _ (1) 7036874417766400 (by norm_num) (by norm_num) (by norm_num)
        (by norm_num) (by norm_num) (by norm_num) (by norm_num)
    have d12 : (F64.fin (25 / 8)).toFixed2 =
        F64.ofRat (313 / 100) :=
      by
      rw [F64.toFixed2_fin _ (by norm_num [abs_lt])]
      congr 1
      norm_num [toFixed2, Int.floor_eq_iff]
    have d13 : F64.fin (5 / 4) *
        F64.fin (7) =
        F64.fin (35 / 4) :=
      ofRat_eval _ _ (3) 4925812092436480 (by norm_num) (by norm_num) (by norm_num)
        (by norm_num) (by norm_num) (by norm_num) (by norm_num)
    have d14 : (F64.fin (35 / 4)).toFixed2 =
        F64.ofRat (35 / 4) :=
      by
      rw [F64.toFixed2_fin _ (by norm_num [abs_lt])]
      congr 1
      norm_num [toFixed2, Int.floor_eq_iff]
    have d15 : F64.fin (5 / 4) *
        F64.fin (25 / 2) =
        F64.fin (125 / 8) :=
      ofRat_eval _ _ (3) 8796093022208000 (by norm_num) (by norm_num) (by norm_num)
        (by norm_num) (by norm_num) (by norm_num) (by norm_num)
    have d16 : (F64.fin (125 / 8)).toFixed2 =
        F64.ofRat (1563 / 100) :=
      by
      rw [F64.toFixed2_fin _ (by norm_num [abs_lt])]
      congr 1
      norm_num [toFixed2, Int.floor_eq_iff]
    rw [d1, d2, d3, d4, d5, d6, d7, d8, d9]
    rw [calculateCost_eq]
    rw [d10, d11, d12, d13, d14, d15, d16]
  ·
    have c1 : F64.ofRat (78 / 25) =
        F64.fin (3512807709348987 / 1125899906842624) :=
      ofRat_eval _ _ (1) 7025615418697974 (by norm_num) (by norm_num) (by norm_num)
        (by norm_num) (by norm_num) (by norm_num) (by norm_num)
    have c2 : F64.ofRat (313 / 100) =
        F64.fin (3524066708417413 / 1125899906842624) :=
      ofRat_eval _ _ (1) 7048133416834826 (by norm_num) (by norm_num) (by norm_num)
        (by norm_num) (by norm_num) (by norm_num) (by norm_num)
    have c3 : F64.ofRat (781 / 50) =
        F64.fin (8793278272440893 / 562949953421312) :=
      ofRat_eval _ _ (3) 8793278272440893 (by norm_num) (by norm_num) (by norm_num)
        (by norm_num) (by norm_num) (by norm_num) (by norm_num)
    have c4 : F64.ofRat (1563 / 100) =
        F64.fin (8798907771975107 / 562949953421312) :=
      ofRat_eval _ _ (3) 8798907771975107 (by norm_num) (by norm_num) (by norm_num)
        (by norm_num) (by norm_num) (by norm_num) (by norm_num)
    rw [c1, c2]
    intro h
    injection h with h
    norm_num at h
  ·
    have c1 : F64.ofRat (78 / 25) =
        F64.fin (3512807709348987 / 1125899906842624) :=
      ofRat_eval _ _ (1) 7025615418697974 (by norm_num) (by norm_num) (by norm_num)
        (by norm_num) (by norm_num) (by norm_num) (by norm_num)
    have c2 : F64.ofRat (313 / 100) =
        F64.fin (3524066708417413 / 1125899906842624) :=
      ofRat_eval _ _ (1) 7048133416834826 (by norm_num) (by norm_num) (by norm_num)
        (by norm_num) (by norm_num) (by norm_num) (by norm_num)
    have c3 : F64.ofRat (781 / 50) =
        F64.fin (8793278272440893 / 562949953421312) :=
      ofRat_eval _ _ (3) 8793278272440893 (by norm_num) (by norm_num) (by norm_num)
        (by norm_num) (by norm_num) (by norm_num) (by norm_num)
    have c4 : F64.ofRat (1563 / 100) =
        F64.fin (8798907771975107 / 562949953421312) :=
      ofRat_eval _ _ (3) 8798907771975107 (by norm_num) (by norm_num) (by norm_num)
        (by norm_num) (by norm_num) (by norm_num) (by norm_num)
    rw [c3, c4]
    intro h
    injection h with h
    norm_num at h

theorem displayFinalReport_costs (reports : List Report) (stats : AggregatedStats)
    (h : getAggregatedStats reports = some stats) :
    ∃ shown, displayFinalReport reports = some shown ∧
      shown.costs = calculateCost stats.projections.per1000 := by
  unfold displayFinalReport
  rw [h]
  exact ⟨_, rfl, rfl⟩

/-- C29 (amended): for session reports, at most 1000 of them, whose `totalMB`
are whole numbers of hundredths of at most 1000 MB, the cost of each tier
printed by `displayFinalReport` (the cost of the rounded projection `per1000`)
and the cost in `estimatedCostPer1000` (the cost of the unrounded
`avgMB * 1000`) are whole numbers of hundredths that are equal or one hundredth
apart. -/
theorem C29_printed_cost_within_a_cent (reports : List Report) (ks : List ℕ)
    (hne : reports ≠ [])
    (hk : reports.map (fun r => r.totalMB) =
      ks.map (fun (k : ℕ) => JSNumber.val ((k : ℚ) / 100)))
    (hM : ∀ k ∈ ks, k ≤ 100000) (hn : reports.length ≤ 1000) :
    ∃ stats shown, getAggregatedStats reports = some stats ∧
      displayFinalReport reports = some shown ∧
      shown.costs = calculateCost stats.projections.per1000 ∧
      CentApart shown.costs.proxyCheap stats.estimatedCostPer1000.proxyCheap ∧
      CentApart shown.costs.iproyal stats.estimatedCostPer1000.iproyal ∧
      CentApart shown.costs.brightData stats.estimatedCostPer1000.brightData := by
  obtain ⟨a, ea, hclose, ha0, hμ0, hμ1⟩ := session_mean reports ks hne hk hM hn
  obtain ⟨y, ey, hy0, hy1, -⟩ := scale_mean a _ 1000 ha0 hμ1 hclose (by norm_num)
    (by norm_num)
  cases reports with
  | nil => exact absurd rfl hne
  | cons r rs =>
    obtain ⟨stats, hs, -, -, -, -, -, -, h7, -, h9⟩ := getAggregatedStats_cons r rs
    obtain ⟨shown, hd, hc⟩ := displayFinalReport_costs (r :: rs) stats hs
    rw [ea, ey] at h7 h9
    refine ⟨stats, shown, hs, hd, hc, ?_, ?_, ?_⟩
    · rw [hc, h7, h9, calculateCost_eq, calculateCost_eq]
      exact cost_pair y _ hy0 hy1 (Or.inl rfl)
    · rw [hc, h7, h9, calculateCost_eq, calculateCost_eq]
      exact cost_pair y _ hy0 hy1 (Or.inr (Or.inl rfl))
    · rw [hc, h7, h9, calculateCost_eq, calculateCost_eq]
      exact cost_pair y _ hy0 hy1 (Or.inr (Or.inr rfl))

/-- Witness of C29 (amended): the two reports of 0.01 and 2.55 MB. -/
theorem C29_printed_cost_within_a_cent_witness :
    ∃ stats shown,
      getAggregatedStats [reportOf 1 (1 / 100), reportOf 2 (51 / 20)] = some stats ∧
      displayFinalReport [reportOf 1 (1 / 100), reportOf 2 (51 / 20)] = some shown ∧
      shown.costs = calculateCost stats.projections.per1000 ∧
      CentApart shown.costs.proxyCheap stats.estimatedCostPer1000.proxyCheap ∧
      CentApart shown.costs.iproyal stats.estimatedCostPer1000.iproyal ∧
      CentApart shown.costs.brightData stats.estimatedCostPer1000.brightData :=
  C29_printed_cost_within_a_cent [reportOf 1 (1 / 100), reportOf 2 (51 / 20)] [1, 255]
    (by simp) (by simp [reportOf]; norm_num) (by decide) (by simp)

/-! ## A report that holds no number -/

theorem F64.add_nan_right (x : F64) : x + F64.nan = F64.nan := by
  cases x <;> rfl

theorem F64.min_nan (x : F64) : F64.min x F64.nan = F64.nan := by
  cases x with
  | nan => rfl
  | inf s => cases s <;> rfl
  | fin q => rfl

theorem F64.max_nan (x : F64) : F64.max x F64.nan = F64.nan := by
  cases x with
  | nan => rfl
  | inf s => cases s <;> rfl
  | fin q => rfl

/-- C28: a session that received a `content-length` header holding no number
gives a report with `totalMB = NaN`.  Added to the aggregator after a report of
1.50 MB, it makes the minimum, the mean and the maximum of the statistics
`NaN`, and neither `min <= mean` nor `mean <= max` holds. -/
theorem C28_nan_report_breaks_order :
    nanReport.totalMB = JSNumber.nan ∧
    ∃ stats, getAggregatedStats [reportOf 1 (3 / 2), nanReport] = some stats ∧
      stats.minPerSimulationMB = F64.nan ∧
      stats.averagePerSimulationMB = F64.nan ∧
      stats.maxPerSimulationMB = F64.nan ∧
      ¬ F64.le stats.minPerSimulationMB stats.averagePerSimulationMB ∧
      ¬ F64.le stats.averagePerSimulationMB stats.maxPerSimulationMB := by
  refine ⟨nanReport_totalMB, ?_⟩
  obtain ⟨stats, hs, -, -, h3, h4, h5, -, -, -, -⟩ :=
    getAggregatedStats_cons (reportOf 1 (3 / 2)) [nanReport]
  have hnan : F64.ofJSNumber nanReport.totalMB = F64.nan := by
    rw [nanReport_totalMB]; rfl
  have hmin : stats.minPerSimulationMB = F64.nan := by
    rw [h4, List.foldl_cons, List.foldl_nil, hnan, F64.min_nan]; rfl
  have hmax : stats.maxPerSimulationMB = F64.nan := by
    rw [h5, List.foldl_cons, List.foldl_nil, hnan, F64.max_nan]; rfl
  have havg : stats.averagePerSimulationMB = F64.nan := by
    rw [h3, List.foldl_cons, List.foldl_cons, List.foldl_nil, hnan, F64.add_nan_right]; rfl
  refine ⟨stats, hs, hmin, havg, hmax, ?_, ?_⟩
  · rw [hmin, havg]; exact fun h => h
  · rw [havg, hmax]; exact fun h => h

theorem F64.le_fin_fin (a b : ℚ) : F64.le (F64.fin a) (F64.fin b) ↔ a ≤ b := Iff.rfl

/-- The doubles of two whole numbers of hundredths in order are in order. -/
theorem le_ofRat_hundredths (a b : ℕ) (hb : b ≤ 100000) (h : a ≤ b) :
    F64.le (F64.ofRat ((a : ℚ) / 100)) (F64.ofRat ((b : ℚ) / 100)) := by
  have ha : a ≤ 100000 := le_trans h hb
  rw [(ofRat_hundredths a ha).1, (ofRat_hundredths b hb).1, F64.le_fin_fin]
  exact nearest_hundredths_le a b ha hb h

/-- A figure that is the exact value `e` rounded to two decimals, or at a tie
the hundredth below, is a whole number of hundredths between any two whole
numbers of hundredths that enclose `e`. -/
theorem roundedOrTieBelow_between (x : F64) (e : ℚ) (lo hi : ℕ) (h : RoundedOrTieBelow x e)
    (h1 : (lo : ℚ) ≤ e * 100) (h2 : e * 100 ≤ (hi : ℚ)) :
    ∃ m : ℕ, x = F64.ofRat ((m : ℚ) / 100) ∧ lo ≤ m ∧ m ≤ hi := by
  have he : 0 ≤ e := by
    have : (0 : ℚ) ≤ lo := Nat.cast_nonneg lo
    linarith
  have hJ1 : (lo : Int) ≤ ⌊e * 100 + 1 / 2⌋ := by
    rw [Int.le_floor]; push_cast; linarith
  have hJ2 : ⌊e * 100 + 1 / 2⌋ ≤ (hi : Int) := by
    have : ⌊e * 100 + 1 / 2⌋ < (hi : Int) + 1 := by
      rw [Int.floor_lt]; push_cast; linarith
    omega
  rcases h with h | ⟨ht, h⟩
  · refine ⟨⌊e * 100 + 1 / 2⌋.toNat, ?_, ?_, ?_⟩
    · rw [h, toFixed2_of_nonneg e he]
      congr 2
      have : (0 : Int) ≤ ⌊e * 100 + 1 / 2⌋ := by omega
      have h3 : ((⌊e * 100 + 1 / 2⌋.toNat : ℕ) : Int) = ⌊e * 100 + 1 / 2⌋ :=
        Int.toNat_of_nonneg this
      have h4 : (((⌊e * 100 + 1 / 2⌋.toNat : ℕ) : Int) : ℚ) = ((⌊e * 100 + 1 / 2⌋ : Int) : ℚ) := by
        rw [h3]
      rw [← h4]; norm_cast
    · omega
    · omega
  · -- the tie: `e * 100` is a whole number and a half
    have hfl := Int.floor_add_fract (e * 100)
    rw [ht] at hfl
    have hJ : ⌊e * 100 + 1 / 2⌋ = ⌊e * 100⌋ + 1 := by
      rw [Int.floor_eq_iff]; push_cast; constructor <;> linarith
    have hI1 : (lo : Int) ≤ ⌊e * 100⌋ := by
      have : ((lo : Int) : ℚ) < ((⌊e * 100⌋ + 1 : Int) : ℚ) := by push_cast; linarith
      have : (lo : Int) < ⌊e * 100⌋ + 1 := by exact_mod_cast this
      omega
    have hI2 : ⌊e * 100⌋ ≤ (hi : Int) := by omega
    refine ⟨⌊e * 100⌋.toNat, ?_, ?_, ?_⟩
    · rw [h, toFixed2_of_nonneg e he, hJ]
      congr 1
      have : (0 : Int) ≤ ⌊e * 100⌋ := by omega
      have h3 : ((⌊e * 100⌋.toNat : ℕ) : Int) = ⌊e * 100⌋ := Int.toNat_of_nonneg this
      have h4 : (((⌊e * 100⌋.toNat : ℕ) : Int) : ℚ) = ((⌊e * 100⌋ : Int) : ℚ) := by rw [h3]
      have h5 : ((⌊e * 100⌋.toNat : ℕ) : ℚ) = ((⌊e * 100⌋ : Int) : ℚ) := by
        rw [← h4]; norm_cast
      rw [h5]; push_cast; ring
    · omega
    · omega

/-- The intended order of the statistics holds for session reports: for at most
1000 reports whose `totalMB` are whole numbers of hundredths of at most 1000 MB,
`min <= mean <= max`, the minimum and the maximum being the doubles of the
least and of the greatest `totalMB`. -/
theorem session_min_mean_max (reports : List Report) (ks : List ℕ) (hne : reports ≠ [])
    (hk : reports.map (fun r => r.totalMB) =
      ks.map (fun (k : ℕ) => JSNumber.val ((k : ℚ) / 100)))
    (hM : ∀ k ∈ ks, k ≤ 100000) (hn : reports.length ≤ 1000) :
    ∃ (stats : AggregatedStats) (lo hi : ℕ), getAggregatedStats reports = some stats ∧
      lo ∈ ks ∧ (∀ k ∈ ks, lo ≤ k) ∧ hi ∈ ks ∧ (∀ k ∈ ks, k ≤ hi) ∧
      stats.minPerSimulationMB = F64.ofRat ((lo : ℚ) / 100) ∧
      stats.maxPerSimulationMB = F64.ofRat ((hi : ℚ) / 100) ∧
      F64.le stats.minPerSimulationMB stats.averagePerSimulationMB ∧
      F64.le stats.averagePerSimulationMB stats.maxPerSimulationMB := by
  obtain ⟨stats, lo, hi, hs, -, -, l1, l2, l3, u1, u2, u3⟩ :=
    session_stats reports ks hne hk hM hn
  have havg : RoundedOrTieBelow stats.averagePerSimulationMB
      ((ks.sum : ℚ) / 100 / (reports.length : ℚ)) := by
    have h := session_average reports ks hne hk hM hn
    cases reports with
    | nil => exact absurd rfl hne
    | cons r rs =>
      obtain ⟨stats', hs', -, -, h3, -, -, -, -, -, -⟩ := getAggregatedStats_cons r rs
      have hst : stats' = stats := by
        rw [hs] at hs'; exact (Option.some.inj hs').symm
      rw [hst] at h3
      rw [h3]; exact h
  have hlen : ks.length = reports.length := by
    have := congrArg List.length hk
    simpa using this.symm
  have hksne : ks ≠ [] := by
    intro h; rw [h] at hlen; exact hne (List.length_eq_zero.1 hlen.symm)
  have hmean := mean_between (ks.map (fun (k : ℕ) => (k : ℚ))) lo hi (by simpa using hksne)
    (by
      intro y hy
      obtain ⟨k, hk1, rfl⟩ := List.mem_map.1 hy
      exact_mod_cast l2 k hk1)
    (by
      intro y hy
      obtain ⟨k, hk1, rfl⟩ := List.mem_map.1 hy
      exact_mod_cast u2 k hk1)
  have hsum : (ks.map (fun (k : ℕ) => (k : ℚ))).sum = (ks.sum : ℚ) := by
    rw [Nat.cast_list_sum]
  rw [hsum, List.length_map, hlen] at hmean
  have e100 : (ks.sum : ℚ) / 100 / (reports.length : ℚ) * 100 =
      (ks.sum : ℚ) / (reports.length : ℚ) := by ring
  obtain ⟨m, hm, hm1, hm2⟩ := roundedOrTieBelow_between _ _ lo hi havg
    (by rw [e100]; exact hmean.1) (by rw [e100]; exact hmean.2)
  have hhi : hi ≤ 100000 := hM hi u1
  refine ⟨stats, lo, hi, hs, l1, l2, u1, u2, l3, u3, ?_, ?_⟩
  · rw [l3, hm]
    exact le_ofRat_hundredths lo m (le_trans hm2 hhi) hm1
  · rw [u3, hm]
    exact le_ofRat_hundredths m hi hhi hm2

theorem figures_three (i j k : Int) (a b c : ℚ) :
    (getAggregatedStats [reportOf i a, reportOf j b, reportOf k c]).map
        (fun stats => (stats.minPerSimulationMB, stats.averagePerSimulationMB,
          stats.maxPerSimulationMB)) =
      some ((F64.min (F64.min (F64.ofRat a) (F64.ofRat b)) (F64.ofRat c)).toFixed2,
        ((F64.fin 0 + F64.ofRat a + F64.ofRat b + F64.ofRat c) / F64.ofRat 3).toFixed2,
        (F64.max (F64.max (F64.ofRat a) (F64.ofRat b)) (F64.ofRat c)).toFixed2) := rfl

/-- Three reports of 0.045 MB each.  The statistics show a minimum and a
maximum of 0.04 MB and a mean of 0.05 MB: the double 0.045 lies below 0.045,
the quotient by 3 of the double sum above.  With totals of more than two
decimals, which `generateReport` does not produce, the mean shown can leave
the range of the minimum and the maximum shown. -/
theorem mean_above_max_of_three_reports :
    (getAggregatedStats
        [reportOf 1 (9 / 200), reportOf 2 (9 / 200), reportOf 3 (9 / 200)]).map
        (fun stats => (stats.minPerSimulationMB, stats.averagePerSimulationMB,
          stats.maxPerSimulationMB)) =
      some (F64.ofRat (1 / 25), F64.ofRat (1 / 20), F64.ofRat (1 / 25)) ∧
    ¬ F64.le (F64.ofRat (1 / 20)) (F64.ofRat (1 / 25)) := by
  constructor
  · rw [figures_three]
    have e1 : F64.ofRat (9 / 200) =
        F64.fin (3242591731706757 / 72057594037927936) :=
      ofRat_eval _ _ (-5) 6485183463413514 (by norm_num) (by norm_num) (by norm_num)
        (by norm_num) (by norm_num) (by norm_num) (by norm_num)
    have e2 : F64.ofRat (3) =
        F64.fin (3) :=
      ofRat_eval _ _ (1) 6755399441055744 (by norm_num) (by norm_num) (by norm_num)
        (by norm_num) (by norm_num) (by norm_num) (by norm_num)
    have e3 : F64.fin (0) +
        F64.fin (3242591731706757 / 72057594037927936) =
        F64.fin (3242591731706757 / 72057594037927936) :=
      ofRat_eval _ _ (-5) 6485183463413514 (by norm_num) (by norm_num) (by norm_num)
        (by norm_num) (by norm_num) (by norm_num) (by norm_num)
    have e4 : F64.fin (3242591731706757 / 72057594037927936) +
        F64.fin (3242591731706757 / 72057594037927936) =
        F64.fin (3242591731706757 / 36028797018963968) :=
      ofRat_eval _ _ (-4) 6485183463413514 (by norm_num) (by norm_num) (by norm_num)
        (by norm_num) (by norm_num) (by norm_num) (by norm_num)
    have e5 : F64.fin (3242591731706757 / 36028797018963968) +
        F64.fin (3242591731706757 / 72057594037927936) =
        F64.fin (607985949695017 / 4503599627370496) :=
      ofRat_eval_tie_up _ _ (-3) 4863887597560135 (by norm_num) (by norm_num) (by norm_num)
        (by norm_num) (by norm_num) (by norm_num) (by norm_num)
    have e6 : F64.fin (607985949695017 / 4503599627370496) /
        F64.fin (3) =
        F64.fin (6485183463413515 / 144115188075855872) :=
      by
      rw [F64.fin_div_fin _ _ (by norm_num)]
      exact ofRat_eval _ _ (-5) 6485183463413515 (by norm_num) (by norm_num) (by norm_num)
        (by norm_num) (by norm_num) (by norm_num) (by norm_num)
    have e7 : (F64.fin (6485183463413515 / 144115188075855872)).toFixed2 =
        F64.ofRat (1 / 20) :=
      by
      rw [F64.toFixed2_fin _ (by norm_num [abs_lt])]
      congr 1
      norm_num [toFixed2, Int.floor_eq_iff]
    have e8 : (F64.fin (3242591731706757 / 72057594037927936)).toFixed2 =
        F64.ofRat (1 / 25) :=
      by
      rw [F64.toFixed2_fin _ (by norm_num [abs_lt])]
      congr 1
      norm_num [toFixed2, Int.floor_eq_iff]
    rw [e1, e2]
    rw [F64.min_fin_fin, F64.max_fin_fin, min_self, max_self, F64.min_fin_fin, F64.max_fin_fin,
      min_self, max_self]
    rw [e3, e4, e5, e6, e7, e8]
  ·
    have c1 : F64.ofRat (1 / 20) =
        F64.fin (3602879701896397 / 72057594037927936) :=
      ofRat_eval _ _ (-5) 7205759403792794 (by norm_num) (by norm_num) (by norm_num)
        (by norm_num) (by norm_num) (by norm_num) (by norm_num)
    have c2 : F64.ofRat (1 / 25) =
        F64.fin (5764607523034235 / 144115188075855872) :=
      ofRat_eval _ _ (-5) 5764607523034235 (by norm_num) (by norm_num) (by norm_num)
        (by norm_num) (by norm_num) (by norm_num) (by norm_num)
    rw [c1, c2, F64.le_fin_fin]
    norm_num

end Binary64

end LeadSim
